import Mathlib

/-!
# humanlog: the line scanner and the logfmt handler

A shallow embedding of `scanner.go`, `logfmt_handler.go`, `handler.go` and the
check on skip and keep at the end of `app.Action` in `cmd/humanlog/main.go`.

* Go byte slices and Go strings are both byte sequences; they are embedded as
  lists of byte values (`Bytes`), and `string(b)` / `[]byte(s)` are the identity.
* A Go `map[string]string` is embedded as an association list with pairwise
  distinct keys (`GoMap`); assigning to a key replaces its value in place or
  adds the key.
* Mutable receivers (`*LogfmtHandler`, the output event) are passed explicitly:
  a method returns the new value of everything it may have written.
* Code this development depends on but that lies outside the files at hand
  (the go-logfmt decoder, `tryParseTime`, the JSON handler, the prefix adapters,
  `Prettify`) is taken as a parameter.
* Truncation and key ordering belong to the renderer, which is not among the
  files at hand: they are modelled from the specification, and so is
  `HandlerOptionsFrom`.
-/

namespace Humanlog

/-! ## Data model -/

/-- A byte slice or a Go string: the sequence of its byte values. -/
abbrev Bytes := List Nat

/-- The bytes of an ASCII string literal. -/
def ascii (s : String) : Bytes := s.toList.map Char.toNat

/-- Go's `time.Time` reduced to the instant it denotes, counted in nanoseconds
from the zero instant (January 1, year 1, 00:00:00 UTC). -/
structure GoTime where
  nanos : Int
deriving DecidableEq, Repr

/-- The zero value `time.Time{}`. -/
def GoTime.zero : GoTime := ⟨0⟩

/-- Go's `Time.IsZero`: the instant is the zero instant. -/
def GoTime.IsZero (t : GoTime) : Bool := t.nanos == 0

/-- Type `ColorMode` of handler.go (`iota` constants, in order). -/
inductive ColorMode where
  | ColorModeOff
  | ColorModeOn
  | ColorModeAuto
deriving DecidableEq, Repr

/-- Type `HandlerOptions` of handler.go, without the colour attributes (they
only feed the renderer). `Skip` and `Keep` are Go sets (`map[string]struct{}`),
`none` being the nil map. -/
structure HandlerOptions where
  Skip : Option (List Bytes)
  Keep : Option (List Bytes)
  TimeFields : List Bytes
  MessageFields : List Bytes
  LevelFields : List Bytes
  SortLongest : Bool
  SkipUnchanged : Bool
  Truncates : Bool
  LightBg : Bool
  ColorFlag : ColorMode
  TruncateLength : Int
  TimeFormat : Bytes
deriving DecidableEq, Repr

/-- Value `DefaultOptions` of handler.go (`time.Stamp` is the layout
`Jan _2 15:04:05`). -/
def DefaultOptions : HandlerOptions :=
  { Skip := none
    Keep := none
    TimeFields := [ascii "time", ascii "ts", ascii "@timestamp", ascii "timestamp"]
    MessageFields := [ascii "message", ascii "msg"]
    LevelFields := [ascii "level", ascii "lvl", ascii "loglevel", ascii "severity"]
    SortLongest := true
    SkipUnchanged := true
    Truncates := true
    LightBg := false
    ColorFlag := ColorMode.ColorModeAuto
    TruncateLength := 15
    TimeFormat := ascii "Jan _2 15:04:05" }

/-- A Go `map[string]string`: key/value entries with pairwise distinct keys. -/
abbrev GoMap := List (Bytes × Bytes)

/-- The map assignment `m[k] = v`: replaces the value of `k` when the key is
present and adds the entry otherwise. -/
def mapSet (m : GoMap) (k v : Bytes) : GoMap :=
  match m with
  | [] => [(k, v)]
  | (k', v') :: rest =>
    if k' = k then (k', v) :: rest else (k', v') :: mapSet rest k v

/-- The keys of a map. -/
def mapKeys (m : GoMap) : List Bytes := m.map Prod.fst

/-- The map lookup `m[k]` with its presence flag. -/
def mapGet (m : GoMap) (k : Bytes) : Option Bytes :=
  match m with
  | [] => none
  | (k', v') :: rest => if k' = k then some v' else mapGet rest k

/-- Type `typesv1.KV`. -/
structure KV where
  Key : Bytes
  Value : Bytes
deriving DecidableEq, Repr

/-- Type `typesv1.StructuredLogEvent`, the output event of a handler.
`Timestamp` is a pointer in Go (`none` is nil) and `timestamppb.New` keeps the
instant. -/
structure StructuredLogEvent where
  Timestamp : Option GoTime
  Msg : Bytes
  Lvl : Bytes
  Kvs : List KV
deriving DecidableEq, Repr

/-- Type `LogfmtHandler` of logfmt_handler.go. `Fields` is `none` for the nil
map. -/
structure LogfmtHandler where
  Opts : HandlerOptions
  Level : Bytes
  Time : GoTime
  Message : Bytes
  Fields : Option GoMap
deriving DecidableEq, Repr

/-- What the go-logfmt decoder yields on one input: the key/value pairs that the
loops over `ScanRecord` and `ScanKeyval` visit, in order, and whether `Err()`
is non-nil once they stop. -/
structure Decoded where
  keyvals : List (Bytes × Bytes)
  err : Bool
deriving DecidableEq, Repr

/-- The code used by the logfmt handler that lies outside the files at hand:
the go-logfmt decoder run over a byte slice, the time resolver `tryParseTime`
on a string, and the order in which `range` enumerates a map (unspecified in
Go: any enumeration of the entries). -/
structure Externals where
  decode : Bytes → Decoded
  tryParseTime : Bytes → Option GoTime
  rangeOrder : GoMap → GoMap
  rangeOrder_perm : ∀ m, (rangeOrder m).Perm m

/-! ## logfmt_handler.go -/

/-- Modelled from the spec: the helper checkEachUntilFound is called by
UnmarshalLogfmt but declared outside the files at hand. It consults the
candidate names in list order, calls `found` on each one and stops at the first
one for which it reports true; the result tells whether one did. The effects of
`found` on the handler are threaded through. -/
def checkEachUntilFound {σ : Type} (fieldList : List Bytes)
    (found : Bytes → σ → Bool × σ) (s : σ) : Bool × σ :=
  match fieldList with
  | [] => (false, s)
  | field :: rest =>
    match found field s with
    | (true, s') => (true, s')
    | (false, s') => checkEachUntilFound rest found s'

/-- Method `clear`. -/
def LogfmtHandler.clear (h : LogfmtHandler) : LogfmtHandler :=
  { h with Level := [], Time := GoTime.zero, Message := [], Fields := some [] }

/-- The closure given to checkEachUntilFound for the time role: it parses the
value and does not look at `field`. -/
def timeFound (ext : Externals) (val : Bytes) (_field : Bytes)
    (h : LogfmtHandler) : Bool × LogfmtHandler :=
  match ext.tryParseTime val with
  | some t => (true, { h with Time := t })
  | none => (false, h)

/-- The closure given to checkEachUntilFound for the message role. -/
def messageFound (key val : Bytes) (field : Bytes)
    (h : LogfmtHandler) : Bool × LogfmtHandler :=
  if key ≠ field then (false, h) else (true, { h with Message := val })

/-- The closure given to checkEachUntilFound for the level role. -/
def levelFound (key val : Bytes) (field : Bytes)
    (h : LogfmtHandler) : Bool × LogfmtHandler :=
  if key ≠ field then (false, h) else (true, { h with Level := val })

/-- Where the body of the `ScanKeyval` loop sends a pair: the three
`continue next_kv` exits and the final map assignment. -/
inductive Dest where
  | time
  | message
  | level
  | field
deriving DecidableEq, Repr

/-- One iteration of the `ScanKeyval` loop of `UnmarshalLogfmt` on the pair
`(key, val)`: the handler afterwards and the exit taken. -/
def handleKeyval (ext : Externals) (h : LogfmtHandler) (kv : Bytes × Bytes) :
    LogfmtHandler × Dest :=
  let key := kv.1
  let val := kv.2
  let rt := if h.Time.IsZero then
      checkEachUntilFound h.Opts.TimeFields (timeFound ext val) h
    else (false, h)
  if rt.1 then (rt.2, Dest.time) else
  let rm := if rt.2.Message.length = 0 then
      checkEachUntilFound rt.2.Opts.MessageFields (messageFound key val) rt.2
    else (false, rt.2)
  if rm.1 then (rm.2, Dest.message) else
  let rl := if rm.2.Level.length = 0 then
      checkEachUntilFound rm.2.Opts.LevelFields (levelFound key val) rm.2
    else (false, rm.2)
  if rl.1 then (rl.2, Dest.level) else
  ({ rl.2 with Fields := some (mapSet (rl.2.Fields.getD []) key val) }, Dest.field)

/-- The two nested decoder loops of `UnmarshalLogfmt` over the pairs the decoder
yields: the handler afterwards and, pair by pair, the exit taken. -/
def handleKeyvals (ext : Externals) (h : LogfmtHandler) :
    List (Bytes × Bytes) → LogfmtHandler × List Dest
  | [] => (h, [])
  | kv :: rest =>
    let r := handleKeyval ext h kv
    let rs := handleKeyvals ext r.1 rest
    (rs.1, r.2 :: rs.2)

/-- The body of `UnmarshalLogfmt` with the exits recorded: the nil guard on
`Fields`, then the decoder loops. -/
def LogfmtHandler.unmarshalTrace (ext : Externals) (h : LogfmtHandler)
    (data : Bytes) : LogfmtHandler × List Dest :=
  let h0 := if h.Fields.isNone then { h with Fields := some [] } else h
  handleKeyvals ext h0 (ext.decode data).keyvals

/-- Method `UnmarshalLogfmt`: the nil guard on `Fields`, the decoder loops, and
the result `dec.Err() == nil`. Returns the result and the handler afterwards. -/
def LogfmtHandler.UnmarshalLogfmt (ext : Externals) (h : LogfmtHandler)
    (data : Bytes) : Bool × LogfmtHandler :=
  (!(ext.decode data).err, (h.unmarshalTrace ext data).1)

/-- Go's `bytes.ContainsRune(d, r)` for an ASCII rune `r`: the byte occurs. -/
def containsRune (d : Bytes) (r : Nat) : Bool := d.contains r

/-- Method `TryHandle`: returns the result, the handler afterwards and the
output event afterwards. -/
def LogfmtHandler.TryHandle (ext : Externals) (h : LogfmtHandler) (d : Bytes)
    (out : StructuredLogEvent) : Bool × LogfmtHandler × StructuredLogEvent :=
  if !containsRune d 61 then (false, h, out) else
  let h1 := h.clear
  let r := h1.UnmarshalLogfmt ext d
  if !r.1 then (false, r.2, out) else
  let h2 := r.2
  let out1 := { out with Timestamp := some h2.Time, Msg := h2.Message, Lvl := h2.Level }
  let kvs := (ext.rangeOrder (h2.Fields.getD [])).map (fun e => KV.mk e.1 e.2)
  (true, h2, { out1 with Kvs := out1.Kvs ++ kvs })

/-- The pair-by-pair exits taken while `TryHandle` decodes `d`. -/
def destsOf (ext : Externals) (h : LogfmtHandler) (d : Bytes) : List Dest :=
  (h.clear.unmarshalTrace ext d).2

/-- A decoder given by a table from inputs to results; an input outside the
table is reported as an error with no pair. -/
def tableDecode (table : List (Bytes × Decoded)) (d : Bytes) : Decoded :=
  match table with
  | [] => { keyvals := [], err := true }
  | (d', r) :: rest => if d' = d then r else tableDecode rest d

/-- A time resolver given by a table from the strings it accepts to the instants
it returns. -/
def tableTime (table : List (Bytes × GoTime)) (s : Bytes) : Option GoTime :=
  match table with
  | [] => none
  | (s', t) :: rest => if s' = s then some t else tableTime rest s

/-- Externals given by tables; `range` enumerates a map in first-assignment
order. -/
def tableExternals (dec : List (Bytes × Decoded)) (times : List (Bytes × GoTime)) :
    Externals :=
  { decode := tableDecode dec
    tryParseTime := tableTime times
    rangeOrder := fun m => m
    rangeOrder_perm := fun m => List.Perm.refl m }

/-- A handler as `Scanner` constructs it: `LogfmtHandler{Opts: opts}`. -/
def newLogfmtHandler (opts : HandlerOptions) : LogfmtHandler :=
  { Opts := opts, Level := [], Time := GoTime.zero, Message := [], Fields := none }

/-- A zero-valued output event. -/
def emptyEvent : StructuredLogEvent :=
  { Timestamp := none, Msg := [], Lvl := [], Kvs := [] }

/-- The instant 2024-01-01T00:00:00Z. -/
def t2024 : GoTime := ⟨63839664000 * 10 ^ 9⟩

/-! ## scanner.go -/

/-- The recognizers and renderers `Scanner` calls, over the state `J` of the
JSON handler and the state `L` of the logfmt handler. Every call may change the
handler it is given, also when it reports false. The two uses of
`tryDockerComposePrefix` (on the JSON and on the logfmt handler) are separate
entries. -/
structure Handlers (J L : Type) where
  jsonTryHandle : J → Bytes → Bool × J
  jsonPrettify : J → Bool → Bytes × J
  logfmtTryHandle : L → Bytes → Bool × L
  logfmtPrettify : L → Bool → Bytes × L
  tryDockerComposePrefixJSON : Bytes → J → Bool × J
  tryDockerComposePrefixLogfmt : Bytes → L → Bool × L
  tryZapDevPrefix : Bytes → J → Bool × J

/-- The arms of the `switch` in the loop of `Scanner`, in source order. -/
inductive Arm where
  | json
  | logfmt
  | dockerJSON
  | dockerLogfmt
  | zapJSON
  | passThrough
deriving DecidableEq, Repr

/-- The handler type behind an arm of the switch. -/
inductive Kind where
  | JSON
  | logfmt
deriving DecidableEq, Repr

/-- The handler whose `Prettify` an arm calls; none for the default arm. -/
def Arm.kind : Arm → Option Kind
  | Arm.json => some Kind.JSON
  | Arm.logfmt => some Kind.logfmt
  | Arm.dockerJSON => some Kind.JSON
  | Arm.dockerLogfmt => some Kind.logfmt
  | Arm.zapJSON => some Kind.JSON
  | Arm.passThrough => none

/-- What happened to one line: the bytes `in.Bytes()` returned, the arm taken,
the `skipUnchanged` argument given to `Prettify` (false on the default arm,
which calls no `Prettify`), and the bytes of the first `dst.Write` of the
iteration. -/
structure LineRecord where
  input : Bytes
  arm : Arm
  skipUnchanged : Bool
  body : Bytes
deriving DecidableEq, Repr

/-- The local variables of `Scanner` together with the sequence of `dst.Write`
calls made so far (one entry per call) and the record of the lines handled. -/
structure ScanState (J L : Type) where
  line : Nat
  lastLogfmt : Bool
  lastJSON : Bool
  logfmtEntry : L
  jsonEntry : J
  writes : List Bytes
  records : List LineRecord

/-- Value `eol`. -/
def eol : Bytes := [10]

/-- The literal `"@cee: "`. -/
def ceeTag : Bytes := [64, 99, 101, 101, 58, 32]

/-- Go's `bytes.TrimPrefix`. -/
def TrimPrefix (s tag : Bytes) : Bytes :=
  if tag.isPrefixOf s then s.drop tag.length else s

/-- One iteration of the `for in.Scan()` loop of `Scanner` on the line
`raw = in.Bytes()`. -/
def scanLine {J L : Type} (H : Handlers J L) (opts : HandlerOptions)
    (st : ScanState J L) (raw : Bytes) : ScanState J L :=
  let line := (st.line + 1) % 2 ^ 64
  let lineData := TrimPrefix raw ceeTag
  let r1 := H.jsonTryHandle st.jsonEntry lineData
  if r1.1 then
    let skip := opts.SkipUnchanged && st.lastJSON
    let p := H.jsonPrettify r1.2 skip
    { st with line := line, jsonEntry := p.2, lastJSON := true,
              writes := st.writes ++ [p.1, eol],
              records := st.records ++ [⟨raw, Arm.json, skip, p.1⟩] }
  else
  let r2 := H.logfmtTryHandle st.logfmtEntry lineData
  if r2.1 then
    let skip := opts.SkipUnchanged && st.lastLogfmt
    let p := H.logfmtPrettify r2.2 skip
    { st with line := line, jsonEntry := r1.2, logfmtEntry := p.2, lastLogfmt := true,
              writes := st.writes ++ [p.1, eol],
              records := st.records ++ [⟨raw, Arm.logfmt, skip, p.1⟩] }
  else
  let r3 := H.tryDockerComposePrefixJSON lineData r1.2
  if r3.1 then
    let skip := opts.SkipUnchanged && st.lastJSON
    let p := H.jsonPrettify r3.2 skip
    { st with line := line, jsonEntry := p.2, logfmtEntry := r2.2, lastJSON := true,
              writes := st.writes ++ [p.1, eol],
              records := st.records ++ [⟨raw, Arm.dockerJSON, skip, p.1⟩] }
  else
  let r4 := H.tryDockerComposePrefixLogfmt lineData r2.2
  if r4.1 then
    let skip := opts.SkipUnchanged && st.lastLogfmt
    let p := H.logfmtPrettify r4.2 skip
    { st with line := line, jsonEntry := r3.2, logfmtEntry := p.2, lastLogfmt := true,
              writes := st.writes ++ [p.1, eol],
              records := st.records ++ [⟨raw, Arm.dockerLogfmt, skip, p.1⟩] }
  else
  let r5 := H.tryZapDevPrefix lineData r3.2
  if r5.1 then
    let skip := opts.SkipUnchanged && st.lastJSON
    let p := H.jsonPrettify r5.2 skip
    { st with line := line, jsonEntry := p.2, logfmtEntry := r4.2, lastJSON := true,
              writes := st.writes ++ [p.1, eol],
              records := st.records ++ [⟨raw, Arm.zapJSON, skip, p.1⟩] }
  else
    { st with line := line, jsonEntry := r5.2, logfmtEntry := r4.2,
              lastLogfmt := false, lastJSON := false,
              writes := st.writes ++ [lineData, eol],
              records := st.records ++ [⟨raw, Arm.passThrough, false, lineData⟩] }

/-- The state of `Scanner` before the loop, from the initial handler states. -/
def scanInit {J L : Type} (j0 : J) (l0 : L) : ScanState J L :=
  { line := 0, lastLogfmt := false, lastJSON := false, logfmtEntry := l0,
    jsonEntry := j0, writes := [], records := [] }

/-- The loop of `Scanner` over the lines `in.Scan()` yields, in order. -/
def scanLoop {J L : Type} (H : Handlers J L) (opts : HandlerOptions)
    (st : ScanState J L) (lines : List Bytes) : ScanState J L :=
  lines.foldl (scanLine H opts) st

/-- A Go `error` value other than nil: the sentinel `io.EOF`, or any other error,
told apart by its text. -/
inductive GoError where
  | EOF
  | other (text : Bytes)
deriving DecidableEq, Repr

/-- Function `Scanner`: `lines` are the lines the `bufio.Scanner` yields before
it stops and `readErr` is `in.Err()` at that point (`none` for nil). The palette
set-up before the loop only prepares the renderer. Returns the final state and
the returned error (`none` for nil). The results of the calls of `dst.Write` are
discarded by the source, so the run does not depend on the writer. -/
def Scanner {J L : Type} (H : Handlers J L) (opts : HandlerOptions) (j0 : J) (l0 : L)
    (lines : List Bytes) (readErr : Option GoError) : ScanState J L × Option GoError :=
  let st := scanLoop H opts (scanInit j0 l0) lines
  match readErr with
  | none => (st, none)
  | some GoError.EOF => (st, none)
  | some err => (st, some err)

/-- The bytes received by `dst`: the concatenation of the writes. -/
def ScanState.output {J L : Type} (st : ScanState J L) : Bytes := st.writes.flatten

/-! ## handler.go -/

/-- Go's `len` of a set (`map[string]struct{}`): zero for the nil map. -/
def setLen (s : Option (List Bytes)) : Nat :=
  match s with
  | none => 0
  | some keys => keys.length

/-- The presence flag of the lookup `_, ok := s[key]` in a set: false for the
nil map. -/
def setHas (s : Option (List Bytes)) (key : Bytes) : Bool :=
  match s with
  | none => false
  | some keys => keys.contains key

/-- Method `shouldShowKey`. -/
def HandlerOptions.shouldShowKey (h : HandlerOptions) (key : Bytes) : Bool :=
  if setLen h.Keep ≠ 0 ∧ setHas h.Keep key = true then true
  else if setLen h.Skip ≠ 0 ∧ setHas h.Skip key = true then false
  else true

/-- Method `shouldShowUnchanged`. -/
def HandlerOptions.shouldShowUnchanged (h : HandlerOptions) (key : Bytes) : Bool :=
  if setLen h.Keep ≠ 0 ∧ setHas h.Keep key = true then true
  else false

/-! ## The output stream -/

/-- An `io.Writer` over the state `W`: `Write` returns the state afterwards and
whether the returned error is non-nil. -/
structure Writer (W : Type) where
  Write : W → Bytes → W × Bool

/-- The writer given the calls of a run in order: its final state and, call by
call, whether `Write` returned an error. -/
def feedWrites {W : Type} (wr : Writer W) (w : W) : List Bytes → W × List Bool
  | [] => (w, [])
  | b :: rest =>
    let r := wr.Write w b
    let rs := feedWrites wr r.1 rest
    (rs.1, r.2 :: rs.2)

/-- Function `Scanner` run against the writer `wr`: every `dst.Write` of the run
reaches the writer, in order, and neither of its results is looked at. Returns
the writer's final state, the error of each `Write`, and the error `Scanner`
returns. -/
def ScannerOn {W J L : Type} (wr : Writer W) (w0 : W) (H : Handlers J L)
    (opts : HandlerOptions) (j0 : J) (l0 : L) (lines : List Bytes)
    (readErr : Option GoError) : (W × List Bool) × Option GoError :=
  (feedWrites wr w0 (Scanner H opts j0 l0 lines readErr).1.writes,
    (Scanner H opts j0 l0 lines readErr).2)

/-! ## handler.go: colour mode and the skip and keep sets -/

/-- Go's `strings.ToLower` on one ASCII byte. -/
def toLowerByte (b : Nat) : Nat := if 65 ≤ b ∧ b ≤ 90 then b + 32 else b

/-- Go's `strings.ToLower` on an ASCII string; bytes outside `A`..`Z` are kept. -/
def ToLower (s : Bytes) : Bytes := s.map toLowerByte

/-- Function `GrokColorMode`: the mode and the error (`none` for nil, otherwise
its text, built by `fmt.Errorf` from the argument as given). -/
def GrokColorMode (colorMode : Bytes) : ColorMode × Option Bytes :=
  if ToLower colorMode ∈
      [ascii "on", ascii "always", ascii "force", ascii "true", ascii "yes", ascii "1"] then
    (ColorMode.ColorModeOn, none)
  else if ToLower colorMode ∈
      [ascii "off", ascii "never", ascii "false", ascii "no", ascii "0"] then
    (ColorMode.ColorModeOff, none)
  else if ToLower colorMode ∈ [ascii "auto", ascii "tty", ascii "maybe", ascii ""] then
    (ColorMode.ColorModeAuto, none)
  else
    (ColorMode.ColorModeAuto,
      some (ascii "\x27" ++ colorMode ++
        ascii "\x27 is not a color mode (try \x27on\x27, \x27off\x27 or \x27auto\x27)"))

/-- The assignment `s[key] = struct{}{}` on a set: the key is added unless it is
there. -/
def setInsert (s : List Bytes) (key : Bytes) : List Bytes :=
  if key ∈ s then s else s ++ [key]

/-- Method `SetSkip`: the nil guard, then one assignment per key, in order. -/
def HandlerOptions.SetSkip (h : HandlerOptions) (skip : List Bytes) : HandlerOptions :=
  let s0 := match h.Skip with
    | none => []
    | some keys => keys
  { h with Skip := some (skip.foldl setInsert s0) }

/-- Method `SetKeep`: the nil guard, then one assignment per key, in order. -/
def HandlerOptions.SetKeep (h : HandlerOptions) (keep : List Bytes) : HandlerOptions :=
  let s0 := match h.Keep with
    | none => []
    | some keys => keys
  { h with Keep := some (keep.foldl setInsert s0) }

/-! ## cmd/humanlog/main.go: the check on skip and keep -/

/-- The part of `config.Config` the check reads: `*cfg.Skip` and `*cfg.Keep`,
once the flags have overwritten the config file. -/
structure Config where
  Skip : List Bytes
  Keep : List Bytes
deriving DecidableEq, Repr

/-- How `app.Action` goes on from the check: `fatalf`, which exits the process,
or the call of `Scanner` with the handler options. -/
inductive ActionResult where
  | fatal
  | scanned (opts : HandlerOptions)
deriving DecidableEq, Repr

/-- The end of `app.Action`: `fatalf` when `len(*cfg.Skip) > 0 && len(*cfg.Keep) > 0`,
otherwise `Scanner` is called with the options that `HandlerOptionsFrom(*cfg)`
returns. That function lies outside the files at hand and is the parameter
`optsFrom`. -/
def appAction (optsFrom : Config → HandlerOptions) (cfg : Config) : ActionResult :=
  if cfg.Skip.length > 0 ∧ cfg.Keep.length > 0 then ActionResult.fatal
  else ActionResult.scanned (optsFrom cfg)

/-- Modelled from the spec: the function HandlerOptionsFrom is called by
app.Action but declared outside the files at hand. The render options are the
defaults overridden by the configuration; their skip and keep sets are the skip
and keep lists of the configuration, entered with SetSkip and SetKeep. -/
def HandlerOptionsFrom (cfg : Config) : HandlerOptions :=
  (DefaultOptions.SetSkip cfg.Skip).SetKeep cfg.Keep

/-! ## The renderer: truncation and key order -/

/-- Modelled from the spec: the renderer (Prettify) is not among the files at
hand. Truncation of a rendered value: when truncation is enabled and the value
is longer than truncateLength, the value is cut to that length and the
truncation marker is appended; otherwise the value is kept. The marker is left
open by the spec and is a parameter. -/
def truncateValue (marker : Bytes) (truncates : Bool) (truncateLength : Int)
    (value : Bytes) : Bytes :=
  if truncates = true ∧ (value.length : Int) > truncateLength then
    value.take truncateLength.toNat ++ marker
  else value

/-- Byte-wise comparison of two strings, as Go orders strings: `a ≤ b`. -/
def lexLE : Bytes → Bytes → Bool
  | [], _ => true
  | _ :: _, [] => false
  | a :: as, b :: bs => if a < b then true else if a = b then lexLE as bs else false

/-- Modelled from the spec: the renderer is not among the files at hand. First
pass of the key ordering: the keys sorted lexicographically, byte-wise
ascending. -/
def sortStrings (keys : List Bytes) : List Bytes :=
  keys.insertionSort (fun a b => lexLE a b = true)

/-- Modelled from the spec: second pass of the key ordering, a stable sort by
length that moves longer keys after shorter ones and keeps the relative order
of keys of equal length. -/
def sortStableByLength (keys : List Bytes) : List Bytes :=
  keys.insertionSort (fun a b => a.length ≤ b.length)

/-- Modelled from the spec: the key ordering of the renderer, the lexicographic
pass followed, when sortLongest is on, by the stable pass by length. -/
def orderKeys (sortLongest : Bool) (keys : List Bytes) : List Bytes :=
  if sortLongest then sortStableByLength (sortStrings keys) else sortStrings keys

/-- The order the two passes produce together: shorter first, byte-wise among
keys of equal length. -/
def keyLE (a b : Bytes) : Prop :=
  a.length < b.length ∨ (a.length = b.length ∧ lexLE a b = true)

/-! ## The pairs that reach Fields -/

/-- The pairs that took the final exit of the loop body, in line order, given
the pairs and the exits recorded for them. -/
def fieldPairs (kvs : List (Bytes × Bytes)) (dests : List Dest) : List (Bytes × Bytes) :=
  ((List.zip kvs dests).filter (fun p => decide (p.2 = Dest.field))).map Prod.fst

/-- The pairs of the line `d` that no role claimed while `TryHandle` decoded it. -/
def unclaimedPairs (ext : Externals) (h : LogfmtHandler) (d : Bytes) : List (Bytes × Bytes) :=
  fieldPairs (ext.decode d).keyvals (destsOf ext h d)

/-- The map after the assignments `m[k] = v` for the pairs of `ps`, in order. -/
def setAll (m : GoMap) (ps : List (Bytes × Bytes)) : GoMap :=
  ps.foldl (fun acc p => mapSet acc p.1 p.2) m

/-! ## The line reader and the recognizers' arguments -/

/-- Go's `bufio.MaxScanTokenSize`, the largest buffer of a `bufio.Scanner` on
which `Buffer` was not called, as is the case in `Scanner`. -/
def MaxScanTokenSize : Nat := 64 * 1024

/-- Go's `bufio.ErrTooLong`. -/
def ErrTooLong : GoError := GoError.other (ascii "bufio.Scanner: token too long")

/-- Function `dropCR` of Go's bufio: a trailing carriage return is dropped. -/
def dropCR (data : Bytes) : Bytes :=
  if data.getLast? = some 13 then data.dropLast else data

/-- The tokens `in.Scan()` yields, for `in := bufio.NewScanner(src)` with the
split function `bufio.ScanLines`: `cur` holds the bytes of the current line
already in the buffer and the argument the bytes still to come. A buffer that
holds `MaxScanTokenSize` bytes without a line feed ends the scan with
`ErrTooLong` (second component true) and yields nothing for that line. At the
end of the data, also when it ends on a read error, `ScanLines` is called with
`atEOF` set and yields the bytes left in the buffer, when there are any, as a
last token. The stream reports its error by a `Read` of its own that delivers no
byte, as files and pipes do, so a buffer that is full without a line feed is
found too long before the end of the data is seen. -/
def scanTokens (cur : Bytes) : Bytes → List Bytes × Bool
  | [] =>
    if MaxScanTokenSize ≤ cur.length then ([], true)
    else (if cur = [] then [] else [dropCR cur], false)
  | b :: rest =>
    if MaxScanTokenSize ≤ cur.length then ([], true)
    else if b = 10 then
      let r := scanTokens [] rest
      (dropCR cur :: r.1, r.2)
    else scanTokens (cur ++ [b]) rest

/-- The run of the `bufio.Scanner` of `Scanner` over an input stream that
delivers the bytes `src` and then fails with `srcErr` (`io.EOF` at a clean end):
the lines `in.Scan()` yields and `in.Err()` afterwards, which is nil for
`io.EOF`. -/
def bufioScan (src : Bytes) (srcErr : GoError) : List Bytes × Option GoError :=
  let r := scanTokens [] src
  (r.1,
    if r.2 then some ErrTooLong
    else match srcErr with
      | GoError.EOF => none
      | err => some err)

/-- Function `Scanner` on the input stream itself: the stream delivers the
bytes `src` and then fails with `srcErr` (`io.EOF` at a clean end). -/
def ScannerFrom {J L : Type} (H : Handlers J L) (opts : HandlerOptions) (j0 : J) (l0 : L)
    (src : Bytes) (srcErr : GoError) : ScanState J L × Option GoError :=
  Scanner H opts j0 l0 (bufioScan src srcErr).1 (bufioScan src srcErr).2

/-- The lines of an input: the terminated lines `ls`, each followed by a line
feed, then the unterminated bytes `last`. -/
def inputOf (ls : List Bytes) (last : Bytes) : Bytes :=
  (ls.map (fun l => l ++ [10])).flatten ++ last

/-- The handlers `H` made to keep, next to their state, the list of the byte
slices they were called on: every recognizer adds its argument to the list of
its handler; `Prettify` takes no byte slice. -/
def logArgs {J L : Type} (H : Handlers J L) : Handlers (J × List Bytes) (L × List Bytes) :=
  { jsonTryHandle := fun j d => ((H.jsonTryHandle j.1 d).1, ((H.jsonTryHandle j.1 d).2, j.2 ++ [d]))
    jsonPrettify := fun j b => ((H.jsonPrettify j.1 b).1, ((H.jsonPrettify j.1 b).2, j.2))
    logfmtTryHandle := fun l d =>
      ((H.logfmtTryHandle l.1 d).1, ((H.logfmtTryHandle l.1 d).2, l.2 ++ [d]))
    logfmtPrettify := fun l b => ((H.logfmtPrettify l.1 b).1, ((H.logfmtPrettify l.1 b).2, l.2))
    tryDockerComposePrefixJSON := fun d j =>
      ((H.tryDockerComposePrefixJSON d j.1).1, ((H.tryDockerComposePrefixJSON d j.1).2, j.2 ++ [d]))
    tryDockerComposePrefixLogfmt := fun d l =>
      ((H.tryDockerComposePrefixLogfmt d l.1).1,
        ((H.tryDockerComposePrefixLogfmt d l.1).2, l.2 ++ [d]))
    tryZapDevPrefix := fun d j =>
      ((H.tryZapDevPrefix d j.1).1, ((H.tryZapDevPrefix d j.1).2, j.2 ++ [d])) }

/-- A state of a run with `logArgs H`, without the lists of arguments. -/
def unlogged {J L : Type} (st : ScanState (J × List Bytes) (L × List Bytes)) : ScanState J L :=
  { line := st.line, lastLogfmt := st.lastLogfmt, lastJSON := st.lastJSON,
    logfmtEntry := st.logfmtEntry.1, jsonEntry := st.jsonEntry.1, writes := st.writes,
    records := st.records }

/-- The number of recognizer calls `Scanner` makes on the JSON handler for a
line that takes the arm: the cases of the `switch` are tried in order, and the
JSON handler is the argument of the first, the third and the fifth. -/
def jsonCalls : Arm → Nat
  | Arm.json => 1
  | Arm.logfmt => 1
  | Arm.dockerJSON => 2
  | Arm.dockerLogfmt => 2
  | Arm.zapJSON => 3
  | Arm.passThrough => 3

/-- The number of recognizer calls `Scanner` makes on the logfmt handler for a
line that takes the arm: the logfmt handler is the argument of the second and
the fourth case. -/
def logfmtCalls : Arm → Nat
  | Arm.json => 0
  | Arm.logfmt => 1
  | Arm.dockerJSON => 1
  | Arm.dockerLogfmt => 2
  | Arm.zapJSON => 2
  | Arm.passThrough => 2

/-! ## Sample inputs -/

/-- The line of scenario 2 of the spec. -/
def lineScenario2 : Bytes := ascii "time=2024-01-01T00:00:00Z level=error msg=\"boom\" code=500"

/-- Externals for the sample lines below: the pairs the decoder yields on each
of them, and a time resolver that accepts only `2024-01-01T00:00:00Z`. -/
def sampleExt : Externals := tableExternals
  [ (lineScenario2,
      ⟨[(ascii "time", ascii "2024-01-01T00:00:00Z"), (ascii "level", ascii "error"),
        (ascii "msg", ascii "boom"), (ascii "code", ascii "500")], false⟩),
    (ascii "foo=2024-01-01T00:00:00Z",
      ⟨[(ascii "foo", ascii "2024-01-01T00:00:00Z")], false⟩),
    (ascii "msg=a msg=b", ⟨[(ascii "msg", ascii "a"), (ascii "msg", ascii "b")], false⟩),
    (ascii "msg= msg=hello", ⟨[(ascii "msg", []), (ascii "msg", ascii "hello")], false⟩),
    (ascii "msg=a message=b",
      ⟨[(ascii "msg", ascii "a"), (ascii "message", ascii "b")], false⟩),
    (ascii "lvl=warn level=error",
      ⟨[(ascii "lvl", ascii "warn"), (ascii "level", ascii "error")], false⟩),
    (ascii "a=1 b=\"x", ⟨[(ascii "a", ascii "1")], true⟩) ]
  [ (ascii "2024-01-01T00:00:00Z", t2024) ]

/-- Stand-ins for the handlers of `Scanner`, each over the last line it
accepted: the JSON stand-in accepts a line that starts with an opening brace and
ends with a closing brace, the logfmt stand-in a line that contains an equals
sign, the prefix adapters accept nothing, and `Prettify` returns the accepted
line. -/
def sampleHandlers : Handlers Bytes Bytes :=
  { jsonTryHandle := fun j d =>
      if d.head? = some 123 ∧ d.getLast? = some 125 then (true, d) else (false, j)
    jsonPrettify := fun j _ => (j, j)
    logfmtTryHandle := fun l d => if 61 ∈ d then (true, d) else (false, l)
    logfmtPrettify := fun l _ => (l, l)
    tryDockerComposePrefixJSON := fun _ j => (false, j)
    tryDockerComposePrefixLogfmt := fun _ l => (false, l)
    tryZapDevPrefix := fun _ j => (false, j) }

/-- A JSON line. -/
def lineJSON : Bytes := ascii "\x7b\"env\":\"prod\"\x7d"

/-- A logfmt line. -/
def lineLogfmt : Bytes := ascii "env=prod"

/-- Some record of kind `k` lies after the last pass-through record of `recs`
(after the start when there is none). -/
def renderedSince (k : Kind) (recs : List LineRecord) : Prop :=
  ∃ a b, recs = a ++ b ∧ (∀ x ∈ b, x.arm ≠ Arm.passThrough) ∧ ∃ x ∈ b, x.arm.kind = some k

/-- The two flags of `Scanner` in terms of the lines handled so far. -/
def flagsTrack {J L : Type} (st : ScanState J L) : Prop :=
  (st.lastJSON = true ↔ renderedSince Kind.JSON st.records) ∧
  (st.lastLogfmt = true ↔ renderedSince Kind.logfmt st.records)

/-- An output event that already holds values. -/
def staleEvent : StructuredLogEvent :=
  { Timestamp := some t2024, Msg := ascii "old", Lvl := ascii "info",
    Kvs := [⟨ascii "user", ascii "bob"⟩] }

/-- A handler that still holds what it parsed from an earlier line. -/
def staleHandler : LogfmtHandler :=
  { Opts := DefaultOptions, Level := ascii "error", Time := t2024, Message := ascii "boom",
    Fields := some [(ascii "code", ascii "500")] }

/-- A writer whose every `Write` fails; its state counts the calls. -/
def failingWriter : Writer Nat :=
  { Write := fun n _ => (n + 1, true) }

/-- The default options with Keep = (env) and Skip left nil. -/
def keepEnvOptions : HandlerOptions :=
  { DefaultOptions with Keep := some [ascii "env"] }

/-- The default options with Skip = (env, pid) and Keep = (env). -/
def skipKeepOptions : HandlerOptions :=
  { DefaultOptions with Skip := some [ascii "env", ascii "pid"], Keep := some [ascii "env"] }

/-- The truncation marker `...`. -/
def sampleMarker : Bytes := ascii "..."

/-- Externals for a line with a repeated unclaimed key. -/
def repeatExt : Externals := tableExternals
  [ (ascii "msg=hi code=1 user=bob code=2",
      ⟨[(ascii "msg", ascii "hi"), (ascii "code", ascii "1"), (ascii "user", ascii "bob"),
        (ascii "code", ascii "2")], false⟩) ]
  []

/-- A line of `MaxScanTokenSize` bytes, all of them the letter a. -/
def longLine : Bytes := List.replicate MaxScanTokenSize 97

/-- An input of three terminated lines, the second of them `longLine`. -/
def threeLinesOneLong : Bytes := inputOf [ascii "ok", longLine, ascii "end"] []

/-- A read error other than `io.EOF`. -/
def readFailed : GoError := GoError.other (ascii "read failed")

/-! ## Lemmas on the logfmt handler -/

theorem checkEach_timeFound (ext : Externals) (val : Bytes) (fl : List Bytes)
    (h : LogfmtHandler) :
    checkEachUntilFound fl (timeFound ext val) h =
      match ext.tryParseTime val with
      | some t => if fl = [] then (false, h) else (true, { h with Time := t })
      | none => (false, h) := by
  induction fl with
  | nil => cases ht : ext.tryParseTime val <;> simp [checkEachUntilFound]
  | cons f rest ih =>
    cases ht : ext.tryParseTime val with
    | none => simp [checkEachUntilFound, timeFound, ht] at ih ⊢; exact ih
    | some t => simp [checkEachUntilFound, timeFound, ht]

theorem checkEach_messageFound (key val : Bytes) (fl : List Bytes) (h : LogfmtHandler) :
    checkEachUntilFound fl (messageFound key val) h =
      if key ∈ fl then (true, { h with Message := val }) else (false, h) := by
  induction fl with
  | nil => simp [checkEachUntilFound]
  | cons f rest ih =>
    by_cases hk : key = f
    · simp [checkEachUntilFound, messageFound, hk]
    · simp [checkEachUntilFound, messageFound, hk, ih]

theorem checkEach_levelFound (key val : Bytes) (fl : List Bytes) (h : LogfmtHandler) :
    checkEachUntilFound fl (levelFound key val) h =
      if key ∈ fl then (true, { h with Level := val }) else (false, h) := by
  induction fl with
  | nil => simp [checkEachUntilFound]
  | cons f rest ih =>
    by_cases hk : key = f
    · simp [checkEachUntilFound, levelFound, hk]
    · simp [checkEachUntilFound, levelFound, hk, ih]

/-- The loop body as a decision list on the handler before the pair. -/
theorem handleKeyval_eq (ext : Externals) (h : LogfmtHandler) (k v : Bytes) :
    handleKeyval ext h (k, v) =
      match (if h.Time.IsZero = true ∧ h.Opts.TimeFields ≠ [] then ext.tryParseTime v
             else none) with
      | some t => ({ h with Time := t }, Dest.time)
      | none =>
        if h.Message = [] ∧ k ∈ h.Opts.MessageFields then
          ({ h with Message := v }, Dest.message)
        else if h.Level = [] ∧ k ∈ h.Opts.LevelFields then
          ({ h with Level := v }, Dest.level)
        else
          ({ h with Fields := some (mapSet (h.Fields.getD []) k v) }, Dest.field) := by
  unfold handleKeyval
  simp only [checkEach_timeFound, checkEach_messageFound, checkEach_levelFound]
  by_cases hz : h.Time.IsZero = true
  · by_cases hf : h.Opts.TimeFields = []
    · cases ht : ext.tryParseTime v <;>
        by_cases hm : h.Message = [] <;> by_cases hkm : k ∈ h.Opts.MessageFields <;>
        by_cases hl : h.Level = [] <;> by_cases hkl : k ∈ h.Opts.LevelFields <;>
        simp [hz, hf, ht, hm, hkm, hl, hkl]
    · cases ht : ext.tryParseTime v <;>
        by_cases hm : h.Message = [] <;> by_cases hkm : k ∈ h.Opts.MessageFields <;>
        by_cases hl : h.Level = [] <;> by_cases hkl : k ∈ h.Opts.LevelFields <;>
        simp [hz, hf, ht, hm, hkm, hl, hkl]
  · by_cases hm : h.Message = [] <;> by_cases hkm : k ∈ h.Opts.MessageFields <;>
      by_cases hl : h.Level = [] <;> by_cases hkl : k ∈ h.Opts.LevelFields <;>
      simp [hz, hm, hkm, hl, hkl]

/-- The four exits of the loop body, each with the condition under which it is
taken and the single component of the handler it writes. -/
theorem handleKeyval_cases (ext : Externals) (h : LogfmtHandler) (k v : Bytes) :
    (∃ t, h.Time.IsZero = true ∧ h.Opts.TimeFields ≠ [] ∧ ext.tryParseTime v = some t ∧
        handleKeyval ext h (k, v) = ({ h with Time := t }, Dest.time)) ∨
    (h.Message = [] ∧ k ∈ h.Opts.MessageFields ∧
        handleKeyval ext h (k, v) = ({ h with Message := v }, Dest.message)) ∨
    (¬ (h.Message = [] ∧ k ∈ h.Opts.MessageFields) ∧ h.Level = [] ∧
        k ∈ h.Opts.LevelFields ∧
        handleKeyval ext h (k, v) = ({ h with Level := v }, Dest.level)) ∨
    (¬ (h.Message = [] ∧ k ∈ h.Opts.MessageFields) ∧
        ¬ (h.Level = [] ∧ k ∈ h.Opts.LevelFields) ∧
        handleKeyval ext h (k, v) =
          ({ h with Fields := some (mapSet (h.Fields.getD []) k v) }, Dest.field)) := by
  rw [handleKeyval_eq]
  by_cases hc : h.Time.IsZero = true ∧ h.Opts.TimeFields ≠ []
  · cases ht : ext.tryParseTime v with
    | some t => left; exact ⟨t, hc.1, hc.2, rfl, by simp [hc, ht]⟩
    | none =>
      right
      by_cases hm : h.Message = [] ∧ k ∈ h.Opts.MessageFields
      · left; exact ⟨hm.1, hm.2, by simp [hc, ht, hm]⟩
      · right
        by_cases hl : h.Level = [] ∧ k ∈ h.Opts.LevelFields
        · left; exact ⟨hm, hl.1, hl.2, by simp [hc, ht, hm, hl]⟩
        · right; exact ⟨hm, hl, by simp [hc, ht, hm, hl]⟩
  · right
    by_cases hm : h.Message = [] ∧ k ∈ h.Opts.MessageFields
    · left; exact ⟨hm.1, hm.2, by simp [hc, hm]⟩
    · right
      by_cases hl : h.Level = [] ∧ k ∈ h.Opts.LevelFields
      · left; exact ⟨hm, hl.1, hl.2, by simp [hc, hm, hl]⟩
      · right; exact ⟨hm, hl, by simp [hc, hm, hl]⟩

theorem handleKeyvals_nil (ext : Externals) (h : LogfmtHandler) :
    handleKeyvals ext h [] = (h, []) := rfl

theorem handleKeyvals_cons (ext : Externals) (h : LogfmtHandler) (kv : Bytes × Bytes)
    (rest : List (Bytes × Bytes)) :
    handleKeyvals ext h (kv :: rest) =
      ((handleKeyvals ext (handleKeyval ext h kv).1 rest).1,
        (handleKeyval ext h kv).2 :: (handleKeyvals ext (handleKeyval ext h kv).1 rest).2) := rfl

theorem handleKeyvals_append (ext : Externals) (h : LogfmtHandler)
    (a b : List (Bytes × Bytes)) :
    handleKeyvals ext h (a ++ b) =
      ((handleKeyvals ext (handleKeyvals ext h a).1 b).1,
        (handleKeyvals ext h a).2 ++ (handleKeyvals ext (handleKeyvals ext h a).1 b).2) := by
  induction a generalizing h with
  | nil => simp [handleKeyvals_nil]
  | cons kv rest ih => simp [handleKeyvals_cons, ih]

theorem handleKeyvals_length (ext : Externals) (h : LogfmtHandler)
    (kvs : List (Bytes × Bytes)) : (handleKeyvals ext h kvs).2.length = kvs.length := by
  induction kvs generalizing h with
  | nil => simp [handleKeyvals_nil]
  | cons kv rest ih => simp [handleKeyvals_cons, ih]

/-- The exit recorded for the pair that follows `pre` is the exit of the loop
body run on the handler reached after `pre`. -/
theorem handleKeyvals_dest_at (ext : Externals) (h : LogfmtHandler)
    (pre post : List (Bytes × Bytes)) (kv : Bytes × Bytes) :
    (handleKeyvals ext h (pre ++ kv :: post)).2[pre.length]? =
      some (handleKeyval ext (handleKeyvals ext h pre).1 kv).2 := by
  rw [handleKeyvals_append, handleKeyvals_cons]
  have hlen : (handleKeyvals ext h pre).2.length ≤ pre.length := by
    rw [handleKeyvals_length]
  rw [List.getElem?_append_right hlen]
  simp [handleKeyvals_length]

theorem handleKeyvals_snoc (ext : Externals) (h : LogfmtHandler)
    (pre : List (Bytes × Bytes)) (kv : Bytes × Bytes) :
    (handleKeyvals ext h (pre ++ [kv])).1 = (handleKeyval ext (handleKeyvals ext h pre).1 kv).1 := by
  rw [handleKeyvals_append, handleKeyvals_cons, handleKeyvals_nil]

theorem mapGet_mapSet_self (m : GoMap) (k v : Bytes) : mapGet (mapSet m k v) k = some v := by
  induction m with
  | nil => simp [mapSet, mapGet]
  | cons e rest ih =>
    obtain ⟨k', v'⟩ := e
    by_cases hk : k' = k
    · simp [mapSet, mapGet, hk]
    · simp [mapSet, mapGet, hk, ih]

theorem handleKeyval_opts (ext : Externals) (h : LogfmtHandler) (kv : Bytes × Bytes) :
    (handleKeyval ext h kv).1.Opts = h.Opts := by
  obtain ⟨k, v⟩ := kv
  rcases handleKeyval_cases ext h k v with ⟨t, _, _, _, e⟩ | ⟨_, _, e⟩ | ⟨_, _, _, e⟩ | ⟨_, _, e⟩ <;>
    simp [e]

theorem handleKeyvals_opts (ext : Externals) (h : LogfmtHandler)
    (kvs : List (Bytes × Bytes)) : (handleKeyvals ext h kvs).1.Opts = h.Opts := by
  induction kvs generalizing h with
  | nil => rfl
  | cons kv rest ih => rw [handleKeyvals_cons]; simp [ih, handleKeyval_opts]

theorem handleKeyval_message_sticky (ext : Externals) (h : LogfmtHandler)
    (kv : Bytes × Bytes) (hm : h.Message ≠ []) :
    (handleKeyval ext h kv).1.Message = h.Message ∧ (handleKeyval ext h kv).2 ≠ Dest.message := by
  obtain ⟨k, v⟩ := kv
  rcases handleKeyval_cases ext h k v with ⟨t, _, _, _, e⟩ | ⟨h0, _, _⟩ | ⟨_, _, _, e⟩ | ⟨_, _, e⟩
  · simp [e]
  · exact absurd h0 hm
  · simp [e]
  · simp [e]

theorem handleKeyvals_message_sticky (ext : Externals) (h : LogfmtHandler)
    (kvs : List (Bytes × Bytes)) (hm : h.Message ≠ []) :
    (handleKeyvals ext h kvs).1.Message = h.Message ∧ Dest.message ∉ (handleKeyvals ext h kvs).2 := by
  induction kvs generalizing h with
  | nil => simp [handleKeyvals_nil]
  | cons kv rest ih =>
    have h1 := handleKeyval_message_sticky ext h kv hm
    have h2 := ih (handleKeyval ext h kv).1 (by rw [h1.1]; exact hm)
    rw [handleKeyvals_cons]
    refine ⟨by simp [h2.1, h1.1], ?_⟩
    simp only [List.mem_cons, not_or]
    exact ⟨fun e => h1.2 e.symm, h2.2⟩

theorem handleKeyval_level_sticky (ext : Externals) (h : LogfmtHandler)
    (kv : Bytes × Bytes) (hl : h.Level ≠ []) :
    (handleKeyval ext h kv).1.Level = h.Level ∧ (handleKeyval ext h kv).2 ≠ Dest.level := by
  obtain ⟨k, v⟩ := kv
  rcases handleKeyval_cases ext h k v with ⟨t, _, _, _, e⟩ | ⟨_, _, e⟩ | ⟨_, h0, _, _⟩ | ⟨_, _, e⟩
  · simp [e]
  · simp [e]
  · exact absurd h0 hl
  · simp [e]

theorem handleKeyvals_level_sticky (ext : Externals) (h : LogfmtHandler)
    (kvs : List (Bytes × Bytes)) (hl : h.Level ≠ []) :
    (handleKeyvals ext h kvs).1.Level = h.Level ∧ Dest.level ∉ (handleKeyvals ext h kvs).2 := by
  induction kvs generalizing h with
  | nil => simp [handleKeyvals_nil]
  | cons kv rest ih =>
    have h1 := handleKeyval_level_sticky ext h kv hl
    have h2 := ih (handleKeyval ext h kv).1 (by rw [h1.1]; exact hl)
    rw [handleKeyvals_cons]
    refine ⟨by simp [h2.1, h1.1], ?_⟩
    simp only [List.mem_cons, not_or]
    exact ⟨fun e => h1.2 e.symm, h2.2⟩

theorem handleKeyval_time_sticky (ext : Externals) (h : LogfmtHandler)
    (kv : Bytes × Bytes) (hz : h.Time.IsZero = false) :
    (handleKeyval ext h kv).1.Time = h.Time ∧ (handleKeyval ext h kv).2 ≠ Dest.time := by
  obtain ⟨k, v⟩ := kv
  rcases handleKeyval_cases ext h k v with ⟨t, h0, _, _, _⟩ | ⟨_, _, e⟩ | ⟨_, _, _, e⟩ | ⟨_, _, e⟩
  · rw [hz] at h0; exact absurd h0 (by decide)
  · simp [e]
  · simp [e]
  · simp [e]

theorem handleKeyvals_time_sticky (ext : Externals) (h : LogfmtHandler)
    (kvs : List (Bytes × Bytes)) (hz : h.Time.IsZero = false) :
    (handleKeyvals ext h kvs).1.Time = h.Time ∧ Dest.time ∉ (handleKeyvals ext h kvs).2 := by
  induction kvs generalizing h with
  | nil => simp [handleKeyvals_nil]
  | cons kv rest ih =>
    have h1 := handleKeyval_time_sticky ext h kv hz
    have h2 := ih (handleKeyval ext h kv).1 (by rw [h1.1]; exact hz)
    rw [handleKeyvals_cons]
    refine ⟨by simp [h2.1, h1.1], ?_⟩
    simp only [List.mem_cons, not_or]
    exact ⟨fun e => h1.2 e.symm, h2.2⟩

/-- An exit recorded after position `n` lies in the part of the record that
follows position `n`. -/
theorem not_at_later_index {α : Type} (a c : List α) (b x : α) (hx : x ∉ c) (j : Nat)
    (hj : a.length < j) : (a ++ b :: c)[j]? ≠ some x := by
  intro hget
  rw [List.getElem?_append_right (Nat.le_of_lt hj)] at hget
  obtain ⟨i, hi⟩ : ∃ i, j - a.length = i + 1 := ⟨j - a.length - 1, by omega⟩
  rw [hi, List.getElem?_cons_succ] at hget
  exact hx (List.getElem?_mem hget)

theorem handleKeyval_message_untouched (ext : Externals) (h : LogfmtHandler)
    (kv : Bytes × Bytes) (hk : kv.1 ∉ h.Opts.MessageFields) :
    (handleKeyval ext h kv).1.Message = h.Message := by
  obtain ⟨k, v⟩ := kv
  rcases handleKeyval_cases ext h k v with ⟨t, _, _, _, e⟩ | ⟨_, h0, _⟩ | ⟨_, _, _, e⟩ | ⟨_, _, e⟩
  · simp [e]
  · exact absurd h0 hk
  · simp [e]
  · simp [e]

theorem handleKeyvals_message_untouched (ext : Externals) (h : LogfmtHandler)
    (kvs : List (Bytes × Bytes)) (hk : ∀ p ∈ kvs, p.1 ∉ h.Opts.MessageFields) :
    (handleKeyvals ext h kvs).1.Message = h.Message := by
  induction kvs generalizing h with
  | nil => rfl
  | cons kv rest ih =>
    rw [handleKeyvals_cons]
    have h1 := handleKeyval_message_untouched ext h kv (hk kv (List.mem_cons_self _ _))
    have h2 := ih (handleKeyval ext h kv).1 (by
      intro p hp
      rw [handleKeyval_opts]
      exact hk p (List.mem_cons_of_mem _ hp))
    simp [h2, h1]

theorem handleKeyval_level_untouched (ext : Externals) (h : LogfmtHandler)
    (kv : Bytes × Bytes) (hk : kv.1 ∉ h.Opts.LevelFields) :
    (handleKeyval ext h kv).1.Level = h.Level := by
  obtain ⟨k, v⟩ := kv
  rcases handleKeyval_cases ext h k v with ⟨t, _, _, _, e⟩ | ⟨_, _, e⟩ | ⟨_, _, h0, _⟩ | ⟨_, _, e⟩
  · simp [e]
  · simp [e]
  · exact absurd h0 hk
  · simp [e]

theorem handleKeyvals_level_untouched (ext : Externals) (h : LogfmtHandler)
    (kvs : List (Bytes × Bytes)) (hk : ∀ p ∈ kvs, p.1 ∉ h.Opts.LevelFields) :
    (handleKeyvals ext h kvs).1.Level = h.Level := by
  induction kvs generalizing h with
  | nil => rfl
  | cons kv rest ih =>
    rw [handleKeyvals_cons]
    have h1 := handleKeyval_level_untouched ext h kv (hk kv (List.mem_cons_self _ _))
    have h2 := ih (handleKeyval ext h kv).1 (by
      intro p hp
      rw [handleKeyval_opts]
      exact hk p (List.mem_cons_of_mem _ hp))
    simp [h2, h1]

/-- The handler the decoder loops start from: `Fields` made non-nil. -/
theorem unmarshalTrace_eq (ext : Externals) (h : LogfmtHandler) (d : Bytes) :
    ∃ h0 : LogfmtHandler, h0.Opts = h.Opts ∧ h0.Message = h.Message ∧ h0.Level = h.Level ∧
      h0.Time = h.Time ∧ h0.Fields = some (h.Fields.getD []) ∧
      h.unmarshalTrace ext d = handleKeyvals ext h0 (ext.decode d).keyvals := by
  cases hf : h.Fields with
  | none => exact ⟨{ h with Fields := some [] }, rfl, rfl, rfl, rfl, rfl,
      by simp [LogfmtHandler.unmarshalTrace, hf]⟩
  | some m => exact ⟨h, rfl, rfl, rfl, rfl, by simp [hf],
      by simp [LogfmtHandler.unmarshalTrace, hf]⟩

theorem mem_mapKeys_mapSet (m : GoMap) (k v x : Bytes) (hx : x ∈ mapKeys (mapSet m k v)) :
    x = k ∨ x ∈ mapKeys m := by
  induction m with
  | nil => simpa [mapSet, mapKeys] using hx
  | cons e rest ih =>
    obtain ⟨k', v'⟩ := e
    by_cases hk : k' = k
    · simp [mapSet, mapKeys, hk] at hx ⊢
      exact hx
    · simp only [mapSet, hk, if_false, mapKeys, List.map_cons, List.mem_cons] at hx ⊢
      rcases hx with hx | hx
      · exact Or.inr (Or.inl hx)
      · rcases ih hx with h1 | h1
        · exact Or.inl h1
        · exact Or.inr (Or.inr h1)

/-- A key of Fields after a pair was already a key before it, or is the key of
that pair and the pair took the final exit. -/
theorem handleKeyval_fields_keys (ext : Externals) (h : LogfmtHandler) (kv : Bytes × Bytes)
    (x : Bytes) (hx : x ∈ mapKeys ((handleKeyval ext h kv).1.Fields.getD [])) :
    x ∈ mapKeys (h.Fields.getD []) ∨ ((handleKeyval ext h kv).2 = Dest.field ∧ kv.1 = x) := by
  obtain ⟨k, v⟩ := kv
  rcases handleKeyval_cases ext h k v with ⟨t, _, _, _, e⟩ | ⟨_, _, e⟩ | ⟨_, _, _, e⟩ | ⟨_, _, e⟩
  · rw [e] at hx; exact Or.inl hx
  · rw [e] at hx; exact Or.inl hx
  · rw [e] at hx; exact Or.inl hx
  · rw [e] at hx ⊢
    rcases mem_mapKeys_mapSet _ _ _ _ (by simpa using hx) with h1 | h1
    · exact Or.inr ⟨rfl, h1.symm⟩
    · exact Or.inl h1

theorem handleKeyvals_fields_keys (ext : Externals) (h : LogfmtHandler)
    (kvs : List (Bytes × Bytes)) (x : Bytes)
    (hx : x ∈ mapKeys ((handleKeyvals ext h kvs).1.Fields.getD [])) :
    x ∈ mapKeys (h.Fields.getD []) ∨
      ∃ p ∈ List.zip kvs (handleKeyvals ext h kvs).2, p.2 = Dest.field ∧ p.1.1 = x := by
  induction kvs generalizing h with
  | nil => exact Or.inl hx
  | cons kv rest ih =>
    rw [handleKeyvals_cons] at hx ⊢
    rcases ih (handleKeyval ext h kv).1 hx with h1 | ⟨p, hp, hpd, hpk⟩
    · rcases handleKeyval_fields_keys ext h kv x h1 with h2 | ⟨h2, h3⟩
      · exact Or.inl h2
      · exact Or.inr ⟨(kv, (handleKeyval ext h kv).2), by simp, h2, h3⟩
    · exact Or.inr ⟨p, by simp [hp], hpd, hpk⟩

/-- In a list of pairs with pairwise distinct keys, the key determines the
position, hence the exit recorded next to it. -/
theorem zip_key_unique (kvs : List (Bytes × Bytes)) (ds : List Dest)
    (hnd : (kvs.map Prod.fst).Nodup) (p q : (Bytes × Bytes) × Dest)
    (hp : p ∈ List.zip kvs ds) (hq : q ∈ List.zip kvs ds) (hk : p.1.1 = q.1.1) :
    p.2 = q.2 := by
  induction kvs generalizing ds with
  | nil => simp at hp
  | cons kv rest ih =>
    cases ds with
    | nil => simp at hp
    | cons d ds =>
      rw [List.map_cons, List.nodup_cons] at hnd
      rw [List.zip_cons_cons, List.mem_cons] at hp hq
      obtain ⟨⟨pk, pv⟩, pd⟩ := p
      obtain ⟨⟨qk, qv⟩, qd⟩ := q
      simp only at hk
      subst hk
      rcases hp with hp | hp <;> rcases hq with hq | hq
      · rw [hp, hq]
      · exfalso
        apply hnd.1
        have := (List.of_mem_zip hq).1
        have hkv : kv.1 = pk := by rw [← (Prod.mk.inj hp).1]
        rw [hkv]
        exact List.mem_map.mpr ⟨(pk, qv), this, rfl⟩
      · exfalso
        apply hnd.1
        have := (List.of_mem_zip hp).1
        have hkv : kv.1 = pk := by rw [← (Prod.mk.inj hq).1]
        rw [hkv]
        exact List.mem_map.mpr ⟨(pk, pv), this, rfl⟩
      · exact ih ds hnd.2 hp hq

/-- What a successful `TryHandle` leaves in the handler and in the event. -/
theorem tryHandle_of_true (ext : Externals) (h : LogfmtHandler) (d : Bytes)
    (out : StructuredLogEvent) (hok : (LogfmtHandler.TryHandle ext h d out).1 = true) :
    (LogfmtHandler.TryHandle ext h d out).2.1 = (h.clear.unmarshalTrace ext d).1 ∧
    (LogfmtHandler.TryHandle ext h d out).2.2 =
      { Timestamp := some (h.clear.unmarshalTrace ext d).1.Time
        Msg := (h.clear.unmarshalTrace ext d).1.Message
        Lvl := (h.clear.unmarshalTrace ext d).1.Level
        Kvs := out.Kvs ++ (ext.rangeOrder ((h.clear.unmarshalTrace ext d).1.Fields.getD [])).map
          (fun e => KV.mk e.1 e.2) } := by
  unfold LogfmtHandler.TryHandle LogfmtHandler.UnmarshalLogfmt at hok ⊢
  by_cases hc : containsRune d 61 = true
  · cases he : (ext.decode d).err
    · simp [hc, he]
    · simp [hc, he] at hok
  · simp [hc] at hok

/-- The time exit comes first: it is taken, for any key, as soon as Time is zero,
TimeFields is not empty and the time resolver accepts the value. -/
theorem handleKeyval_time_first (ext : Externals) (h : LogfmtHandler) (k v : Bytes)
    (t : GoTime) (hz : h.Time.IsZero = true) (hf : h.Opts.TimeFields ≠ [])
    (ht : ext.tryParseTime v = some t) :
    handleKeyval ext h (k, v) = ({ h with Time := t }, Dest.time) := by
  rw [handleKeyval_eq]
  simp [hz, hf, ht]

theorem not_time_of_dest (ext : Externals) (h : LogfmtHandler) (k v : Bytes)
    (hd : (handleKeyval ext h (k, v)).2 ≠ Dest.time) :
    h.Time.IsZero = true → h.Opts.TimeFields ≠ [] → ext.tryParseTime v = none := by
  intro hz hf
  cases ht : ext.tryParseTime v with
  | none => rfl
  | some t =>
    exfalso
    apply hd
    rw [handleKeyval_time_first ext h k v t hz hf ht]

/-! ## Claims on the logfmt handler -/

/-- C5: on the line foo=2024-01-01T00:00:00Z, with the default options (whose
TimeFields do not list foo) and a time resolver accepting the value,
UnmarshalLogfmt consumes the pair as the timestamp: Time is assigned from a
pair whose key is not a time field, and nothing reaches Fields. In general the
loop body takes the time exit for any key, as soon as Time is zero, TimeFields
is not empty and the time resolver accepts the value. -/
theorem C5_time_from_unlisted_key :
    ascii "foo" ∉ DefaultOptions.TimeFields ∧
    (sampleExt.decode (ascii "foo=2024-01-01T00:00:00Z")).keyvals =
      [(ascii "foo", ascii "2024-01-01T00:00:00Z")] ∧
    ((newLogfmtHandler DefaultOptions).unmarshalTrace sampleExt
      (ascii "foo=2024-01-01T00:00:00Z")).2 = [Dest.time] ∧
    LogfmtHandler.UnmarshalLogfmt sampleExt (newLogfmtHandler DefaultOptions)
      (ascii "foo=2024-01-01T00:00:00Z") =
      (true, { Opts := DefaultOptions, Level := [], Time := t2024, Message := [],
               Fields := some [] }) ∧
    (∀ (ext : Externals) (h : LogfmtHandler) (k v : Bytes) (t : GoTime),
      h.Time.IsZero = true → h.Opts.TimeFields ≠ [] → ext.tryParseTime v = some t →
      handleKeyval ext h (k, v) = ({ h with Time := t }, Dest.time)) := by
  refine ⟨by decide, by decide, by decide, by decide, ?_⟩
  intro ext h k v t hz hf ht
  exact handleKeyval_time_first ext h k v t hz hf ht

/-- C10: TryHandle returns true exactly when the line contains the byte of the
equals sign and the decoder ends without error; a line on which the decoder
reports an error after yielding a pair is rejected. -/
theorem C10_tryHandle_true_iff :
    (∀ (ext : Externals) (h : LogfmtHandler) (d : Bytes) (out : StructuredLogEvent),
      (LogfmtHandler.TryHandle ext h d out).1 = true ↔
        (61 ∈ d ∧ (ext.decode d).err = false)) ∧
    ((sampleExt.decode (ascii "a=1 b=\"x")).keyvals = [(ascii "a", ascii "1")] ∧
      (LogfmtHandler.TryHandle sampleExt (newLogfmtHandler DefaultOptions)
        (ascii "a=1 b=\"x") emptyEvent).1 = false) := by
  refine ⟨?_, by decide⟩
  intro ext h d out
  unfold LogfmtHandler.TryHandle LogfmtHandler.UnmarshalLogfmt containsRune
  by_cases hc : 61 ∈ d
  · cases he : (ext.decode d).err <;> simp [hc, he]
  · simp [hc]

/-- C9: every pair the decoder loops visit takes exactly one exit, tried in the
order time, message, level, fields, and the handler after the pair differs from
the handler before it in the one component of that exit: Time for the time
exit, Message for the message exit (taken when the time exit is not, Message is
empty and the key is a message candidate), Level for the level exit (taken
when neither earlier exit is, so by a key that is also a message candidate only
once Message is filled), and otherwise the entry of Fields under the pair's key,
which then holds the pair's value. On the line of scenario 2, with the default
options and a time resolver that accepts only the first value, the result is
Level error, Message boom and Fields = (code: 500). -/
theorem C9_each_pair_one_destination :
    (∀ (ext : Externals) (h : LogfmtHandler) (pre post : List (Bytes × Bytes)) (k v : Bytes),
      ∃ dest,
        (handleKeyvals ext h (pre ++ (k, v) :: post)).2[pre.length]? = some dest ∧
        ((dest = Dest.time ∧ (handleKeyvals ext h pre).1.Time.IsZero = true ∧
            ∃ t, ext.tryParseTime v = some t ∧
            (handleKeyvals ext h (pre ++ [(k, v)])).1 =
              { (handleKeyvals ext h pre).1 with Time := t }) ∨
         (dest = Dest.message ∧
            ((handleKeyvals ext h pre).1.Time.IsZero = true → h.Opts.TimeFields ≠ [] →
              ext.tryParseTime v = none) ∧
            (handleKeyvals ext h pre).1.Message = [] ∧ k ∈ h.Opts.MessageFields ∧
            (handleKeyvals ext h (pre ++ [(k, v)])).1 =
              { (handleKeyvals ext h pre).1 with Message := v }) ∨
         (dest = Dest.level ∧
            ((handleKeyvals ext h pre).1.Time.IsZero = true → h.Opts.TimeFields ≠ [] →
              ext.tryParseTime v = none) ∧
            (k ∈ h.Opts.MessageFields → (handleKeyvals ext h pre).1.Message ≠ []) ∧
            (handleKeyvals ext h pre).1.Level = [] ∧ k ∈ h.Opts.LevelFields ∧
            (handleKeyvals ext h (pre ++ [(k, v)])).1 =
              { (handleKeyvals ext h pre).1 with Level := v }) ∨
         (dest = Dest.field ∧
            ((handleKeyvals ext h pre).1.Time.IsZero = true → h.Opts.TimeFields ≠ [] →
              ext.tryParseTime v = none) ∧
            (k ∈ h.Opts.MessageFields → (handleKeyvals ext h pre).1.Message ≠ []) ∧
            (k ∈ h.Opts.LevelFields → (handleKeyvals ext h pre).1.Level ≠ []) ∧
            (handleKeyvals ext h (pre ++ [(k, v)])).1 =
              { (handleKeyvals ext h pre).1 with
                Fields := some (mapSet ((handleKeyvals ext h pre).1.Fields.getD []) k v) } ∧
            mapGet ((handleKeyvals ext h (pre ++ [(k, v)])).1.Fields.getD []) k = some v))) ∧
    ((sampleExt.decode lineScenario2).keyvals =
        [(ascii "time", ascii "2024-01-01T00:00:00Z"), (ascii "level", ascii "error"),
          (ascii "msg", ascii "boom"), (ascii "code", ascii "500")] ∧
      LogfmtHandler.UnmarshalLogfmt sampleExt (newLogfmtHandler DefaultOptions) lineScenario2 =
        (true, { Opts := DefaultOptions, Level := ascii "error", Time := t2024,
                 Message := ascii "boom", Fields := some [(ascii "code", ascii "500")] })) := by
  refine ⟨?_, by decide⟩
  intro ext h pre post k v
  refine ⟨(handleKeyval ext (handleKeyvals ext h pre).1 (k, v)).2,
    handleKeyvals_dest_at ext h pre post (k, v), ?_⟩
  rw [handleKeyvals_snoc]
  have hopts := handleKeyvals_opts ext h pre
  have hnt := not_time_of_dest ext (handleKeyvals ext h pre).1 k v
  rw [hopts] at hnt
  rcases handleKeyval_cases ext (handleKeyvals ext h pre).1 k v with
    ⟨t, hz, _, ht, e⟩ | ⟨hm, hk, e⟩ | ⟨hm, hl, hk, e⟩ | ⟨hm, hl, e⟩
  · left; exact ⟨by rw [e], hz, t, ht, by rw [e]⟩
  · right; left
    exact ⟨by rw [e], hnt (by rw [e]; simp), hm, hopts ▸ hk, by rw [e]⟩
  · right; right; left
    refine ⟨by rw [e], hnt (by rw [e]; simp), ?_, hl, hopts ▸ hk, by rw [e]⟩
    intro hkm hmsg
    exact hm ⟨hmsg, hopts ▸ hkm⟩
  · right; right; right
    refine ⟨by rw [e], hnt (by rw [e]; simp), ?_, ?_, by rw [e], ?_⟩
    · intro hkm hmsg
      exact hm ⟨hmsg, hopts ▸ hkm⟩
    · intro hkl hlvl
      exact hl ⟨hlvl, hopts ▸ hkl⟩
    · rw [e]
      simp [mapGet_mapSet_self]

/-- C7 (as stated, refuted): on the line `msg= msg=hello` both pairs are
consumed for the message role, and the message is the value of the second one,
not of the first pair that matched. -/
theorem C7_counterexample_empty_value_refilled :
    (sampleExt.decode (ascii "msg= msg=hello")).keyvals =
      [(ascii "msg", []), (ascii "msg", ascii "hello")] ∧
    ((newLogfmtHandler DefaultOptions).unmarshalTrace sampleExt (ascii "msg= msg=hello")).2 =
      [Dest.message, Dest.message] ∧
    (LogfmtHandler.UnmarshalLogfmt sampleExt (newLogfmtHandler DefaultOptions)
      (ascii "msg= msg=hello")).2.Message = ascii "hello" := by
  decide

/-- C7 (amended): once a pair with a non-empty value has been consumed for the
message role (for the level role; for the time role, a pair whose parsed time is
not the zero time), the role keeps that value to the end of the line and no
later pair of the line is consumed for that role. -/
theorem C7_filled_role_is_kept (ext : Externals) (h : LogfmtHandler) (d : Bytes)
    (pre post : List (Bytes × Bytes)) (k v : Bytes)
    (hdec : (ext.decode d).keyvals = pre ++ (k, v) :: post) :
    ((h.unmarshalTrace ext d).2[pre.length]? = some Dest.message → v ≠ [] →
      (LogfmtHandler.UnmarshalLogfmt ext h d).2.Message = v ∧
      ∀ j, pre.length < j → (h.unmarshalTrace ext d).2[j]? ≠ some Dest.message) ∧
    ((h.unmarshalTrace ext d).2[pre.length]? = some Dest.level → v ≠ [] →
      (LogfmtHandler.UnmarshalLogfmt ext h d).2.Level = v ∧
      ∀ j, pre.length < j → (h.unmarshalTrace ext d).2[j]? ≠ some Dest.level) ∧
    (∀ t, (h.unmarshalTrace ext d).2[pre.length]? = some Dest.time →
      ext.tryParseTime v = some t → t.IsZero = false →
      (LogfmtHandler.UnmarshalLogfmt ext h d).2.Time = t ∧
      ∀ j, pre.length < j → (h.unmarshalTrace ext d).2[j]? ≠ some Dest.time) := by
  obtain ⟨h0, -, -, -, -, -, htr⟩ := unmarshalTrace_eq ext h d
  simp only [LogfmtHandler.UnmarshalLogfmt]
  rw [htr, hdec]
  have hat := handleKeyvals_dest_at ext h0 pre post (k, v)
  have hlen := handleKeyvals_length ext h0 pre
  rw [handleKeyvals_append, handleKeyvals_cons] at hat ⊢
  simp only at hat ⊢
  refine ⟨?_, ?_, ?_⟩
  · intro hd hv
    rw [hat] at hd
    have hd : (handleKeyval ext (handleKeyvals ext h0 pre).1 (k, v)).2 = Dest.message := by
      simpa using hd
    have hmsg : (handleKeyval ext (handleKeyvals ext h0 pre).1 (k, v)).1.Message = v := by
      rcases handleKeyval_cases ext (handleKeyvals ext h0 pre).1 k v with
        ⟨t, _, _, _, e⟩ | ⟨_, _, e⟩ | ⟨_, _, _, e⟩ | ⟨_, _, e⟩ <;> rw [e] at hd ⊢ <;> simp at hd ⊢
    have hs := handleKeyvals_message_sticky ext
      (handleKeyval ext (handleKeyvals ext h0 pre).1 (k, v)).1 post (by rw [hmsg]; exact hv)
    refine ⟨by rw [hs.1, hmsg], ?_⟩
    intro j hj
    exact not_at_later_index _ _ _ _ hs.2 j (by rw [hlen]; exact hj)
  · intro hd hv
    rw [hat] at hd
    have hd : (handleKeyval ext (handleKeyvals ext h0 pre).1 (k, v)).2 = Dest.level := by
      simpa using hd
    have hlvl : (handleKeyval ext (handleKeyvals ext h0 pre).1 (k, v)).1.Level = v := by
      rcases handleKeyval_cases ext (handleKeyvals ext h0 pre).1 k v with
        ⟨t, _, _, _, e⟩ | ⟨_, _, e⟩ | ⟨_, _, _, e⟩ | ⟨_, _, e⟩ <;> rw [e] at hd ⊢ <;> simp at hd ⊢
    have hs := handleKeyvals_level_sticky ext
      (handleKeyval ext (handleKeyvals ext h0 pre).1 (k, v)).1 post (by rw [hlvl]; exact hv)
    refine ⟨by rw [hs.1, hlvl], ?_⟩
    intro j hj
    exact not_at_later_index _ _ _ _ hs.2 j (by rw [hlen]; exact hj)
  · intro t hd ht hz
    rw [hat] at hd
    have hd : (handleKeyval ext (handleKeyvals ext h0 pre).1 (k, v)).2 = Dest.time := by
      simpa using hd
    have htime : (handleKeyval ext (handleKeyvals ext h0 pre).1 (k, v)).1.Time = t := by
      rcases handleKeyval_cases ext (handleKeyvals ext h0 pre).1 k v with
        ⟨t1, _, _, ht1, e⟩ | ⟨_, _, e⟩ | ⟨_, _, _, e⟩ | ⟨_, _, e⟩
      · rw [e]
        rw [ht] at ht1
        simp at ht1 ⊢
        exact ht1.symm
      · rw [e] at hd; simp at hd
      · rw [e] at hd; simp at hd
      · rw [e] at hd; simp at hd
    have hs := handleKeyvals_time_sticky ext
      (handleKeyval ext (handleKeyvals ext h0 pre).1 (k, v)).1 post (by rw [htime]; exact hz)
    refine ⟨by rw [hs.1, htime], ?_⟩
    intro j hj
    exact not_at_later_index _ _ _ _ hs.2 j (by rw [hlen]; exact hj)

/-- C7 (amended), at concrete lines: on `msg=a msg=b` the first pair fills the
message and the second is not consumed for it; on `lvl=warn level=error` the
same holds for the level; on the line of scenario 2 the first pair fills the
time and the second is not consumed for it. -/
theorem C7_filled_role_is_kept_witness :
    ((LogfmtHandler.UnmarshalLogfmt sampleExt (newLogfmtHandler DefaultOptions)
        (ascii "msg=a msg=b")).2.Message = ascii "a" ∧
      ((newLogfmtHandler DefaultOptions).unmarshalTrace sampleExt
        (ascii "msg=a msg=b")).2[1]? ≠ some Dest.message) ∧
    ((LogfmtHandler.UnmarshalLogfmt sampleExt (newLogfmtHandler DefaultOptions)
        (ascii "lvl=warn level=error")).2.Level = ascii "warn" ∧
      ((newLogfmtHandler DefaultOptions).unmarshalTrace sampleExt
        (ascii "lvl=warn level=error")).2[1]? ≠ some Dest.level) ∧
    ((LogfmtHandler.UnmarshalLogfmt sampleExt (newLogfmtHandler DefaultOptions)
        lineScenario2).2.Time = t2024 ∧
      ((newLogfmtHandler DefaultOptions).unmarshalTrace sampleExt
        lineScenario2).2[1]? ≠ some Dest.time) := by
  have hm := (C7_filled_role_is_kept sampleExt (newLogfmtHandler DefaultOptions)
    (ascii "msg=a msg=b") [] [(ascii "msg", ascii "b")] (ascii "msg") (ascii "a")
    (by decide)).1 (by decide) (by decide)
  have hl := (C7_filled_role_is_kept sampleExt (newLogfmtHandler DefaultOptions)
    (ascii "lvl=warn level=error") [] [(ascii "level", ascii "error")] (ascii "lvl")
    (ascii "warn") (by decide)).2.1 (by decide) (by decide)
  have ht := (C7_filled_role_is_kept sampleExt (newLogfmtHandler DefaultOptions)
    lineScenario2 []
    [(ascii "level", ascii "error"), (ascii "msg", ascii "boom"), (ascii "code", ascii "500")]
    (ascii "time") (ascii "2024-01-01T00:00:00Z") (by decide)).2.2 t2024
    (by decide) (by decide) (by decide)
  exact ⟨⟨hm.1, hm.2 1 (by decide)⟩, ⟨hl.1, hl.2 1 (by decide)⟩, ⟨ht.1, ht.2 1 (by decide)⟩⟩

/-- C8 (as stated, refuted): with the default candidate lists, where message is
listed before msg and level before lvl, the line `msg=a message=b` gets the
message a, the value of the later-listed key, and the line `lvl=warn
level=error` gets the level warn. -/
theorem C8_counterexample_line_order_wins :
    DefaultOptions.MessageFields = [ascii "message", ascii "msg"] ∧
    (sampleExt.decode (ascii "msg=a message=b")).keyvals =
      [(ascii "msg", ascii "a"), (ascii "message", ascii "b")] ∧
    (LogfmtHandler.UnmarshalLogfmt sampleExt (newLogfmtHandler DefaultOptions).clear
      (ascii "msg=a message=b")).2.Message = ascii "a" ∧
    DefaultOptions.LevelFields =
      [ascii "level", ascii "lvl", ascii "loglevel", ascii "severity"] ∧
    (sampleExt.decode (ascii "lvl=warn level=error")).keyvals =
      [(ascii "lvl", ascii "warn"), (ascii "level", ascii "error")] ∧
    (LogfmtHandler.UnmarshalLogfmt sampleExt (newLogfmtHandler DefaultOptions).clear
      (ascii "lvl=warn level=error")).2.Level = ascii "warn" := by
  decide

/-- C8 (amended): on a handler that was just cleared, the message is the value
of the pair that comes first in the line among the pairs whose key is a message
candidate, wherever that key stands in the candidate list, when that value is
not empty and the time resolver does not accept it; likewise for the level,
when the key is not also a message candidate. -/
theorem C8_first_pair_in_line_fills_role (ext : Externals) (h : LogfmtHandler) (d : Bytes)
    (pre post : List (Bytes × Bytes)) (k v : Bytes)
    (hdec : (ext.decode d).keyvals = pre ++ (k, v) :: post)
    (hv : v ≠ []) (ht : ext.tryParseTime v = none) :
    ((∀ p ∈ pre, p.1 ∉ h.Opts.MessageFields) → k ∈ h.Opts.MessageFields →
      (LogfmtHandler.UnmarshalLogfmt ext h.clear d).2.Message = v) ∧
    ((∀ p ∈ pre, p.1 ∉ h.Opts.LevelFields) → k ∈ h.Opts.LevelFields →
      k ∉ h.Opts.MessageFields →
      (LogfmtHandler.UnmarshalLogfmt ext h.clear d).2.Level = v) := by
  obtain ⟨h0, hopts, hmsg0, hlvl0, -, -, htr⟩ := unmarshalTrace_eq ext h.clear d
  have hopts : h0.Opts = h.Opts := hopts
  have hmsg0 : h0.Message = [] := hmsg0
  have hlvl0 : h0.Level = [] := hlvl0
  simp only [LogfmtHandler.UnmarshalLogfmt]
  rw [htr, hdec, handleKeyvals_append, handleKeyvals_cons]
  simp only
  have hoptsb : (handleKeyvals ext h0 pre).1.Opts = h.Opts := by
    rw [handleKeyvals_opts, hopts]
  refine ⟨?_, ?_⟩
  · intro hpre hk
    have hb : (handleKeyvals ext h0 pre).1.Message = [] := by
      rw [handleKeyvals_message_untouched ext h0 pre (by rw [hopts]; exact hpre), hmsg0]
    have hstep : (handleKeyval ext (handleKeyvals ext h0 pre).1 (k, v)).1.Message = v := by
      rcases handleKeyval_cases ext (handleKeyvals ext h0 pre).1 k v with
        ⟨t, _, _, ht1, _⟩ | ⟨_, _, e⟩ | ⟨hn, _, _, _⟩ | ⟨hn, _, _⟩
      · rw [ht] at ht1; exact absurd ht1 (by simp)
      · rw [e]
      · exact absurd ⟨hb, hoptsb ▸ hk⟩ hn
      · exact absurd ⟨hb, hoptsb ▸ hk⟩ hn
    rw [(handleKeyvals_message_sticky ext _ post (by rw [hstep]; exact hv)).1, hstep]
  · intro hpre hk hkm
    have hb : (handleKeyvals ext h0 pre).1.Level = [] := by
      rw [handleKeyvals_level_untouched ext h0 pre (by rw [hopts]; exact hpre), hlvl0]
    have hstep : (handleKeyval ext (handleKeyvals ext h0 pre).1 (k, v)).1.Level = v := by
      rcases handleKeyval_cases ext (handleKeyvals ext h0 pre).1 k v with
        ⟨t, _, _, ht1, _⟩ | ⟨_, hk1, _⟩ | ⟨_, _, _, e⟩ | ⟨_, hn, _⟩
      · rw [ht] at ht1; exact absurd ht1 (by simp)
      · exact absurd (hoptsb ▸ hk1) hkm
      · rw [e]
      · exact absurd ⟨hb, hoptsb ▸ hk⟩ hn
    rw [(handleKeyvals_level_sticky ext _ post (by rw [hstep]; exact hv)).1, hstep]

/-- C8 (amended), at concrete lines: `msg=a message=b` gets the message a and
`lvl=warn level=error` gets the level warn. -/
theorem C8_first_pair_in_line_fills_role_witness :
    (LogfmtHandler.UnmarshalLogfmt sampleExt (newLogfmtHandler DefaultOptions).clear
      (ascii "msg=a message=b")).2.Message = ascii "a" ∧
    (LogfmtHandler.UnmarshalLogfmt sampleExt (newLogfmtHandler DefaultOptions).clear
      (ascii "lvl=warn level=error")).2.Level = ascii "warn" :=
  ⟨(C8_first_pair_in_line_fills_role sampleExt (newLogfmtHandler DefaultOptions)
      (ascii "msg=a message=b") [] [(ascii "message", ascii "b")] (ascii "msg") (ascii "a")
      (by decide) (by decide) (by decide)).1 (by decide) (by decide),
   (C8_first_pair_in_line_fills_role sampleExt (newLogfmtHandler DefaultOptions)
      (ascii "lvl=warn level=error") [] [(ascii "level", ascii "error")] (ascii "lvl")
      (ascii "warn") (by decide) (by decide) (by decide)).2 (by decide) (by decide)
      (by decide)⟩

/-- C6 (as stated, refuted): on the line `msg=a msg=b` TryHandle succeeds, the
first pair is consumed as the message, and msg is also a key of Fields and of
the Kvs written to the event, through the second pair. -/
theorem C6_counterexample_repeated_key :
    (sampleExt.decode (ascii "msg=a msg=b")).keyvals =
      [(ascii "msg", ascii "a"), (ascii "msg", ascii "b")] ∧
    destsOf sampleExt (newLogfmtHandler DefaultOptions) (ascii "msg=a msg=b") =
      [Dest.message, Dest.field] ∧
    LogfmtHandler.TryHandle sampleExt (newLogfmtHandler DefaultOptions) (ascii "msg=a msg=b")
      emptyEvent =
      (true,
        { Opts := DefaultOptions, Level := [], Time := GoTime.zero, Message := ascii "a",
          Fields := some [(ascii "msg", ascii "b")] },
        { Timestamp := some GoTime.zero, Msg := ascii "a", Lvl := [],
          Kvs := [⟨ascii "msg", ascii "b"⟩] }) := by
  decide

/-- C6 (amended): for every logfmt line on which TryHandle succeeds and whose
decoded pairs have pairwise distinct keys, no key of a pair that was consumed as
timestamp, message or level is a key of Fields, nor a key of the Kvs that
TryHandle appends to the output event. -/
theorem C6_consumed_key_not_in_fields (ext : Externals) (h : LogfmtHandler) (d : Bytes)
    (out : StructuredLogEvent)
    (hok : (LogfmtHandler.TryHandle ext h d out).1 = true)
    (hnd : ((ext.decode d).keyvals.map Prod.fst).Nodup) :
    ∀ p ∈ List.zip (ext.decode d).keyvals (destsOf ext h d), p.2 ≠ Dest.field →
      p.1.1 ∉ mapKeys ((LogfmtHandler.TryHandle ext h d out).2.1.Fields.getD []) ∧
      p.1.1 ∉ ((LogfmtHandler.TryHandle ext h d out).2.2.Kvs.drop out.Kvs.length).map KV.Key := by
  intro p hp hpd
  obtain ⟨hh, hout⟩ := tryHandle_of_true ext h d out hok
  obtain ⟨h0, -, -, -, -, hf0, htr⟩ := unmarshalTrace_eq ext h.clear d
  have hf0 : h0.Fields = some [] := hf0
  have hkey : p.1.1 ∉ mapKeys ((h.clear.unmarshalTrace ext d).1.Fields.getD []) := by
    intro hx
    rw [htr] at hx
    rcases handleKeyvals_fields_keys ext h0 _ _ hx with h1 | ⟨q, hq, hqd, hqk⟩
    · simp [hf0, mapKeys] at h1
    · have hp1 : p ∈ List.zip (ext.decode d).keyvals
          (handleKeyvals ext h0 (ext.decode d).keyvals).2 := by
        rw [← htr]; exact hp
      have := zip_key_unique _ _ hnd p q hp1 hq hqk.symm
      exact hpd (this.trans hqd)
  refine ⟨by rw [hh]; exact hkey, ?_⟩
  rw [hout]
  simp only [List.drop_left]
  intro hx
  apply hkey
  rcases List.mem_map.mp hx with ⟨kv, hkv, hkvk⟩
  rcases List.mem_map.mp hkv with ⟨e, he, hekv⟩
  have he1 := (ext.rangeOrder_perm _).subset he
  refine List.mem_map.mpr ⟨e, he1, ?_⟩
  rw [← hkvk, ← hekv]

/-- C6 (amended), at the line of scenario 2, whose four keys are distinct: the
key level, consumed as the level, is not a key of Fields nor of the Kvs
written. -/
theorem C6_consumed_key_not_in_fields_witness :
    (LogfmtHandler.TryHandle sampleExt (newLogfmtHandler DefaultOptions) lineScenario2
      emptyEvent).1 = true ∧
    ((sampleExt.decode lineScenario2).keyvals.map Prod.fst).Nodup ∧
    ascii "level" ∉ mapKeys ((LogfmtHandler.TryHandle sampleExt
      (newLogfmtHandler DefaultOptions) lineScenario2 emptyEvent).2.1.Fields.getD []) ∧
    ascii "level" ∉ ((LogfmtHandler.TryHandle sampleExt (newLogfmtHandler DefaultOptions)
      lineScenario2 emptyEvent).2.2.Kvs.drop emptyEvent.Kvs.length).map KV.Key :=
  ⟨by decide, by decide,
    C6_consumed_key_not_in_fields sampleExt (newLogfmtHandler DefaultOptions) lineScenario2
      emptyEvent (by decide) (by decide) ((ascii "level", ascii "error"), Dest.level)
      (by decide) (by decide)⟩

/-! ## Lemmas on the scanner -/

/-- One iteration of the loop: the record it adds, the two writes it makes, the
arm it takes, the argument it gives to `Prettify` and the flags it leaves. -/
theorem scanLine_spec {J L : Type} (H : Handlers J L) (opts : HandlerOptions)
    (st : ScanState J L) (raw : Bytes) :
    ∃ r : LineRecord,
      (scanLine H opts st raw).records = st.records ++ [r] ∧
      (scanLine H opts st raw).writes = st.writes ++ [r.body, eol] ∧
      r.input = raw ∧
      r.arm =
        (if (H.jsonTryHandle st.jsonEntry (TrimPrefix raw ceeTag)).1 = true then Arm.json
         else if (H.logfmtTryHandle st.logfmtEntry (TrimPrefix raw ceeTag)).1 = true then
           Arm.logfmt
         else if (H.tryDockerComposePrefixJSON (TrimPrefix raw ceeTag)
             (H.jsonTryHandle st.jsonEntry (TrimPrefix raw ceeTag)).2).1 = true then
           Arm.dockerJSON
         else if (H.tryDockerComposePrefixLogfmt (TrimPrefix raw ceeTag)
             (H.logfmtTryHandle st.logfmtEntry (TrimPrefix raw ceeTag)).2).1 = true then
           Arm.dockerLogfmt
         else if (H.tryZapDevPrefix (TrimPrefix raw ceeTag)
             (H.tryDockerComposePrefixJSON (TrimPrefix raw ceeTag)
               (H.jsonTryHandle st.jsonEntry (TrimPrefix raw ceeTag)).2).2).1 = true then
           Arm.zapJSON
         else Arm.passThrough) ∧
      (r.arm.kind = some Kind.JSON → r.skipUnchanged = (opts.SkipUnchanged && st.lastJSON)) ∧
      (r.arm.kind = some Kind.logfmt →
        r.skipUnchanged = (opts.SkipUnchanged && st.lastLogfmt)) ∧
      (r.arm = Arm.passThrough → r.body = TrimPrefix raw ceeTag) ∧
      (r.arm = Arm.json → r.body = (H.jsonPrettify
        (H.jsonTryHandle st.jsonEntry (TrimPrefix raw ceeTag)).2 r.skipUnchanged).1) ∧
      (r.arm = Arm.logfmt → r.body = (H.logfmtPrettify
        (H.logfmtTryHandle st.logfmtEntry (TrimPrefix raw ceeTag)).2 r.skipUnchanged).1) ∧
      (r.arm = Arm.dockerJSON → r.body = (H.jsonPrettify
        (H.tryDockerComposePrefixJSON (TrimPrefix raw ceeTag)
          (H.jsonTryHandle st.jsonEntry (TrimPrefix raw ceeTag)).2).2 r.skipUnchanged).1) ∧
      (r.arm = Arm.dockerLogfmt → r.body = (H.logfmtPrettify
        (H.tryDockerComposePrefixLogfmt (TrimPrefix raw ceeTag)
          (H.logfmtTryHandle st.logfmtEntry (TrimPrefix raw ceeTag)).2).2 r.skipUnchanged).1) ∧
      (r.arm = Arm.zapJSON → r.body = (H.jsonPrettify
        (H.tryZapDevPrefix (TrimPrefix raw ceeTag)
          (H.tryDockerComposePrefixJSON (TrimPrefix raw ceeTag)
            (H.jsonTryHandle st.jsonEntry (TrimPrefix raw ceeTag)).2).2).2 r.skipUnchanged).1) ∧
      ((scanLine H opts st raw).lastJSON = true ↔
        r.arm ≠ Arm.passThrough ∧ (r.arm.kind = some Kind.JSON ∨ st.lastJSON = true)) ∧
      ((scanLine H opts st raw).lastLogfmt = true ↔
        r.arm ≠ Arm.passThrough ∧ (r.arm.kind = some Kind.logfmt ∨ st.lastLogfmt = true)) := by
  unfold scanLine
  by_cases h1 : (H.jsonTryHandle st.jsonEntry (TrimPrefix raw ceeTag)).1 = true
  · simp only [h1, if_true]
    exact ⟨_, rfl, rfl, rfl, rfl, by simp [Arm.kind], by simp [Arm.kind], by simp,
      by simp, by simp, by simp, by simp, by simp, by simp [Arm.kind], by simp [Arm.kind]⟩
  by_cases h2 : (H.logfmtTryHandle st.logfmtEntry (TrimPrefix raw ceeTag)).1 = true
  · simp only [h1, h2, if_true, if_false]
    exact ⟨_, rfl, rfl, rfl, rfl, by simp [Arm.kind], by simp [Arm.kind], by simp,
      by simp, by simp, by simp, by simp, by simp, by simp [Arm.kind], by simp [Arm.kind]⟩
  by_cases h3 : (H.tryDockerComposePrefixJSON (TrimPrefix raw ceeTag)
      (H.jsonTryHandle st.jsonEntry (TrimPrefix raw ceeTag)).2).1 = true
  · simp only [h1, h2, h3, if_true, if_false]
    exact ⟨_, rfl, rfl, rfl, rfl, by simp [Arm.kind], by simp [Arm.kind], by simp,
      by simp, by simp, by simp, by simp, by simp, by simp [Arm.kind], by simp [Arm.kind]⟩
  by_cases h4 : (H.tryDockerComposePrefixLogfmt (TrimPrefix raw ceeTag)
      (H.logfmtTryHandle st.logfmtEntry (TrimPrefix raw ceeTag)).2).1 = true
  · simp only [h1, h2, h3, h4, if_true, if_false]
    exact ⟨_, rfl, rfl, rfl, rfl, by simp [Arm.kind], by simp [Arm.kind], by simp,
      by simp, by simp, by simp, by simp, by simp, by simp [Arm.kind], by simp [Arm.kind]⟩
  by_cases h5 : (H.tryZapDevPrefix (TrimPrefix raw ceeTag)
      (H.tryDockerComposePrefixJSON (TrimPrefix raw ceeTag)
        (H.jsonTryHandle st.jsonEntry (TrimPrefix raw ceeTag)).2).2).1 = true
  · simp only [h1, h2, h3, h4, h5, if_true, if_false]
    exact ⟨_, rfl, rfl, rfl, rfl, by simp [Arm.kind], by simp [Arm.kind], by simp,
      by simp, by simp, by simp, by simp, by simp, by simp [Arm.kind], by simp [Arm.kind]⟩
  · simp only [h1, h2, h3, h4, h5, if_false]
    exact ⟨_, rfl, rfl, rfl, rfl, by simp [Arm.kind], by simp [Arm.kind], by simp,
      by simp, by simp, by simp, by simp, by simp, by simp [Arm.kind], by simp [Arm.kind]⟩

theorem scanner_fst {J L : Type} (H : Handlers J L) (opts : HandlerOptions) (j0 : J) (l0 : L)
    (lines : List Bytes) (readErr : Option GoError) :
    (Scanner H opts j0 l0 lines readErr).1 = scanLoop H opts (scanInit j0 l0) lines := by
  unfold Scanner
  rcases readErr with _ | _ | _ <;> rfl

theorem scanLoop_nil {J L : Type} (H : Handlers J L) (opts : HandlerOptions)
    (st : ScanState J L) : scanLoop H opts st [] = st := rfl

theorem scanLoop_cons {J L : Type} (H : Handlers J L) (opts : HandlerOptions)
    (st : ScanState J L) (d : Bytes) (rest : List Bytes) :
    scanLoop H opts st (d :: rest) = scanLoop H opts (scanLine H opts st d) rest := rfl

theorem scanLoop_append {J L : Type} (H : Handlers J L) (opts : HandlerOptions)
    (st : ScanState J L) (a b : List Bytes) :
    scanLoop H opts st (a ++ b) = scanLoop H opts (scanLoop H opts st a) b := by
  unfold scanLoop
  rw [List.foldl_append]

/-- The loop adds one record per line, in order, and two writes per record: its
body, then the line terminator. -/
theorem scanLoop_records {J L : Type} (H : Handlers J L) (opts : HandlerOptions)
    (st : ScanState J L) (lines : List Bytes) :
    ∃ rs : List LineRecord,
      (scanLoop H opts st lines).records = st.records ++ rs ∧
      rs.map LineRecord.input = lines ∧
      (scanLoop H opts st lines).writes =
        st.writes ++ (rs.map (fun r => [r.body, eol])).flatten := by
  induction lines generalizing st with
  | nil => exact ⟨[], by simp [scanLoop_nil], rfl, by simp [scanLoop_nil]⟩
  | cons d rest ih =>
    obtain ⟨r, hrec, hwr, hin, -⟩ := scanLine_spec H opts st d
    obtain ⟨rs, hrs, hmap, hws⟩ := ih (scanLine H opts st d)
    refine ⟨r :: rs, ?_, ?_, ?_⟩
    · rw [scanLoop_cons, hrs, hrec]; simp
    · simp [hin, hmap]
    · rw [scanLoop_cons, hws, hwr]; simp

theorem renderedSince_nil (k : Kind) : ¬ renderedSince k [] := by
  rintro ⟨a, b, hab, -, x, hx, -⟩
  have hb : b = [] := (List.append_eq_nil.mp hab.symm).2
  rw [hb] at hx
  simp at hx

theorem renderedSince_snoc (k : Kind) (recs : List LineRecord) (r : LineRecord) :
    renderedSince k (recs ++ [r]) ↔
      r.arm ≠ Arm.passThrough ∧ (r.arm.kind = some k ∨ renderedSince k recs) := by
  constructor
  · rintro ⟨a, b, hab, hall, x, hx, hxk⟩
    rcases List.eq_nil_or_concat b with hb | ⟨b1, y, hb⟩
    · rw [hb] at hx; simp at hx
    · rw [List.concat_eq_append] at hb
      rw [hb, ← List.append_assoc] at hab
      obtain ⟨h1, h2⟩ := List.append_inj' hab rfl
      have hy : r = y := by simpa using h2
      subst hy
      refine ⟨hall r (by rw [hb]; simp), ?_⟩
      rw [hb, List.mem_append] at hx
      rcases hx with hx | hx
      · exact Or.inr ⟨a, b1, h1, fun z hz => hall z (by rw [hb]; simp [hz]), x, hx, hxk⟩
      · have : x = r := by simpa using hx
        exact Or.inl (this ▸ hxk)
  · rintro ⟨hr, hk | ⟨a, b, hab, hall, x, hx, hxk⟩⟩
    · exact ⟨recs, [r], rfl, by simpa using hr, r, by simp, hk⟩
    · refine ⟨a, b ++ [r], by rw [hab, List.append_assoc], ?_, x, by simp [hx], hxk⟩
      intro z hz
      rw [List.mem_append] at hz
      rcases hz with hz | hz
      · exact hall z hz
      · have : z = r := by simpa using hz
        rw [this]; exact hr

theorem flagsTrack_init {J L : Type} (j0 : J) (l0 : L) :
    flagsTrack (scanInit j0 l0 : ScanState J L) := by
  constructor
  · simp [scanInit, renderedSince_nil]
  · simp [scanInit, renderedSince_nil]

theorem flagsTrack_scanLine {J L : Type} (H : Handlers J L) (opts : HandlerOptions)
    (st : ScanState J L) (d : Bytes) (hst : flagsTrack st) :
    flagsTrack (scanLine H opts st d) := by
  obtain ⟨r, hrec, -, -, -, -, -, -, -, -, -, -, -, hj, hl⟩ := scanLine_spec H opts st d
  constructor
  · rw [hj, hrec, renderedSince_snoc, hst.1]
  · rw [hl, hrec, renderedSince_snoc, hst.2]

theorem flagsTrack_scanLoop {J L : Type} (H : Handlers J L) (opts : HandlerOptions)
    (st : ScanState J L) (lines : List Bytes) (hst : flagsTrack st) :
    flagsTrack (scanLoop H opts st lines) := by
  induction lines generalizing st with
  | nil => exact hst
  | cons d rest ih => exact ih _ (flagsTrack_scanLine H opts st d hst)

theorem writes_length (rs : List LineRecord) :
    ((rs.map (fun r => [r.body, eol])).flatten).length = 2 * rs.length := by
  induction rs with
  | nil => rfl
  | cons r rest ih => simp [ih]; omega

/-- The line that follows `pre` in a stream: its record stands at position
`pre.length`, its two writes at position `2 * pre.length`, and it is handled by
the loop body from the state reached after `pre`. -/
theorem scanner_line_at {J L : Type} (H : Handlers J L) (opts : HandlerOptions) (j0 : J)
    (l0 : L) (pre post : List Bytes) (d : Bytes) (readErr : Option GoError) :
    ∃ (r : LineRecord) (rest : List LineRecord) (restw : List Bytes),
      (Scanner H opts j0 l0 (pre ++ d :: post) readErr).1.records =
        (Scanner H opts j0 l0 pre readErr).1.records ++ r :: rest ∧
      (Scanner H opts j0 l0 pre readErr).1.records.length = pre.length ∧
      (Scanner H opts j0 l0 (pre ++ d :: post) readErr).1.writes =
        (Scanner H opts j0 l0 pre readErr).1.writes ++ r.body :: eol :: restw ∧
      (Scanner H opts j0 l0 pre readErr).1.writes.length = 2 * pre.length ∧
      (scanLine H opts (Scanner H opts j0 l0 pre readErr).1 d).records =
        (Scanner H opts j0 l0 pre readErr).1.records ++ [r] ∧
      flagsTrack (Scanner H opts j0 l0 pre readErr).1 := by
  simp only [scanner_fst]
  rw [scanLoop_append, scanLoop_cons]
  obtain ⟨r, hrec, hwr, -⟩ := scanLine_spec H opts (scanLoop H opts (scanInit j0 l0) pre) d
  obtain ⟨rs, hrs, -, hws⟩ :=
    scanLoop_records H opts (scanLine H opts (scanLoop H opts (scanInit j0 l0) pre) d) post
  obtain ⟨rp, hrp, hmap, hwp⟩ := scanLoop_records H opts (scanInit j0 l0 : ScanState J L) pre
  have hlen : rp.length = pre.length := by rw [← hmap, List.length_map]
  refine ⟨r, rs, (rs.map (fun r => [r.body, eol])).flatten, ?_, ?_, ?_, ?_, hrec,
    flagsTrack_scanLoop H opts _ pre (flagsTrack_init j0 l0)⟩
  · rw [hrs, hrec]; simp
  · rw [hrp]; simp [scanInit, hlen]
  · rw [hws, hwr]; simp
  · rw [hwp, List.length_append, writes_length, hlen]; simp [scanInit]

theorem record_at_eq {α : Type} (a rest : List α) (r r1 : α) (n : Nat) (hn : a.length = n)
    (h : (a ++ r :: rest)[n]? = some r1) : r1 = r := by
  subst hn
  rw [List.getElem?_append_right (Nat.le_refl _)] at h
  simp at h
  exact h.symm

theorem take_prefix_eq {α : Type} (a rest : List α) (n : Nat) (hn : a.length = n) :
    (a ++ rest).take n = a := by
  subst hn
  simp

theorem scanLine_record_unique {J L : Type} (H : Handlers J L) (opts : HandlerOptions)
    (st : ScanState J L) (d : Bytes) (r r1 : LineRecord)
    (h : (scanLine H opts st d).records = st.records ++ [r])
    (h1 : (scanLine H opts st d).records = st.records ++ [r1]) : r1 = r := by
  rw [h] at h1
  simpa using (List.append_cancel_left h1).symm

/-! ## Claims on the scanner -/

/-- C1 (as stated, refuted): in the stream JSON line, logfmt line, JSON line
the third line is rendered by the JSON handler with skipUnchanged = true
although the line right before it was rendered by the logfmt handler; in the
stream logfmt, JSON, logfmt the third line, a logfmt line that directly follows
a JSON line, is rendered with skipUnchanged = true. -/
theorem C1_counterexample_other_kind_between :
    DefaultOptions.SkipUnchanged = true ∧
    (Scanner sampleHandlers DefaultOptions [] [] [lineJSON, lineLogfmt, lineJSON] none).1.records.map
        (fun r => (r.arm, r.skipUnchanged)) =
      [(Arm.json, false), (Arm.logfmt, false), (Arm.json, true)] ∧
    (Scanner sampleHandlers DefaultOptions [] [] [lineLogfmt, lineJSON, lineLogfmt] none).1.records.map
        (fun r => (r.arm, r.skipUnchanged)) =
      [(Arm.logfmt, false), (Arm.json, false), (Arm.logfmt, true)] := by
  decide

/-- C1 (amended): for every stream and every line of it that a recognizer
accepts, Prettify is called with skipUnchanged = true if and only if
opts.SkipUnchanged is true and, among the lines before it, one was rendered by a
recognizer of the same type with no pass-through line after it. -/
theorem C1_skipUnchanged_iff_rendered_since {J L : Type} (H : Handlers J L)
    (opts : HandlerOptions) (j0 : J) (l0 : L) (pre post : List Bytes) (d : Bytes)
    (readErr : Option GoError) (r : LineRecord) (k : Kind)
    (hr : (Scanner H opts j0 l0 (pre ++ d :: post) readErr).1.records[pre.length]? = some r)
    (hk : r.arm.kind = some k) :
    r.input = d ∧
    (r.skipUnchanged = true ↔
      opts.SkipUnchanged = true ∧
      ∃ a b, (Scanner H opts j0 l0 (pre ++ d :: post) readErr).1.records.take pre.length = a ++ b ∧
        (∀ x ∈ b, x.arm ≠ Arm.passThrough) ∧ ∃ x ∈ b, x.arm.kind = some k) := by
  obtain ⟨r0, rest, restw, hrec, hlen, -, -, hline, hflags⟩ :=
    scanner_line_at H opts j0 l0 pre post d readErr
  have hr0 : r = r0 := by
    rw [hrec] at hr
    exact record_at_eq _ _ _ _ _ hlen hr
  subst hr0
  rw [hrec, take_prefix_eq _ _ _ hlen]
  obtain ⟨r1, hrec1, -, hin, -, hj, hl, -⟩ :=
    scanLine_spec H opts (Scanner H opts j0 l0 pre readErr).1 d
  have hr1 : r1 = r := scanLine_record_unique H opts _ d r r1 hline hrec1
  subst hr1
  refine ⟨hin, ?_⟩
  cases k with
  | JSON =>
    rw [hj hk, Bool.and_eq_true, hflags.1]
    rfl
  | logfmt =>
    rw [hl hk, Bool.and_eq_true, hflags.2]
    rfl

/-- C1 (amended), at the stream JSON line, logfmt line, JSON line with the
default options: the third line is rendered by the JSON handler with
skipUnchanged = true, and the first line was rendered by the JSON handler with
no pass-through line after it. -/
theorem C1_skipUnchanged_iff_rendered_since_witness :
    (Scanner sampleHandlers DefaultOptions [] [] ([lineJSON, lineLogfmt] ++ lineJSON :: []) none).1.records[2]? =
      some ⟨lineJSON, Arm.json, true, lineJSON⟩ ∧
    (true = true ↔
      DefaultOptions.SkipUnchanged = true ∧
      ∃ a b, (Scanner sampleHandlers DefaultOptions [] []
          ([lineJSON, lineLogfmt] ++ lineJSON :: []) none).1.records.take 2 = a ++ b ∧
        (∀ x ∈ b, x.arm ≠ Arm.passThrough) ∧ ∃ x ∈ b, x.arm.kind = some Kind.JSON) :=
  ⟨by decide,
    (C1_skipUnchanged_iff_rendered_since sampleHandlers DefaultOptions [] []
      [lineJSON, lineLogfmt] [] lineJSON none ⟨lineJSON, Arm.json, true, lineJSON⟩ Kind.JSON
      (by decide) (by decide)).2⟩

/-- C2 (as stated, refuted): the line `@cee: hello` is accepted by no recognizer
and the bytes written for it are `hello` and the line terminator, not the
input line. -/
theorem C2_counterexample_tag_removed :
    (Scanner sampleHandlers DefaultOptions [] [] [ascii "@cee: hello"] none).1.records.map
        LineRecord.arm = [Arm.passThrough] ∧
    (Scanner sampleHandlers DefaultOptions [] [] [ascii "@cee: hello"] none).1.writes =
      [ascii "hello", eol] ∧
    ascii "hello" ≠ ascii "@cee: hello" := by
  decide

/-- C2 (amended): for every line that none of the five recognizers accepts, the
bytes Scanner writes for that line are the bytes of the input line, without
their first six bytes when the line starts with the tag `@cee: ` and unchanged
when it does not, followed by one line terminator. -/
theorem C2_passThrough_writes_trimmed_line {J L : Type} (H : Handlers J L)
    (opts : HandlerOptions) (j0 : J) (l0 : L) (pre post : List Bytes) (d : Bytes)
    (readErr : Option GoError) (r : LineRecord)
    (hr : (Scanner H opts j0 l0 (pre ++ d :: post) readErr).1.records[pre.length]? = some r)
    (harm : r.arm = Arm.passThrough) :
    ((Scanner H opts j0 l0 (pre ++ d :: post) readErr).1.writes.drop (2 * pre.length)).take 2 =
      [TrimPrefix d ceeTag, eol] ∧
    (ceeTag.isPrefixOf d = false → TrimPrefix d ceeTag = d) ∧
    (∀ t, d = ceeTag ++ t → TrimPrefix d ceeTag = t) := by
  obtain ⟨r0, rest, restw, hrec, hlen, hwr, hwlen, hline, -⟩ :=
    scanner_line_at H opts j0 l0 pre post d readErr
  have hr0 : r = r0 := by
    rw [hrec] at hr
    exact record_at_eq _ _ _ _ _ hlen hr
  subst hr0
  obtain ⟨r1, hrec1, -, -, -, -, -, hbody, -⟩ :=
    scanLine_spec H opts (Scanner H opts j0 l0 pre readErr).1 d
  have hr1 : r1 = r := scanLine_record_unique H opts _ d r r1 hline hrec1
  subst hr1
  refine ⟨?_, ?_, ?_⟩
  · rw [hwr, ← hwlen, List.drop_left, hbody harm]
    simp
  · intro hp
    simp [TrimPrefix, hp]
  · intro t ht
    subst ht
    have hp : ceeTag.isPrefixOf (ceeTag ++ t) = true := by
      rw [List.isPrefixOf_iff_prefix]
      exact List.prefix_append _ _
    simp [TrimPrefix, hp]

/-- C2 (amended), at concrete lines: the line of scenario 4 is written
unchanged with one terminator, and `@cee: hello` is written as `hello` with one
terminator. -/
theorem C2_passThrough_writes_trimmed_line_witness :
    (((Scanner sampleHandlers DefaultOptions [] []
        ([] ++ ascii "plain text with no structure" :: []) none).1.writes.drop (2 * 0)).take 2 =
      [TrimPrefix (ascii "plain text with no structure") ceeTag, eol] ∧
      TrimPrefix (ascii "plain text with no structure") ceeTag =
        ascii "plain text with no structure") ∧
    (((Scanner sampleHandlers DefaultOptions [] []
        ([] ++ ascii "@cee: hello" :: []) none).1.writes.drop (2 * 0)).take 2 =
      [TrimPrefix (ascii "@cee: hello") ceeTag, eol] ∧
      TrimPrefix (ascii "@cee: hello") ceeTag = ascii "hello") :=
  ⟨⟨(C2_passThrough_writes_trimmed_line sampleHandlers DefaultOptions [] [] [] []
        (ascii "plain text with no structure") none
        ⟨ascii "plain text with no structure", Arm.passThrough, false,
          ascii "plain text with no structure"⟩ (by decide) (by decide)).1,
      (C2_passThrough_writes_trimmed_line sampleHandlers DefaultOptions [] [] [] []
        (ascii "plain text with no structure") none
        ⟨ascii "plain text with no structure", Arm.passThrough, false,
          ascii "plain text with no structure"⟩ (by decide) (by decide)).2.1 (by decide)⟩,
    ⟨(C2_passThrough_writes_trimmed_line sampleHandlers DefaultOptions [] [] [] []
        (ascii "@cee: hello") none
        ⟨ascii "@cee: hello", Arm.passThrough, false, ascii "hello"⟩
        (by decide) (by decide)).1,
      (C2_passThrough_writes_trimmed_line sampleHandlers DefaultOptions [] [] [] []
        (ascii "@cee: hello") none
        ⟨ascii "@cee: hello", Arm.passThrough, false, ascii "hello"⟩
        (by decide) (by decide)).2.2 (ascii "hello") (by decide)⟩⟩

/-- C4: every line is rendered by the first recognizer that accepts it, in the
order JSON, logfmt, docker-compose-prefixed JSON, docker-compose-prefixed
logfmt, zap-dev-prefixed JSON; an arm is taken exactly when its recognizer
accepts and every earlier one refused, the bytes written are those of the
Prettify of that arm's handler, and the raw line is written exactly when all
five refused. -/
theorem C4_first_success_wins {J L : Type} (H : Handlers J L) (opts : HandlerOptions)
    (j0 : J) (l0 : L) (pre post : List Bytes) (d : Bytes) (readErr : Option GoError)
    (r : LineRecord)
    (hr : (Scanner H opts j0 l0 (pre ++ d :: post) readErr).1.records[pre.length]? = some r) :
    let st := (Scanner H opts j0 l0 pre readErr).1
    let x := TrimPrefix d ceeTag
    let r1 := H.jsonTryHandle st.jsonEntry x
    let r2 := H.logfmtTryHandle st.logfmtEntry x
    let r3 := H.tryDockerComposePrefixJSON x r1.2
    let r4 := H.tryDockerComposePrefixLogfmt x r2.2
    let r5 := H.tryZapDevPrefix x r3.2
    (r.arm = Arm.json ↔ r1.1 = true) ∧
    (r.arm = Arm.logfmt ↔ r1.1 = false ∧ r2.1 = true) ∧
    (r.arm = Arm.dockerJSON ↔ r1.1 = false ∧ r2.1 = false ∧ r3.1 = true) ∧
    (r.arm = Arm.dockerLogfmt ↔ r1.1 = false ∧ r2.1 = false ∧ r3.1 = false ∧ r4.1 = true) ∧
    (r.arm = Arm.zapJSON ↔
      r1.1 = false ∧ r2.1 = false ∧ r3.1 = false ∧ r4.1 = false ∧ r5.1 = true) ∧
    (r.arm = Arm.passThrough ↔
      r1.1 = false ∧ r2.1 = false ∧ r3.1 = false ∧ r4.1 = false ∧ r5.1 = false) ∧
    (r.arm = Arm.json → r.body = (H.jsonPrettify r1.2 r.skipUnchanged).1) ∧
    (r.arm = Arm.logfmt → r.body = (H.logfmtPrettify r2.2 r.skipUnchanged).1) ∧
    (r.arm = Arm.dockerJSON → r.body = (H.jsonPrettify r3.2 r.skipUnchanged).1) ∧
    (r.arm = Arm.dockerLogfmt → r.body = (H.logfmtPrettify r4.2 r.skipUnchanged).1) ∧
    (r.arm = Arm.zapJSON → r.body = (H.jsonPrettify r5.2 r.skipUnchanged).1) ∧
    (r.arm = Arm.passThrough → r.body = x) := by
  intro st x r1 r2 r3 r4 r5
  obtain ⟨r0, rest, restw, hrec, hlen, -, -, hline, -⟩ :=
    scanner_line_at H opts j0 l0 pre post d readErr
  have hr0 : r = r0 := by
    rw [hrec] at hr
    exact record_at_eq _ _ _ _ _ hlen hr
  subst hr0
  obtain ⟨q, hrecq, -, -, harm, -, -, hraw, hb1, hb2, hb3, hb4, hb5, -⟩ :=
    scanLine_spec H opts (Scanner H opts j0 l0 pre readErr).1 d
  have hq : q = r := scanLine_record_unique H opts _ d r q hline hrecq
  subst hq
  refine ⟨?_, ?_, ?_, ?_, ?_, ?_, hb1, hb2, hb3, hb4, hb5, hraw⟩ <;>
  · rw [harm]
    show _ ↔ _
    cases h1 : r1.1 <;> cases h2 : r2.1 <;> cases h3 : r3.1 <;> cases h4 : r4.1 <;>
      cases h5 : r5.1 <;>
      simp [r1, r2, r3, r4, r5, x, st] at h1 h2 h3 h4 h5 ⊢

/-- C4, at the stream made of one logfmt line: the JSON recognizer refuses it,
the logfmt recognizer accepts it, and it is rendered by the logfmt arm. -/
theorem C4_first_success_wins_witness :
    (Scanner sampleHandlers DefaultOptions [] [] ([] ++ lineLogfmt :: []) none).1.records[0]? =
      some ⟨lineLogfmt, Arm.logfmt, false, lineLogfmt⟩ ∧
    (Arm.logfmt = Arm.logfmt ↔
      (sampleHandlers.jsonTryHandle
          (Scanner sampleHandlers DefaultOptions [] [] [] none).1.jsonEntry
          (TrimPrefix lineLogfmt ceeTag)).1 = false ∧
        (sampleHandlers.logfmtTryHandle
          (Scanner sampleHandlers DefaultOptions [] [] [] none).1.logfmtEntry
          (TrimPrefix lineLogfmt ceeTag)).1 = true) :=
  ⟨by decide,
    (C4_first_success_wins sampleHandlers DefaultOptions [] [] [] [] lineLogfmt none
      ⟨lineLogfmt, Arm.logfmt, false, lineLogfmt⟩ (by decide)).2.1⟩

/-! ## Further lemmas on the logfmt handler -/

/-- The loops depend on the externals only through the time resolver. -/
theorem handleKeyvals_congr (ext1 ext2 : Externals) (h : LogfmtHandler)
    (kvs : List (Bytes × Bytes)) (htp : ext1.tryParseTime = ext2.tryParseTime) :
    handleKeyvals ext1 h kvs = handleKeyvals ext2 h kvs := by
  induction kvs generalizing h with
  | nil => rfl
  | cons kv rest ih =>
    obtain ⟨k, v⟩ := kv
    have hstep : handleKeyval ext1 h (k, v) = handleKeyval ext2 h (k, v) := by
      rw [handleKeyval_eq, handleKeyval_eq, htp]
    rw [handleKeyvals_cons, handleKeyvals_cons, hstep, ih]

theorem clear_eq_of_opts (h1 h2 : LogfmtHandler) (ho : h1.Opts = h2.Opts) :
    h1.clear = h2.clear := by
  simp [LogfmtHandler.clear, ho]

/-- What `TryHandle` returns when it reports false. -/
theorem tryHandle_of_false (ext : Externals) (h : LogfmtHandler) (d : Bytes)
    (out : StructuredLogEvent) (hno : (LogfmtHandler.TryHandle ext h d out).1 = false) :
    (LogfmtHandler.TryHandle ext h d out).2.2 = out := by
  unfold LogfmtHandler.TryHandle LogfmtHandler.UnmarshalLogfmt at hno ⊢
  by_cases hc : containsRune d 61 = true
  · cases he : (ext.decode d).err
    · simp [hc, he] at hno
    · simp [hc, he]
  · simp [hc]

/-! ## Further claims on the logfmt handler -/

/-- C11: whenever TryHandle returns false, the output event is exactly as it
was before the call, Timestamp, Msg, Lvl and Kvs included, also when the
decoder had yielded pairs before it failed. -/
theorem C11_false_leaves_event (ext : Externals) (h : LogfmtHandler) (d : Bytes)
    (out : StructuredLogEvent) (hno : (LogfmtHandler.TryHandle ext h d out).1 = false) :
    (LogfmtHandler.TryHandle ext h d out).2.2 = out ∧
    (LogfmtHandler.TryHandle ext h d out).2.2.Timestamp = out.Timestamp ∧
    (LogfmtHandler.TryHandle ext h d out).2.2.Msg = out.Msg ∧
    (LogfmtHandler.TryHandle ext h d out).2.2.Lvl = out.Lvl ∧
    (LogfmtHandler.TryHandle ext h d out).2.2.Kvs = out.Kvs := by
  have hout := tryHandle_of_false ext h d out hno
  exact ⟨hout, by rw [hout], by rw [hout], by rw [hout], by rw [hout]⟩

/-- C11, at a line on which the decoder yields the pair a=1 and then fails, and
at a line without an equals sign: the event that held values keeps them. -/
theorem C11_false_leaves_event_witness :
    (sampleExt.decode (ascii "a=1 b=\"x")).keyvals = [(ascii "a", ascii "1")] ∧
    (LogfmtHandler.TryHandle sampleExt (newLogfmtHandler DefaultOptions) (ascii "a=1 b=\"x")
      staleEvent).2.2 = staleEvent ∧
    (LogfmtHandler.TryHandle sampleExt staleHandler (ascii "plain text") staleEvent).2.2 =
      staleEvent :=
  ⟨by decide,
    (C11_false_leaves_event sampleExt (newLogfmtHandler DefaultOptions) (ascii "a=1 b=\"x")
      staleEvent (by decide)).1,
    (C11_false_leaves_event sampleExt staleHandler (ascii "plain text") staleEvent
      (by decide)).1⟩

/-- C12: the boolean TryHandle returns and the event it leaves do not depend on
what the handler held in Level, Time, Message and Fields: they are those of a
freshly constructed handler with the same options. Under another enumeration
order of the map the boolean, Timestamp, Msg and Lvl are the same and the Kvs
are the same up to their order. A handler that still holds the values of the
line of scenario 2 gives, on the line foo=2024-01-01T00:00:00Z, the event of a
fresh handler, with none of the earlier values. -/
theorem C12_result_independent_of_handler_state :
    (∀ (ext : Externals) (h : LogfmtHandler) (d : Bytes) (out : StructuredLogEvent),
      (LogfmtHandler.TryHandle ext h d out).1 =
        (LogfmtHandler.TryHandle ext (newLogfmtHandler h.Opts) d out).1 ∧
      (LogfmtHandler.TryHandle ext h d out).2.2 =
        (LogfmtHandler.TryHandle ext (newLogfmtHandler h.Opts) d out).2.2) ∧
    (∀ (ext1 ext2 : Externals) (h1 h2 : LogfmtHandler) (d : Bytes) (out : StructuredLogEvent),
      ext1.decode = ext2.decode → ext1.tryParseTime = ext2.tryParseTime →
      h1.Opts = h2.Opts →
      (LogfmtHandler.TryHandle ext1 h1 d out).1 = (LogfmtHandler.TryHandle ext2 h2 d out).1 ∧
      (LogfmtHandler.TryHandle ext1 h1 d out).2.2.Timestamp =
        (LogfmtHandler.TryHandle ext2 h2 d out).2.2.Timestamp ∧
      (LogfmtHandler.TryHandle ext1 h1 d out).2.2.Msg =
        (LogfmtHandler.TryHandle ext2 h2 d out).2.2.Msg ∧
      (LogfmtHandler.TryHandle ext1 h1 d out).2.2.Lvl =
        (LogfmtHandler.TryHandle ext2 h2 d out).2.2.Lvl ∧
      ((LogfmtHandler.TryHandle ext1 h1 d out).2.2.Kvs).Perm
        (LogfmtHandler.TryHandle ext2 h2 d out).2.2.Kvs) ∧
    (LogfmtHandler.TryHandle sampleExt staleHandler (ascii "foo=2024-01-01T00:00:00Z")
        emptyEvent).2.2 =
      { Timestamp := some t2024, Msg := [], Lvl := [], Kvs := [] } := by
  refine ⟨?_, ?_, by decide⟩
  · intro ext h d out
    have hc : h.clear = (newLogfmtHandler h.Opts).clear := clear_eq_of_opts _ _ rfl
    unfold LogfmtHandler.TryHandle
    rw [hc]
    by_cases hr : containsRune d 61 = true
    · cases he : ((newLogfmtHandler h.Opts).clear.UnmarshalLogfmt ext d).1 <;> simp [hr, he]
    · simp [hr]
  · intro ext1 ext2 h1 h2 d out hd htp ho
    have hc : h1.clear = h2.clear := clear_eq_of_opts _ _ ho
    have htr : h1.clear.unmarshalTrace ext1 d = h2.clear.unmarshalTrace ext2 d := by
      unfold LogfmtHandler.unmarshalTrace
      rw [hc, hd]
      exact handleKeyvals_congr ext1 ext2 _ _ htp
    simp only [LogfmtHandler.TryHandle, LogfmtHandler.UnmarshalLogfmt, htr, hd]
    by_cases hr : containsRune d 61 = true
    · cases he : (ext2.decode d).err
      · simp only [hr, he, Bool.not_true, Bool.not_false, if_true, if_false,
          Bool.false_eq_true]
        refine ⟨trivial, trivial, trivial, trivial, ?_⟩
        apply List.Perm.append_left
        apply List.Perm.map
        exact (ext1.rangeOrder_perm _).trans (ext2.rangeOrder_perm _).symm
      · simp [hr, he]
    · simp [hr]

/-! ## Further lemmas on the scanner -/

theorem scanner_snoc {J L : Type} (H : Handlers J L) (opts : HandlerOptions) (j0 : J) (l0 : L)
    (pre : List Bytes) (d : Bytes) (readErr : Option GoError) :
    (Scanner H opts j0 l0 (pre ++ [d]) readErr).1 =
      scanLine H opts (Scanner H opts j0 l0 pre readErr).1 d := by
  simp only [scanner_fst]
  rw [scanLoop_append, scanLoop_cons, scanLoop_nil]

theorem kind_none_iff (a : Arm) : a.kind = none ↔ a = Arm.passThrough := by
  cases a <;> simp [Arm.kind]

/-- The default arm records `skipUnchanged = false`. -/
theorem scanLine_passThrough_skip {J L : Type} (H : Handlers J L) (opts : HandlerOptions)
    (st : ScanState J L) (d : Bytes) (r : LineRecord)
    (hrec : (scanLine H opts st d).records = st.records ++ [r])
    (harm : r.arm = Arm.passThrough) : r.skipUnchanged = false := by
  simp only [scanLine] at hrec
  split_ifs at hrec <;>
    · have h := List.append_cancel_left hrec
      simp only [List.cons.injEq, and_true] at h
      subst h
      first
        | rfl
        | (simp at harm)

/-- The record of the line that follows `pre`: the argument given to `Prettify`
in terms of the flags reached after `pre`, and the flags reached after the
line. -/
theorem line_record_spec {J L : Type} (H : Handlers J L) (opts : HandlerOptions) (j0 : J)
    (l0 : L) (pre post : List Bytes) (d : Bytes) (readErr : Option GoError) (r : LineRecord)
    (hr : (Scanner H opts j0 l0 (pre ++ d :: post) readErr).1.records[pre.length]? = some r) :
    r.input = d ∧
    (r.arm.kind = some Kind.JSON →
      r.skipUnchanged = (opts.SkipUnchanged && (Scanner H opts j0 l0 pre readErr).1.lastJSON)) ∧
    (r.arm.kind = some Kind.logfmt →
      r.skipUnchanged =
        (opts.SkipUnchanged && (Scanner H opts j0 l0 pre readErr).1.lastLogfmt)) ∧
    (r.arm = Arm.passThrough → r.skipUnchanged = false) ∧
    ((Scanner H opts j0 l0 (pre ++ [d]) readErr).1.lastJSON = true ↔
      r.arm ≠ Arm.passThrough ∧
        (r.arm.kind = some Kind.JSON ∨ (Scanner H opts j0 l0 pre readErr).1.lastJSON = true)) ∧
    ((Scanner H opts j0 l0 (pre ++ [d]) readErr).1.lastLogfmt = true ↔
      r.arm ≠ Arm.passThrough ∧
        (r.arm.kind = some Kind.logfmt ∨
          (Scanner H opts j0 l0 pre readErr).1.lastLogfmt = true)) := by
  obtain ⟨r0, rest, restw, hrec, hlen, -, -, hline, -⟩ :=
    scanner_line_at H opts j0 l0 pre post d readErr
  have hr0 : r = r0 := by
    rw [hrec] at hr
    exact record_at_eq _ _ _ _ _ hlen hr
  subst hr0
  obtain ⟨q, hrecq, -, hin, -, hj, hl, -, -, -, -, -, -, hfj, hfl⟩ :=
    scanLine_spec H opts (Scanner H opts j0 l0 pre readErr).1 d
  have hq : q = r := scanLine_record_unique H opts _ d r q hline hrecq
  subst hq
  rw [scanner_snoc]
  exact ⟨hin, hj, hl, scanLine_passThrough_skip H opts _ d q hrecq, hfj, hfl⟩

theorem scanner_nil_flags {J L : Type} (H : Handlers J L) (opts : HandlerOptions) (j0 : J)
    (l0 : L) (readErr : Option GoError) :
    (Scanner H opts j0 l0 [] readErr).1.lastJSON = false ∧
    (Scanner H opts j0 l0 [] readErr).1.lastLogfmt = false := by
  rw [scanner_fst]
  exact ⟨rfl, rfl⟩

/-- With `opts.SkipUnchanged` false the loop only adds records with
`skipUnchanged = false`. -/
theorem scanLoop_skip_false {J L : Type} (H : Handlers J L) (opts : HandlerOptions)
    (hopt : opts.SkipUnchanged = false) (st : ScanState J L) (lines : List Bytes)
    (hst : ∀ r ∈ st.records, r.skipUnchanged = false) :
    ∀ r ∈ (scanLoop H opts st lines).records, r.skipUnchanged = false := by
  induction lines generalizing st with
  | nil => exact hst
  | cons d rest ih =>
    rw [scanLoop_cons]
    apply ih
    obtain ⟨q, hrecq, -, -, -, hj, hl, -⟩ := scanLine_spec H opts st d
    intro r hmem
    rw [hrecq, List.mem_append] at hmem
    rcases hmem with hmem | hmem
    · exact hst r hmem
    · have hrq : r = q := by simpa using hmem
      subst hrq
      cases hk : r.arm.kind with
      | none =>
        exact scanLine_passThrough_skip H opts st d r hrecq ((kind_none_iff _).mp hk)
      | some k =>
        cases k with
        | JSON => rw [hj hk, hopt]; rfl
        | logfmt => rw [hl hk, hopt]; rfl

theorem feedWrites_length {W : Type} (wr : Writer W) (w : W) (calls : List Bytes) :
    (feedWrites wr w calls).2.length = calls.length := by
  induction calls generalizing w with
  | nil => rfl
  | cons b rest ih => simp [feedWrites, ih]

/-- The run handles the lines the same way whatever the reader's error. -/
theorem scanner_fst_none {J L : Type} (H : Handlers J L) (opts : HandlerOptions) (j0 : J)
    (l0 : L) (lines : List Bytes) (readErr : Option GoError) :
    (Scanner H opts j0 l0 lines readErr).1 = (Scanner H opts j0 l0 lines none).1 := by
  rw [scanner_fst, scanner_fst]

/-- The writes of a run: two per line, the body and the terminator. -/
theorem scanner_writes {J L : Type} (H : Handlers J L) (opts : HandlerOptions) (j0 : J)
    (l0 : L) (lines : List Bytes) (readErr : Option GoError) :
    (Scanner H opts j0 l0 lines readErr).1.records.map LineRecord.input = lines ∧
    (Scanner H opts j0 l0 lines readErr).1.writes =
      ((Scanner H opts j0 l0 lines readErr).1.records.map (fun r => [r.body, eol])).flatten ∧
    (Scanner H opts j0 l0 lines readErr).1.writes.length = 2 * lines.length := by
  rw [scanner_fst]
  obtain ⟨rs, hrs, hmap, hws⟩ := scanLoop_records H opts (scanInit j0 l0 : ScanState J L) lines
  have hrs1 : (scanLoop H opts (scanInit j0 l0) lines).records = rs := by
    rw [hrs]; simp [scanInit]
  have hws1 : (scanLoop H opts (scanInit j0 l0) lines).writes =
      (rs.map (fun r => [r.body, eol])).flatten := by
    rw [hws]; simp [scanInit]
  have hlen : rs.length = lines.length := by rw [← hmap, List.length_map]
  exact ⟨by rw [hrs1, hmap], by rw [hws1, hrs1], by rw [hws1, writes_length, hlen]⟩

/-! ## Further claims on the scanner -/

/-- C13: a recognized line that is the first line of the stream, or that
directly follows a line written by pass-through, is rendered with
skipUnchanged = false whatever opts.SkipUnchanged is: both flags are false
before the first line, and a pass-through line leaves both flags false. With
the default options, in the stream JSON, plain text, JSON, logfmt every line
is rendered with skipUnchanged = false. -/
theorem C13_first_or_after_passThrough_renders_in_full :
    (∀ (J L : Type) (H : Handlers J L) (opts : HandlerOptions) (j0 : J) (l0 : L)
        (readErr : Option GoError),
      (∀ (d : Bytes) (post : List Bytes) (r : LineRecord) (k : Kind),
        (Scanner H opts j0 l0 (d :: post) readErr).1.records[0]? = some r →
        r.arm.kind = some k → r.skipUnchanged = false) ∧
      (∀ (pre post : List Bytes) (dp d : Bytes) (rp r : LineRecord) (k : Kind),
        (Scanner H opts j0 l0 (pre ++ dp :: d :: post) readErr).1.records[pre.length]? =
          some rp →
        rp.arm = Arm.passThrough →
        (Scanner H opts j0 l0 (pre ++ dp :: d :: post) readErr).1.records[pre.length + 1]? =
          some r →
        r.arm.kind = some k → r.skipUnchanged = false) ∧
      ((Scanner H opts j0 l0 [] readErr).1.lastJSON = false ∧
        (Scanner H opts j0 l0 [] readErr).1.lastLogfmt = false) ∧
      (∀ (pre post : List Bytes) (d : Bytes) (r : LineRecord),
        (Scanner H opts j0 l0 (pre ++ d :: post) readErr).1.records[pre.length]? = some r →
        r.arm = Arm.passThrough →
        (Scanner H opts j0 l0 (pre ++ [d]) readErr).1.lastJSON = false ∧
        (Scanner H opts j0 l0 (pre ++ [d]) readErr).1.lastLogfmt = false)) ∧
    (DefaultOptions.SkipUnchanged = true ∧
      (Scanner sampleHandlers DefaultOptions [] []
          [lineJSON, ascii "plain text", lineJSON, lineLogfmt] none).1.records.map
          (fun r => (r.arm, r.skipUnchanged)) =
        [(Arm.json, false), (Arm.passThrough, false), (Arm.json, false),
          (Arm.logfmt, false)]) := by
  refine ⟨?_, by decide⟩
  intro J L H opts j0 l0 readErr
  have hafter : ∀ (pre post : List Bytes) (d : Bytes) (r : LineRecord),
      (Scanner H opts j0 l0 (pre ++ d :: post) readErr).1.records[pre.length]? = some r →
      r.arm = Arm.passThrough →
      (Scanner H opts j0 l0 (pre ++ [d]) readErr).1.lastJSON = false ∧
      (Scanner H opts j0 l0 (pre ++ [d]) readErr).1.lastLogfmt = false := by
    intro pre post d r hr harm
    obtain ⟨-, -, -, -, hfj, hfl⟩ := line_record_spec H opts j0 l0 pre post d readErr r hr
    constructor
    · cases hv : (Scanner H opts j0 l0 (pre ++ [d]) readErr).1.lastJSON with
      | false => rfl
      | true => exact absurd harm (hfj.mp hv).1
    · cases hv : (Scanner H opts j0 l0 (pre ++ [d]) readErr).1.lastLogfmt with
      | false => rfl
      | true => exact absurd harm (hfl.mp hv).1
  have hnil := scanner_nil_flags H opts j0 l0 readErr
  refine ⟨?_, ?_, hnil, hafter⟩
  · intro d post r k hr hk
    obtain ⟨-, hj, hl, -⟩ := line_record_spec H opts j0 l0 [] post d readErr r hr
    cases k with
    | JSON => rw [hj hk, hnil.1, Bool.and_false]
    | logfmt => rw [hl hk, hnil.2, Bool.and_false]
  · intro pre post dp d rp r k hrp harm hr hk
    obtain ⟨hfj, hfl⟩ := hafter pre (d :: post) dp rp hrp harm
    have hs : pre ++ dp :: d :: post = (pre ++ [dp]) ++ d :: post := by simp
    have hlen : pre.length + 1 = (pre ++ [dp]).length := by simp
    rw [hs, hlen] at hr
    obtain ⟨-, hj, hl, -⟩ := line_record_spec H opts j0 l0 (pre ++ [dp]) post d readErr r hr
    cases k with
    | JSON => rw [hj hk, hfj, Bool.and_false]
    | logfmt => rw [hl hk, hfl, Bool.and_false]

/-- C14: with opts.SkipUnchanged = true, whenever two consecutive lines are both
rendered by the JSON handler, or both by the logfmt handler, the second is
rendered with skipUnchanged = true; with opts.SkipUnchanged = false every line
of every stream is rendered with skipUnchanged = false. With the default
options two consecutive JSON lines are rendered with false, then true. -/
theorem C14_same_kind_twice_skips_unchanged :
    (∀ (J L : Type) (H : Handlers J L) (opts : HandlerOptions) (j0 : J) (l0 : L)
        (readErr : Option GoError),
      (opts.SkipUnchanged = true →
        ∀ (pre post : List Bytes) (dp d : Bytes) (rp r : LineRecord) (k : Kind),
        (Scanner H opts j0 l0 (pre ++ dp :: d :: post) readErr).1.records[pre.length]? =
          some rp →
        rp.arm.kind = some k →
        (Scanner H opts j0 l0 (pre ++ dp :: d :: post) readErr).1.records[pre.length + 1]? =
          some r →
        r.arm.kind = some k → r.skipUnchanged = true) ∧
      (opts.SkipUnchanged = false →
        ∀ (lines : List Bytes),
        ∀ r ∈ (Scanner H opts j0 l0 lines readErr).1.records, r.skipUnchanged = false)) ∧
    (DefaultOptions.SkipUnchanged = true ∧
      (Scanner sampleHandlers DefaultOptions [] [] [lineJSON, lineJSON] none).1.records.map
          (fun r => (r.arm, r.skipUnchanged)) = [(Arm.json, false), (Arm.json, true)] ∧
      (Scanner sampleHandlers { DefaultOptions with SkipUnchanged := false } [] []
          [lineJSON, lineJSON] none).1.records.map
          (fun r => (r.arm, r.skipUnchanged)) = [(Arm.json, false), (Arm.json, false)]) := by
  refine ⟨?_, by decide⟩
  intro J L H opts j0 l0 readErr
  constructor
  · intro hopt pre post dp d rp r k hrp hkp hr hk
    obtain ⟨-, -, -, -, hfj, hfl⟩ :=
      line_record_spec H opts j0 l0 pre (d :: post) dp readErr rp hrp
    have hnp : rp.arm ≠ Arm.passThrough := by
      intro h
      rw [h] at hkp
      simp [Arm.kind] at hkp
    have hs : pre ++ dp :: d :: post = (pre ++ [dp]) ++ d :: post := by simp
    have hlen : pre.length + 1 = (pre ++ [dp]).length := by simp
    rw [hs, hlen] at hr
    obtain ⟨-, hj, hl, -⟩ := line_record_spec H opts j0 l0 (pre ++ [dp]) post d readErr r hr
    cases k with
    | JSON => rw [hj hk, hopt, hfj.mpr ⟨hnp, Or.inl hkp⟩]; rfl
    | logfmt => rw [hl hk, hopt, hfl.mpr ⟨hnp, Or.inl hkp⟩]; rfl
  · intro hopt lines
    rw [scanner_fst]
    apply scanLoop_skip_false H opts hopt
    intro r hr
    simp [scanInit] at hr

/-- The loop body looks at the line only through `TrimPrefix`: two lines with
the same trimmed bytes are handled alike, up to the input kept in the record. -/
theorem scanLine_congr {J L : Type} (H : Handlers J L) (opts : HandlerOptions)
    (st : ScanState J L) (raw raw2 : Bytes)
    (h : TrimPrefix raw ceeTag = TrimPrefix raw2 ceeTag) :
    (scanLine H opts st raw).writes = (scanLine H opts st raw2).writes ∧
    (scanLine H opts st raw).jsonEntry = (scanLine H opts st raw2).jsonEntry ∧
    (scanLine H opts st raw).logfmtEntry = (scanLine H opts st raw2).logfmtEntry ∧
    (scanLine H opts st raw).lastJSON = (scanLine H opts st raw2).lastJSON ∧
    (scanLine H opts st raw).lastLogfmt = (scanLine H opts st raw2).lastLogfmt ∧
    (scanLine H opts st raw).records.map (fun r => (r.arm, r.skipUnchanged, r.body)) =
      (scanLine H opts st raw2).records.map (fun r => (r.arm, r.skipUnchanged, r.body)) := by
  simp only [scanLine, h]
  split_ifs <;> simp

theorem trimPrefix_tagged (t : Bytes) : TrimPrefix (ceeTag ++ t) ceeTag = t := by
  have hp : ceeTag.isPrefixOf (ceeTag ++ t) = true := by
    rw [List.isPrefixOf_iff_prefix]
    exact List.prefix_append _ _
  simp [TrimPrefix, hp]

theorem trimPrefix_untagged (d : Bytes) (hp : ceeTag.isPrefixOf d = false) :
    TrimPrefix d ceeTag = d := by
  simp [TrimPrefix, hp]

/-- C16 (as stated, refuted): against a writer whose every Write fails, Scanner
on two lines makes all four writes, every one of them failing, and returns
nil. -/
theorem C16_counterexample_failed_writes_ignored :
    ScannerOn failingWriter 0 sampleHandlers DefaultOptions [] []
        [lineJSON, ascii "plain text"] none =
      ((4, [true, true, true, true]), none) := by
  decide

/-- C16 (amended): Scanner does not react to a failing write. Whatever the
writer answers, every write of the run is made, two for each line the reader
yields, and the error Scanner returns is the one decided by the reader alone:
nil exactly when the reader ended with nil or io.EOF. -/
theorem C16_write_results_are_ignored {W J L : Type} (wr : Writer W) (w0 : W)
    (H : Handlers J L) (opts : HandlerOptions) (j0 : J) (l0 : L) (lines : List Bytes)
    (readErr : Option GoError) :
    (ScannerOn wr w0 H opts j0 l0 lines readErr).1.2.length = 2 * lines.length ∧
    (ScannerOn wr w0 H opts j0 l0 lines readErr).2 = (Scanner H opts j0 l0 lines readErr).2 ∧
    ((ScannerOn wr w0 H opts j0 l0 lines readErr).2 = none ↔
      (readErr = none ∨ readErr = some GoError.EOF)) := by
  refine ⟨?_, rfl, ?_⟩
  · unfold ScannerOn
    rw [feedWrites_length]
    exact (scanner_writes H opts j0 l0 lines readErr).2.2
  · unfold ScannerOn Scanner
    rcases readErr with _ | _ | t <;> simp

/-! ## Claims on the handler options -/

theorem setLen_ne_zero_of_has (s : Option (List Bytes)) (key : Bytes)
    (h : setHas s key = true) : setLen s ≠ 0 := by
  cases s with
  | none => simp [setHas] at h
  | some keys =>
    cases keys with
    | nil => simp [setHas] at h
    | cons a rest => simp [setLen]

theorem setHas_of_len_zero (s : Option (List Bytes)) (key : Bytes) (h : setLen s = 0) :
    setHas s key = false := by
  cases hv : setHas s key with
  | false => rfl
  | true => exact absurd h (setLen_ne_zero_of_has s key hv)

theorem shouldShowKey_eq (h : HandlerOptions) (key : Bytes) :
    h.shouldShowKey key = (setHas h.Keep key || !setHas h.Skip key) := by
  unfold HandlerOptions.shouldShowKey
  cases hk : setHas h.Keep key <;> cases hs : setHas h.Skip key
  · simp
  · simp [setLen_ne_zero_of_has _ _ hs]
  · simp [setLen_ne_zero_of_has _ _ hk]
  · simp [setLen_ne_zero_of_has _ _ hk]

/-- C18: shouldShowKey(key) is false if and only if the key is in Skip and not
in Keep: a key in Skip and in Keep is shown, and a key in neither set is shown.
With Skip = (env, pid) and Keep = (env), env and user are shown and pid is
hidden. -/
theorem C18_hidden_iff_skipped_and_not_kept :
    (∀ (h : HandlerOptions) (key : Bytes),
      (h.shouldShowKey key = false ↔ (setHas h.Skip key = true ∧ setHas h.Keep key = false)) ∧
      (setHas h.Skip key = true → setHas h.Keep key = true → h.shouldShowKey key = true) ∧
      (setHas h.Skip key = false → setHas h.Keep key = false → h.shouldShowKey key = true)) ∧
    (skipKeepOptions.shouldShowKey (ascii "env") = true ∧
      skipKeepOptions.shouldShowKey (ascii "pid") = false ∧
      skipKeepOptions.shouldShowKey (ascii "user") = true) := by
  refine ⟨?_, by decide⟩
  intro h key
  rw [shouldShowKey_eq]
  cases hk : setHas h.Keep key <;> cases hs : setHas h.Skip key <;> simp

/-- C19 (as stated, refuted): with Keep = (env) and Skip nil, the key pid, which
is not in Keep, is shown. -/
theorem C19_counterexample_key_outside_keep_shown :
    setLen keepEnvOptions.Keep ≠ 0 ∧ setLen keepEnvOptions.Skip = 0 ∧
    setHas keepEnvOptions.Keep (ascii "pid") = false ∧
    keepEnvOptions.shouldShowKey (ascii "pid") = true := by
  decide

/-- C19 (amended): when Keep is non-empty, shouldShowKey(key) is true for every
key in Keep; a key outside Keep is hidden exactly when it is in Skip, so with an
empty Skip every key is shown. -/
theorem C19_keep_only_overrides_skip (h : HandlerOptions) (key : Bytes)
    (_hkeep : setLen h.Keep ≠ 0) :
    (setHas h.Keep key = true → h.shouldShowKey key = true) ∧
    (setHas h.Keep key = false →
      (h.shouldShowKey key = false ↔ setHas h.Skip key = true)) ∧
    (setLen h.Skip = 0 → h.shouldShowKey key = true) := by
  rw [shouldShowKey_eq]
  refine ⟨?_, ?_, ?_⟩
  · intro hk; simp [hk]
  · intro hk; simp [hk]
  · intro hs; simp [setHas_of_len_zero _ key hs]

/-- C19 (amended), with Keep = (env) and Skip nil: env is shown and so is
pid. -/
theorem C19_keep_only_overrides_skip_witness :
    setLen keepEnvOptions.Keep ≠ 0 ∧
    keepEnvOptions.shouldShowKey (ascii "env") = true ∧
    keepEnvOptions.shouldShowKey (ascii "pid") = true :=
  ⟨by decide,
    (C19_keep_only_overrides_skip keepEnvOptions (ascii "env") (by decide)).1 (by decide),
    (C19_keep_only_overrides_skip keepEnvOptions (ascii "pid") (by decide)).2.2 (by decide)⟩

/-- C20: shouldShowUnchanged(key) is true if and only if the key is in Keep;
with a nil or an empty Keep no key is exempt. With Keep = (env), env is exempt
and pid is not. -/
theorem C20_unchanged_shown_iff_kept :
    (∀ (h : HandlerOptions) (key : Bytes),
      (h.shouldShowUnchanged key = true ↔ setHas h.Keep key = true) ∧
      (h.Keep = none → h.shouldShowUnchanged key = false) ∧
      (h.Keep = some [] → h.shouldShowUnchanged key = false)) ∧
    (keepEnvOptions.shouldShowUnchanged (ascii "env") = true ∧
      keepEnvOptions.shouldShowUnchanged (ascii "pid") = false ∧
      DefaultOptions.shouldShowUnchanged (ascii "env") = false) := by
  refine ⟨?_, by decide⟩
  intro h key
  unfold HandlerOptions.shouldShowUnchanged
  refine ⟨?_, ?_, ?_⟩
  · cases hk : setHas h.Keep key
    · simp
    · simp [setLen_ne_zero_of_has _ _ hk]
  · intro hn; simp [hn, setLen]
  · intro hn; simp [hn, setLen]

/-! ## Claims on the configuration, the colour mode and the sets -/

theorem mem_foldl_setInsert (ks s : List Bytes) (x : Bytes) :
    x ∈ ks.foldl setInsert s ↔ x ∈ s ∨ x ∈ ks := by
  induction ks generalizing s with
  | nil => simp
  | cons k rest ih =>
    rw [List.foldl_cons, ih]
    unfold setInsert
    by_cases hk : k ∈ s
    · simp only [hk, if_true, List.mem_cons]
      constructor
      · rintro (h | h)
        · exact Or.inl h
        · exact Or.inr (Or.inr h)
      · rintro (h | h | h)
        · exact Or.inl h
        · exact Or.inl (h ▸ hk)
        · exact Or.inr h
    · simp only [hk, if_false, List.mem_append, List.mem_singleton, List.mem_cons,
        List.not_mem_nil, or_false]
      constructor
      · rintro ((h | h) | h)
        · exact Or.inl h
        · exact Or.inr (Or.inl h)
        · exact Or.inr (Or.inr h)
      · rintro (h | h | h)
        · exact Or.inl (Or.inl h)
        · exact Or.inl (Or.inr h)
        · exact Or.inr h

theorem foldl_setInsert_of_subset (ks s : List Bytes) (h : ∀ k ∈ ks, k ∈ s) :
    ks.foldl setInsert s = s := by
  induction ks generalizing s with
  | nil => rfl
  | cons k rest ih =>
    have hk : k ∈ s := h k (List.mem_cons_self _ _)
    rw [List.foldl_cons]
    have hs : setInsert s k = s := by simp [setInsert, hk]
    rw [hs]
    exact ih s (fun x hx => h x (List.mem_cons_of_mem _ hx))

theorem setHas_some (keys : List Bytes) (key : Bytes) :
    setHas (some keys) key = true ↔ key ∈ keys := by
  simp [setHas]

theorem setHas_getD (s : Option (List Bytes)) (key : Bytes) :
    setHas s key = true ↔ key ∈ (match s with | none => [] | some keys => keys) := by
  cases s <;> simp [setHas]

/-- C21: the end of app.Action calls fatalf, and so does not reach Scanner, if
and only if both the skip list and the keep list of the configuration are
non-empty; for every conversion to handler options that puts no key into a set
whose list is empty, the options given to Scanner have at most one of Skip and
Keep non-empty. The conversion through SetSkip and SetKeep is of that kind; with
it, skip = (pid) and keep = (env) is rejected and skip = (pid) alone reaches
Scanner with Skip = (pid) and an empty Keep. -/
theorem C21_rejected_iff_skip_and_keep_nonempty :
    (∀ (F : Config → HandlerOptions) (cfg : Config),
      appAction F cfg = ActionResult.fatal ↔ (cfg.Skip ≠ [] ∧ cfg.Keep ≠ [])) ∧
    (∀ (F : Config → HandlerOptions),
      (∀ cfg, (setLen (F cfg).Skip ≠ 0 → cfg.Skip ≠ []) ∧
        (setLen (F cfg).Keep ≠ 0 → cfg.Keep ≠ [])) →
      ∀ (cfg : Config) (opts : HandlerOptions),
        appAction F cfg = ActionResult.scanned opts →
        setLen opts.Skip = 0 ∨ setLen opts.Keep = 0) ∧
    (∀ (cfg : Config) (opts : HandlerOptions),
      appAction HandlerOptionsFrom cfg = ActionResult.scanned opts →
      setLen opts.Skip = 0 ∨ setLen opts.Keep = 0) ∧
    (appAction HandlerOptionsFrom ⟨[ascii "pid"], [ascii "env"]⟩ = ActionResult.fatal ∧
      appAction HandlerOptionsFrom ⟨[ascii "pid"], []⟩ =
        ActionResult.scanned
          { DefaultOptions with Skip := some [ascii "pid"], Keep := some [] }) := by
  have hgen : ∀ (F : Config → HandlerOptions),
      (∀ cfg, (setLen (F cfg).Skip ≠ 0 → cfg.Skip ≠ []) ∧
        (setLen (F cfg).Keep ≠ 0 → cfg.Keep ≠ [])) →
      ∀ (cfg : Config) (opts : HandlerOptions),
        appAction F cfg = ActionResult.scanned opts →
        setLen opts.Skip = 0 ∨ setLen opts.Keep = 0 := by
    intro F hF cfg opts hres
    unfold appAction at hres
    by_cases hc : cfg.Skip.length > 0 ∧ cfg.Keep.length > 0
    · simp [hc] at hres
    · simp only [hc, if_false, ActionResult.scanned.injEq] at hres
      subst hres
      by_cases h1 : setLen (F cfg).Skip = 0
      · exact Or.inl h1
      · right
        by_cases h2 : setLen (F cfg).Keep = 0
        · exact h2
        · exfalso
          apply hc
          exact ⟨List.length_pos.mpr ((hF cfg).1 h1), List.length_pos.mpr ((hF cfg).2 h2)⟩
  have hmodel : ∀ cfg, (setLen (HandlerOptionsFrom cfg).Skip ≠ 0 → cfg.Skip ≠ []) ∧
      (setLen (HandlerOptionsFrom cfg).Keep ≠ 0 → cfg.Keep ≠ []) := by
    intro cfg
    constructor
    · intro hlen hnil
      apply hlen
      simp [HandlerOptionsFrom, HandlerOptions.SetSkip, HandlerOptions.SetKeep, hnil,
        DefaultOptions, setLen]
    · intro hlen hnil
      apply hlen
      simp [HandlerOptionsFrom, HandlerOptions.SetSkip, HandlerOptions.SetKeep, hnil,
        DefaultOptions, setLen]
  refine ⟨?_, hgen, hgen HandlerOptionsFrom hmodel, by decide⟩
  intro F cfg
  unfold appAction
  cases hs : cfg.Skip <;> cases hk : cfg.Keep <;> simp

/-- C22: GrokColorMode lowers its argument and returns ColorModeOn for on,
always, force, true, yes, 1; ColorModeOff for off, never, false, no, 0;
ColorModeAuto for auto, tty, maybe and the empty string, each with a nil error;
for every other string it returns ColorModeAuto with a non-nil error. Two
strings that differ only in case get the same mode. -/
theorem C22_grokColorMode_table :
    (∀ s : Bytes,
      (ToLower s ∈ [ascii "on", ascii "always", ascii "force", ascii "true", ascii "yes",
          ascii "1"] → GrokColorMode s = (ColorMode.ColorModeOn, none)) ∧
      (ToLower s ∈ [ascii "off", ascii "never", ascii "false", ascii "no", ascii "0"] →
        GrokColorMode s = (ColorMode.ColorModeOff, none)) ∧
      (ToLower s ∈ [ascii "auto", ascii "tty", ascii "maybe", ascii ""] →
        GrokColorMode s = (ColorMode.ColorModeAuto, none)) ∧
      (ToLower s ∉ [ascii "on", ascii "always", ascii "force", ascii "true", ascii "yes",
          ascii "1", ascii "off", ascii "never", ascii "false", ascii "no", ascii "0",
          ascii "auto", ascii "tty", ascii "maybe", ascii ""] →
        (GrokColorMode s).1 = ColorMode.ColorModeAuto ∧ (GrokColorMode s).2 ≠ none)) ∧
    (∀ s t : Bytes, ToLower s = ToLower t → (GrokColorMode s).1 = (GrokColorMode t).1) ∧
    (GrokColorMode (ascii "ON") = (ColorMode.ColorModeOn, none) ∧
      GrokColorMode (ascii "Always") = (ColorMode.ColorModeOn, none) ∧
      GrokColorMode (ascii "Never") = (ColorMode.ColorModeOff, none) ∧
      GrokColorMode (ascii "TTY") = (ColorMode.ColorModeAuto, none) ∧
      GrokColorMode [] = (ColorMode.ColorModeAuto, none) ∧
      (GrokColorMode (ascii "bogus")).1 = ColorMode.ColorModeAuto ∧
      (GrokColorMode (ascii "bogus")).2 =
        some (ascii "\x27bogus\x27 is not a color mode (try \x27on\x27, \x27off\x27 or \x27auto\x27)")) := by
  refine ⟨?_, ?_, by decide⟩
  · intro s
    refine ⟨?_, ?_, ?_, ?_⟩
    · intro h
      unfold GrokColorMode
      rw [if_pos h]
    · intro h
      have hon : ToLower s ∉ [ascii "on", ascii "always", ascii "force", ascii "true",
          ascii "yes", ascii "1"] := by
        simp only [List.mem_cons, List.mem_singleton, List.not_mem_nil, or_false] at h ⊢
        rcases h with h | h | h | h | h <;> rw [h] <;> decide
      unfold GrokColorMode
      rw [if_neg hon, if_pos h]
    · intro h
      have hon : ToLower s ∉ [ascii "on", ascii "always", ascii "force", ascii "true",
          ascii "yes", ascii "1"] := by
        simp only [List.mem_cons, List.mem_singleton, List.not_mem_nil, or_false] at h ⊢
        rcases h with h | h | h | h <;> rw [h] <;> decide
      have hoff : ToLower s ∉ [ascii "off", ascii "never", ascii "false", ascii "no",
          ascii "0"] := by
        simp only [List.mem_cons, List.mem_singleton, List.not_mem_nil, or_false] at h ⊢
        rcases h with h | h | h | h <;> rw [h] <;> decide
      unfold GrokColorMode
      rw [if_neg hon, if_neg hoff, if_pos h]
    · intro h
      simp only [List.mem_cons, List.mem_singleton, List.not_mem_nil, or_false, not_or] at h
      obtain ⟨h1, h2, h3, h4, h5, h6, h7, h8, h9, h10, h11, h12, h13, h14, h15⟩ := h
      unfold GrokColorMode
      simp [h1, h2, h3, h4, h5, h6, h7, h8, h9, h10, h11, h12, h13, h14, h15]
  · intro s t h
    unfold GrokColorMode
    rw [h]
    split_ifs <;> rfl

/-- C23: truncation is idempotent for every marker, value and truncateLength:
truncating the result of a truncation again gives the same bytes. Truncation
leaves a value of length at most truncateLength unchanged and replaces a longer
one by its first truncateLength bytes followed by the marker; truncateLength = 5
and abcdefgh give abcde plus the marker. -/
theorem C23_truncation_idempotent :
    (∀ (marker : Bytes) (truncates : Bool) (n : Int) (v : Bytes),
      truncateValue marker truncates n (truncateValue marker truncates n v) =
        truncateValue marker truncates n v) ∧
    (∀ (marker : Bytes) (n : Int) (v : Bytes),
      ((v.length : Int) ≤ n → truncateValue marker true n v = v) ∧
      (n < (v.length : Int) → truncateValue marker true n v = v.take n.toNat ++ marker)) ∧
    (truncateValue sampleMarker true 5 (ascii "abcdefgh") = ascii "abcde" ++ sampleMarker ∧
      truncateValue sampleMarker true 5 (ascii "abcde...") = ascii "abcde...") := by
  refine ⟨?_, ?_, by decide⟩
  · intro marker truncates n v
    unfold truncateValue
    by_cases hc : truncates = true ∧ (v.length : Int) > n
    · rw [if_pos hc]
      by_cases hc2 : truncates = true ∧
          (((v.take n.toNat ++ marker).length : Nat) : Int) > n
      · rw [if_pos hc2]
        have hlen : (v.take n.toNat).length = n.toNat := by
          rw [List.length_take]
          omega
        have htake : (v.take n.toNat ++ marker).take n.toNat = v.take n.toNat := by
          rw [List.take_append_of_le_length (by omega)]
          rw [List.take_take]
          simp
        rw [htake]
      · rw [if_neg hc2]
    · rw [if_neg hc, if_neg hc]
  · intro marker n v
    unfold truncateValue
    constructor
    · intro h
      rw [if_neg (by omega)]
    · intro h
      rw [if_pos ⟨rfl, by omega⟩]

/-- C28: SetSkip(keys) makes Skip the union of its previous content and keys and
leaves Keep and every other option as it was, and symmetrically for SetKeep;
calling either twice with the same keys equals calling it once; two orders of
the same keys give the same set; neither enforces exclusivity: after SetSkip
and SetKeep with non-empty lists both sets are non-empty. -/
theorem C28_setSkip_setKeep_are_unions :
    (∀ (h : HandlerOptions) (ks : List Bytes),
      (∀ key, setHas (h.SetSkip ks).Skip key = true ↔
        (setHas h.Skip key = true ∨ key ∈ ks)) ∧
      h.SetSkip ks = { h with Skip := (h.SetSkip ks).Skip } ∧
      (h.SetSkip ks).SetSkip ks = h.SetSkip ks ∧
      (∀ ks2, ks.Perm ks2 →
        ∀ key, setHas (h.SetSkip ks).Skip key = setHas (h.SetSkip ks2).Skip key)) ∧
    (∀ (h : HandlerOptions) (ks : List Bytes),
      (∀ key, setHas (h.SetKeep ks).Keep key = true ↔
        (setHas h.Keep key = true ∨ key ∈ ks)) ∧
      h.SetKeep ks = { h with Keep := (h.SetKeep ks).Keep } ∧
      (h.SetKeep ks).SetKeep ks = h.SetKeep ks ∧
      (∀ ks2, ks.Perm ks2 →
        ∀ key, setHas (h.SetKeep ks).Keep key = setHas (h.SetKeep ks2).Keep key)) ∧
    (∀ (h : HandlerOptions) (ks ks2 : List Bytes), ks ≠ [] → ks2 ≠ [] →
      setLen ((h.SetSkip ks).SetKeep ks2).Skip ≠ 0 ∧
      setLen ((h.SetSkip ks).SetKeep ks2).Keep ≠ 0) ∧
    ((DefaultOptions.SetSkip [ascii "pid", ascii "env", ascii "pid"]).Skip =
        some [ascii "pid", ascii "env"] ∧
      ((DefaultOptions.SetSkip [ascii "pid"]).SetSkip [ascii "env", ascii "pid"]).Skip =
        some [ascii "pid", ascii "env"] ∧
      ((DefaultOptions.SetSkip [ascii "pid"]).SetKeep [ascii "env"]).Skip =
        some [ascii "pid"] ∧
      ((DefaultOptions.SetSkip [ascii "pid"]).SetKeep [ascii "env"]).Keep =
        some [ascii "env"]) := by
  have hskip : ∀ (h : HandlerOptions) (ks : List Bytes) (key : Bytes),
      setHas (h.SetSkip ks).Skip key = true ↔ (setHas h.Skip key = true ∨ key ∈ ks) := by
    intro h ks key
    simp only [HandlerOptions.SetSkip, setHas_some, mem_foldl_setInsert, setHas_getD]
  have hkeep : ∀ (h : HandlerOptions) (ks : List Bytes) (key : Bytes),
      setHas (h.SetKeep ks).Keep key = true ↔ (setHas h.Keep key = true ∨ key ∈ ks) := by
    intro h ks key
    simp only [HandlerOptions.SetKeep, setHas_some, mem_foldl_setInsert, setHas_getD]
  refine ⟨?_, ?_, ?_, by decide⟩
  · intro h ks
    refine ⟨hskip h ks, rfl, ?_, ?_⟩
    · simp only [HandlerOptions.SetSkip]
      rw [foldl_setInsert_of_subset]
      intro k hk
      exact (mem_foldl_setInsert ks _ k).mpr (Or.inr hk)
    · intro ks2 hp key
      have h1 := hskip h ks key
      have h2 := hskip h ks2 key
      rw [hp.mem_iff] at h1
      exact Bool.eq_iff_iff.mpr (h1.trans h2.symm)
  · intro h ks
    refine ⟨hkeep h ks, rfl, ?_, ?_⟩
    · simp only [HandlerOptions.SetKeep]
      rw [foldl_setInsert_of_subset]
      intro k hk
      exact (mem_foldl_setInsert ks _ k).mpr (Or.inr hk)
    · intro ks2 hp key
      have h1 := hkeep h ks key
      have h2 := hkeep h ks2 key
      rw [hp.mem_iff] at h1
      exact Bool.eq_iff_iff.mpr (h1.trans h2.symm)
  · intro h ks ks2 hks hks2
    obtain ⟨a, ra, rfl⟩ := List.exists_cons_of_ne_nil hks
    obtain ⟨b, rb, rfl⟩ := List.exists_cons_of_ne_nil hks2
    constructor
    · apply setLen_ne_zero_of_has _ a
      have : ((h.SetSkip (a :: ra)).SetKeep (b :: rb)).Skip = (h.SetSkip (a :: ra)).Skip := rfl
      rw [this]
      exact (hskip h (a :: ra) a).mpr (Or.inr (List.mem_cons_self _ _))
    · apply setLen_ne_zero_of_has _ b
      exact (hkeep _ (b :: rb) b).mpr (Or.inr (List.mem_cons_self _ _))

/-! ## Last claims on the scanner -/

/-- The two writes of a line taken by the default arm. -/
theorem passThrough_writes {J L : Type} (H : Handlers J L) (opts : HandlerOptions) (j0 : J)
    (l0 : L) (pre post : List Bytes) (d : Bytes) (readErr : Option GoError) (r : LineRecord)
    (hr : (Scanner H opts j0 l0 (pre ++ d :: post) readErr).1.records[pre.length]? = some r)
    (harm : r.arm = Arm.passThrough) :
    ((Scanner H opts j0 l0 (pre ++ d :: post) readErr).1.writes.drop (2 * pre.length)).take 2 =
      [TrimPrefix d ceeTag, eol] := by
  obtain ⟨r0, rest, restw, hrec, hlen, hwr, hwlen, hline, -⟩ :=
    scanner_line_at H opts j0 l0 pre post d readErr
  have hr0 : r = r0 := by
    rw [hrec] at hr
    exact record_at_eq _ _ _ _ _ hlen hr
  subst hr0
  obtain ⟨r1, hrec1, -, -, -, -, -, hbody, -⟩ :=
    scanLine_spec H opts (Scanner H opts j0 l0 pre readErr).1 d
  have hr1 : r1 = r := scanLine_record_unique H opts _ d r r1 hline hrec1
  subst hr1
  rw [hwr, ← hwlen, List.drop_left, hbody harm]
  simp

/-- A record of kind `k` after the last pass-through record, by positions. -/
theorem renderedSince_iff_index (k : Kind) (recs : List LineRecord) :
    renderedSince k recs ↔
      ∃ (i : Nat) (x : LineRecord), recs[i]? = some x ∧ x.arm.kind = some k ∧
        ∀ (j : Nat) (y : LineRecord), i < j → recs[j]? = some y →
          y.arm ≠ Arm.passThrough := by
  constructor
  · rintro ⟨a, b, hab, hall, x, hx, hxk⟩
    obtain ⟨n, hn⟩ := List.getElem?_of_mem hx
    refine ⟨a.length + n, x, ?_, hxk, ?_⟩
    · rw [hab, List.getElem?_append_right (Nat.le_add_right _ _)]
      simpa using hn
    · intro j y hj hy
      rw [hab, List.getElem?_append_right (by omega)] at hy
      exact hall y (List.getElem?_mem hy)
  · rintro ⟨i, x, hi, hxk, hall⟩
    refine ⟨recs.take i, recs.drop i, (List.take_append_drop i recs).symm, ?_, x, ?_, hxk⟩
    · intro y hy
      obtain ⟨m, hm⟩ := List.getElem?_of_mem hy
      rw [List.getElem?_drop] at hm
      by_cases h0 : m = 0
      · subst h0
        rw [Nat.add_zero, hi] at hm
        have hyx : x = y := by simpa using hm
        subst hyx
        intro hp
        rw [hp] at hxk
        simp [Arm.kind] at hxk
      · exact hall (i + m) y (by omega) hm
    · apply List.getElem?_mem (n := 0)
      rw [List.getElem?_drop, Nat.add_zero, hi]

/-- C25: the skipUnchanged argument given for a line rendered by the JSON
handler is opts.SkipUnchanged AND lastJSON, where lastJSON holds exactly when
some earlier line was rendered by the JSON handler and no pass-through line
came after it; symmetrically for the logfmt handler. The two flags are
independent: a line rendered by one handler sets that handler's flag and leaves
the other flag as it was, and a pass-through line clears both. -/
theorem C25_two_independent_flags {J L : Type} (H : Handlers J L) (opts : HandlerOptions)
    (j0 : J) (l0 : L) (pre post : List Bytes) (d : Bytes) (readErr : Option GoError)
    (r : LineRecord)
    (hr : (Scanner H opts j0 l0 (pre ++ d :: post) readErr).1.records[pre.length]? = some r) :
    (Scanner H opts j0 l0 pre readErr).1.records =
      (Scanner H opts j0 l0 (pre ++ d :: post) readErr).1.records.take pre.length ∧
    ((Scanner H opts j0 l0 pre readErr).1.lastJSON = true ↔
      ∃ (i : Nat) (x : LineRecord), (Scanner H opts j0 l0 pre readErr).1.records[i]? = some x ∧
        x.arm.kind = some Kind.JSON ∧
        ∀ (j : Nat) (y : LineRecord), i < j →
          (Scanner H opts j0 l0 pre readErr).1.records[j]? = some y →
          y.arm ≠ Arm.passThrough) ∧
    ((Scanner H opts j0 l0 pre readErr).1.lastLogfmt = true ↔
      ∃ (i : Nat) (x : LineRecord), (Scanner H opts j0 l0 pre readErr).1.records[i]? = some x ∧
        x.arm.kind = some Kind.logfmt ∧
        ∀ (j : Nat) (y : LineRecord), i < j →
          (Scanner H opts j0 l0 pre readErr).1.records[j]? = some y →
          y.arm ≠ Arm.passThrough) ∧
    (r.arm.kind = some Kind.JSON →
      r.skipUnchanged = (opts.SkipUnchanged && (Scanner H opts j0 l0 pre readErr).1.lastJSON) ∧
      (Scanner H opts j0 l0 (pre ++ [d]) readErr).1.lastJSON = true ∧
      (Scanner H opts j0 l0 (pre ++ [d]) readErr).1.lastLogfmt =
        (Scanner H opts j0 l0 pre readErr).1.lastLogfmt) ∧
    (r.arm.kind = some Kind.logfmt →
      r.skipUnchanged =
        (opts.SkipUnchanged && (Scanner H opts j0 l0 pre readErr).1.lastLogfmt) ∧
      (Scanner H opts j0 l0 (pre ++ [d]) readErr).1.lastLogfmt = true ∧
      (Scanner H opts j0 l0 (pre ++ [d]) readErr).1.lastJSON =
        (Scanner H opts j0 l0 pre readErr).1.lastJSON) ∧
    (r.arm = Arm.passThrough →
      (Scanner H opts j0 l0 (pre ++ [d]) readErr).1.lastJSON = false ∧
      (Scanner H opts j0 l0 (pre ++ [d]) readErr).1.lastLogfmt = false) := by
  obtain ⟨r0, rest, restw, hrec, hlen, -, -, -, hflags⟩ :=
    scanner_line_at H opts j0 l0 pre post d readErr
  obtain ⟨-, hj, hl, -, hfj, hfl⟩ := line_record_spec H opts j0 l0 pre post d readErr r hr
  have hnp : ∀ k, r.arm.kind = some k → r.arm ≠ Arm.passThrough := by
    intro k hk hp
    rw [hp] at hk
    simp [Arm.kind] at hk
  refine ⟨?_, ?_, ?_, ?_, ?_, ?_⟩
  · rw [hrec, take_prefix_eq _ _ _ hlen]
  · rw [hflags.1, renderedSince_iff_index]
  · rw [hflags.2, renderedSince_iff_index]
  · intro hk
    refine ⟨hj hk, hfj.mpr ⟨hnp _ hk, Or.inl hk⟩, ?_⟩
    apply Bool.eq_iff_iff.mpr
    rw [hfl]
    constructor
    · rintro ⟨-, h | h⟩
      · rw [hk] at h; simp at h
      · exact h
    · intro h
      exact ⟨hnp _ hk, Or.inr h⟩
  · intro hk
    refine ⟨hl hk, hfl.mpr ⟨hnp _ hk, Or.inl hk⟩, ?_⟩
    apply Bool.eq_iff_iff.mpr
    rw [hfj]
    constructor
    · rintro ⟨-, h | h⟩
      · rw [hk] at h; simp at h
      · exact h
    · intro h
      exact ⟨hnp _ hk, Or.inr h⟩
  · intro hp
    constructor
    · cases hv : (Scanner H opts j0 l0 (pre ++ [d]) readErr).1.lastJSON with
      | false => rfl
      | true => exact absurd hp (hfj.mp hv).1
    · cases hv : (Scanner H opts j0 l0 (pre ++ [d]) readErr).1.lastLogfmt with
      | false => rfl
      | true => exact absurd hp (hfl.mp hv).1

/-- C25, at the stream logfmt, JSON, logfmt with the default options: the third
line is rendered by the logfmt handler with skipUnchanged = true, and the JSON
line before it set lastJSON and left lastLogfmt set. -/
theorem C25_two_independent_flags_witness :
    (Scanner sampleHandlers DefaultOptions [] []
        ([lineLogfmt, lineJSON] ++ lineLogfmt :: []) none).1.records[2]? =
      some ⟨lineLogfmt, Arm.logfmt, true, lineLogfmt⟩ ∧
    true = (DefaultOptions.SkipUnchanged &&
      (Scanner sampleHandlers DefaultOptions [] [] [lineLogfmt, lineJSON] none).1.lastLogfmt) ∧
    (Scanner sampleHandlers DefaultOptions [] [] [lineLogfmt, lineJSON] none).1.lastJSON =
      true :=
  ⟨by decide,
    ((C25_two_independent_flags sampleHandlers DefaultOptions [] [] [lineLogfmt, lineJSON]
      [] lineLogfmt none ⟨lineLogfmt, Arm.logfmt, true, lineLogfmt⟩ (by decide)).2.2.2.2.1
      (by decide)).1,
    by decide⟩

/-- C26: a line that starts with the tag `@cee: ` and that no recognizer accepts
once the tag is removed is written without its first 6 bytes, followed by the
line terminator, and not as it was read; the tag is removed once only. -/
theorem C26_tagged_passThrough_written_without_tag {J L : Type} (H : Handlers J L)
    (opts : HandlerOptions) (j0 : J) (l0 : L) (pre post : List Bytes) (t : Bytes)
    (readErr : Option GoError) (r : LineRecord)
    (hr : (Scanner H opts j0 l0 (pre ++ (ceeTag ++ t) :: post) readErr).1.records[pre.length]? =
      some r)
    (harm : r.arm = Arm.passThrough) :
    ((Scanner H opts j0 l0 (pre ++ (ceeTag ++ t) :: post) readErr).1.writes.drop
        (2 * pre.length)).take 2 = [t, eol] ∧
    t = (ceeTag ++ t).drop 6 ∧
    [t, eol] ≠ [ceeTag ++ t, eol] := by
  refine ⟨?_, ?_, ?_⟩
  · rw [passThrough_writes H opts j0 l0 pre post (ceeTag ++ t) readErr r hr harm,
      trimPrefix_tagged]
  · simp [ceeTag]
  · intro h
    have h1 : t = ceeTag ++ t := by simpa using h
    have h2 := congrArg List.length h1
    simp [ceeTag] at h2
    omega

/-- C26, at the line `@cee: @cee: x`: the tag is removed once, and `@cee: x` is
written with its terminator. -/
theorem C26_tagged_passThrough_written_without_tag_witness :
    ((Scanner sampleHandlers DefaultOptions [] []
        ([] ++ (ceeTag ++ ascii "@cee: x") :: []) none).1.writes.drop (2 * 0)).take 2 =
      [ascii "@cee: x", eol] ∧
    ceeTag ++ ascii "@cee: x" = ascii "@cee: @cee: x" :=
  ⟨(C26_tagged_passThrough_written_without_tag sampleHandlers DefaultOptions [] [] [] []
      (ascii "@cee: x") none
      ⟨ascii "@cee: @cee: x", Arm.passThrough, false, ascii "@cee: x"⟩
      (by decide) (by decide)).1,
    by decide⟩

/-! ## Claims on the renderer: key order -/

theorem lexLE_total (a b : Bytes) : lexLE a b = true ∨ lexLE b a = true := by
  induction a generalizing b with
  | nil => left; cases b <;> rfl
  | cons x xs ih =>
    cases b with
    | nil => right; rfl
    | cons y ys =>
      simp only [lexLE]
      rcases Nat.lt_trichotomy x y with h | h | h
      · left; simp [h]
      · subst h
        simp only [Nat.lt_irrefl, if_false, if_true]
        exact ih ys
      · right; simp [h]

theorem lexLE_trans (a b c : Bytes) (hab : lexLE a b = true) (hbc : lexLE b c = true) :
    lexLE a c = true := by
  induction a generalizing b c with
  | nil => cases c <;> rfl
  | cons x xs ih =>
    cases b with
    | nil => simp [lexLE] at hab
    | cons y ys =>
      cases c with
      | nil => simp [lexLE] at hbc
      | cons z zs =>
        simp only [lexLE] at hab hbc ⊢
        by_cases hxy : x < y
        · by_cases hyz : y < z
          · simp [Nat.lt_trans hxy hyz]
          · by_cases hyz2 : y = z
            · subst hyz2; simp [hxy]
            · simp [hyz, hyz2] at hbc
        · by_cases hxy2 : x = y
          · subst hxy2
            by_cases hyz : x < z
            · simp [hyz]
            · by_cases hyz2 : x = z
              · subst hyz2
                simp only [Nat.lt_irrefl, if_false, if_true] at hab hbc ⊢
                exact ih ys zs hab hbc
              · simp [hyz, hyz2] at hbc
          · simp [hxy, hxy2] at hab

theorem lexLE_antisymm (a b : Bytes) (hab : lexLE a b = true) (hba : lexLE b a = true) :
    a = b := by
  induction a generalizing b with
  | nil =>
    cases b with
    | nil => rfl
    | cons y ys => simp [lexLE] at hba
  | cons x xs ih =>
    cases b with
    | nil => simp [lexLE] at hab
    | cons y ys =>
      simp only [lexLE] at hab hba
      rcases Nat.lt_trichotomy x y with h | h | h
      · have h1 : ¬ y < x := by omega
        have h2 : ¬ y = x := by omega
        simp [h1, h2] at hba
      · subst h
        simp only [Nat.lt_irrefl, if_false, if_true] at hab hba
        rw [ih ys hab hba]
      · have h1 : ¬ x < y := by omega
        have h2 : ¬ x = y := by omega
        simp [h1, h2] at hab

theorem keyLE_antisymm (a b : Bytes) (hab : keyLE a b) (hba : keyLE b a) : a = b := by
  rcases hab with h1 | ⟨h1, h2⟩ <;> rcases hba with h3 | ⟨h3, h4⟩
  · omega
  · omega
  · omega
  · exact lexLE_antisymm a b h2 h4

/-- Inserting by length a key that is byte-wise below every key of a list ordered
by length, then bytes, keeps that order. -/
theorem orderedInsert_keySorted (a : Bytes) (l : List Bytes) (hs : l.Pairwise keyLE)
    (ha : ∀ x ∈ l, lexLE a x = true) :
    (l.orderedInsert (fun u v => u.length ≤ v.length) a).Pairwise keyLE := by
  induction l with
  | nil => simp
  | cons b rest ih =>
    rw [List.pairwise_cons] at hs
    by_cases hle : a.length ≤ b.length
    · have hstep : List.orderedInsert (fun u v => u.length ≤ v.length) a (b :: rest) =
          a :: b :: rest := by
        simp [List.orderedInsert, hle]
      rw [hstep, List.pairwise_cons]
      refine ⟨?_, List.pairwise_cons.mpr hs⟩
      intro x hx
      have hax := ha x hx
      rcases List.mem_cons.mp hx with hxb | hxr
      · subst hxb
        rcases Nat.lt_or_eq_of_le hle with h | h
        · exact Or.inl h
        · exact Or.inr ⟨h, hax⟩
      · have hbx : b.length ≤ x.length := by
          rcases hs.1 x hxr with h | ⟨h, -⟩ <;> omega
        rcases Nat.lt_or_eq_of_le (Nat.le_trans hle hbx) with h | h
        · exact Or.inl h
        · exact Or.inr ⟨h, hax⟩
    · have hstep : List.orderedInsert (fun u v => u.length ≤ v.length) a (b :: rest) =
          b :: List.orderedInsert (fun u v => u.length ≤ v.length) a rest := by
        simp [List.orderedInsert, hle]
      rw [hstep, List.pairwise_cons]
      refine ⟨?_, ih hs.2 (fun x hx => ha x (List.mem_cons_of_mem _ hx))⟩
      intro x hx
      rcases (List.mem_orderedInsert _).mp hx with hxa | hxr
      · subst hxa
        exact Or.inl (by omega)
      · exact hs.1 x hxr

theorem sortStableByLength_keySorted (l : List Bytes)
    (hs : l.Pairwise (fun a b => lexLE a b = true)) :
    (sortStableByLength l).Pairwise keyLE := by
  induction l with
  | nil => simp [sortStableByLength]
  | cons a rest ih =>
    rw [List.pairwise_cons] at hs
    unfold sortStableByLength
    rw [List.insertionSort]
    apply orderedInsert_keySorted a _ (ih hs.2)
    intro x hx
    exact hs.1 x ((List.mem_insertionSort _).mp hx)

theorem sortStrings_sorted (l : List Bytes) :
    (sortStrings l).Pairwise (fun a b => lexLE a b = true) := by
  haveI : IsTotal Bytes (fun a b => lexLE a b = true) := ⟨lexLE_total⟩
  haveI : IsTrans Bytes (fun a b => lexLE a b = true) := ⟨lexLE_trans⟩
  exact List.sorted_insertionSort (fun a b => lexLE a b = true) l

theorem sortStrings_perm_eq (l1 l2 : List Bytes) (hp : l1.Perm l2) :
    sortStrings l1 = sortStrings l2 := by
  haveI : IsAntisymm Bytes (fun a b => lexLE a b = true) := ⟨lexLE_antisymm⟩
  apply List.eq_of_perm_of_sorted _ (sortStrings_sorted l1) (sortStrings_sorted l2)
  exact (List.perm_insertionSort _ l1).trans (hp.trans (List.perm_insertionSort _ l2).symm)

theorem orderKeys_perm (b : Bool) (l : List Bytes) : (orderKeys b l).Perm l := by
  unfold orderKeys sortStableByLength sortStrings
  cases b
  · simpa using List.perm_insertionSort _ l
  · simpa using (List.perm_insertionSort _ _).trans (List.perm_insertionSort _ l)

theorem orderKeys_perm_eq (b : Bool) (l1 l2 : List Bytes) (hp : l1.Perm l2) :
    orderKeys b l1 = orderKeys b l2 := by
  unfold orderKeys
  rw [sortStrings_perm_eq l1 l2 hp]

/-- C24: the key ordering does not depend on the order of its input: two
enumerations of the same keys, sorted byte-wise and then, when sortLongest is
on, stably by length, give the same list; with sortLongest on that list is
ordered by length first and byte-wise among keys of equal length, with
sortLongest off it is ordered byte-wise; it holds the keys it was given; and
applying the ordering to its own output changes nothing. -/
theorem C24_key_order_independent_of_input :
    (∀ (sortLongest : Bool) (l1 l2 : List Bytes), l1.Perm l2 →
      orderKeys sortLongest l1 = orderKeys sortLongest l2) ∧
    (∀ l : List Bytes, (orderKeys true l).Pairwise keyLE) ∧
    (∀ l : List Bytes, (orderKeys false l).Pairwise (fun a b => lexLE a b = true)) ∧
    (∀ (sortLongest : Bool) (l : List Bytes), (orderKeys sortLongest l).Perm l) ∧
    (∀ (sortLongest : Bool) (l : List Bytes),
      orderKeys sortLongest (orderKeys sortLongest l) = orderKeys sortLongest l) ∧
    (orderKeys true [ascii "user", ascii "b", ascii "env", ascii "a", ascii "abc"] =
        [ascii "a", ascii "b", ascii "abc", ascii "env", ascii "user"] ∧
      orderKeys true [ascii "abc", ascii "a", ascii "env", ascii "user", ascii "b"] =
        [ascii "a", ascii "b", ascii "abc", ascii "env", ascii "user"] ∧
      orderKeys false [ascii "user", ascii "b", ascii "env", ascii "a", ascii "abc"] =
        [ascii "a", ascii "abc", ascii "b", ascii "env", ascii "user"]) := by
  refine ⟨orderKeys_perm_eq, ?_, ?_, orderKeys_perm, ?_, by decide⟩
  · intro l
    unfold orderKeys
    simpa using sortStableByLength_keySorted _ (sortStrings_sorted l)
  · intro l
    unfold orderKeys
    simpa using sortStrings_sorted l
  · intro b l
    exact orderKeys_perm_eq b _ _ (orderKeys_perm b l)

/-! ## Last claim on the logfmt handler -/

theorem setAll_cons (m : GoMap) (p : Bytes × Bytes) (ps : List (Bytes × Bytes)) :
    setAll m (p :: ps) = setAll (mapSet m p.1 p.2) ps := rfl

theorem setAll_append (m : GoMap) (a b : List (Bytes × Bytes)) :
    setAll m (a ++ b) = setAll (setAll m a) b := by
  unfold setAll
  rw [List.foldl_append]

theorem fieldPairs_cons (kv : Bytes × Bytes) (rest : List (Bytes × Bytes)) (d0 : Dest)
    (ds : List Dest) :
    fieldPairs (kv :: rest) (d0 :: ds) =
      if d0 = Dest.field then kv :: fieldPairs rest ds else fieldPairs rest ds := by
  unfold fieldPairs
  by_cases h : d0 = Dest.field
  · simp [h]
  · simp [h]

/-- Fields after the loops is Fields before them with the unclaimed pairs
assigned in line order. -/
theorem handleKeyvals_fields (ext : Externals) (h : LogfmtHandler)
    (kvs : List (Bytes × Bytes)) :
    (handleKeyvals ext h kvs).1.Fields.getD [] =
      setAll (h.Fields.getD []) (fieldPairs kvs (handleKeyvals ext h kvs).2) := by
  induction kvs generalizing h with
  | nil => rfl
  | cons kv rest ih =>
    obtain ⟨k, v⟩ := kv
    rw [handleKeyvals_cons]
    simp only [fieldPairs_cons]
    rw [ih]
    rcases handleKeyval_cases ext h k v with ⟨t, _, _, _, e⟩ | ⟨_, _, e⟩ | ⟨_, _, _, e⟩ | ⟨_, _, e⟩
    · rw [e]; simp
    · rw [e]; simp
    · rw [e]; simp
    · rw [e]; simp [setAll_cons]

theorem mapKeys_mapSet (m : GoMap) (k v : Bytes) :
    mapKeys (mapSet m k v) = if k ∈ mapKeys m then mapKeys m else mapKeys m ++ [k] := by
  induction m with
  | nil => simp [mapSet, mapKeys]
  | cons e rest ih =>
    obtain ⟨k1, v1⟩ := e
    by_cases hk : k1 = k
    · subst hk
      simp [mapSet, mapKeys]
    · have hk2 : ¬ k = k1 := fun h => hk h.symm
      simp only [mapKeys] at ih
      by_cases hmem : k ∈ List.map Prod.fst rest
      · simp [mapSet, mapKeys, hk, hk2, hmem, ih]
      · simp [mapSet, mapKeys, hk, hk2, hmem, ih]

theorem mapSet_nodup (m : GoMap) (k v : Bytes) (hn : (mapKeys m).Nodup) :
    (mapKeys (mapSet m k v)).Nodup := by
  rw [mapKeys_mapSet]
  by_cases hk : k ∈ mapKeys m
  · rw [if_pos hk]; exact hn
  · rw [if_neg hk]
    rw [List.nodup_append]
    refine ⟨hn, by simp, ?_⟩
    intro a ha hb
    have : a = k := by simpa using hb
    exact hk (this ▸ ha)

theorem setAll_nodup (m : GoMap) (ps : List (Bytes × Bytes)) (hn : (mapKeys m).Nodup) :
    (mapKeys (setAll m ps)).Nodup := by
  induction ps generalizing m with
  | nil => exact hn
  | cons p rest ih =>
    rw [setAll_cons]
    exact ih _ (mapSet_nodup m p.1 p.2 hn)

theorem mem_mapKeys_setAll (m : GoMap) (ps : List (Bytes × Bytes)) (x : Bytes) :
    x ∈ mapKeys (setAll m ps) ↔ x ∈ mapKeys m ∨ x ∈ ps.map Prod.fst := by
  induction ps generalizing m with
  | nil => simp [setAll]
  | cons p rest ih =>
    rw [setAll_cons, ih, mapKeys_mapSet]
    by_cases hk : p.1 ∈ mapKeys m
    · rw [if_pos hk]
      simp only [List.map_cons, List.mem_cons]
      constructor
      · rintro (h | h)
        · exact Or.inl h
        · exact Or.inr (Or.inr h)
      · rintro (h | h | h)
        · exact Or.inl h
        · exact Or.inl (h ▸ hk)
        · exact Or.inr h
    · rw [if_neg hk]
      simp only [List.map_cons, List.mem_cons, List.mem_append, List.mem_singleton,
        List.not_mem_nil, or_false]
      constructor
      · rintro ((h | h) | h)
        · exact Or.inl h
        · exact Or.inr (Or.inl h)
        · exact Or.inr (Or.inr h)
      · rintro (h | h | h)
        · exact Or.inl (Or.inl h)
        · exact Or.inl (Or.inr h)
        · exact Or.inr h

theorem mapGet_mapSet_other (m : GoMap) (k1 v1 k : Bytes) (hne : k1 ≠ k) :
    mapGet (mapSet m k1 v1) k = mapGet m k := by
  induction m with
  | nil => simp [mapSet, mapGet, hne]
  | cons e rest ih =>
    obtain ⟨k2, v2⟩ := e
    by_cases h21 : k2 = k1
    · subst h21
      simp [mapSet, mapGet, hne]
    · by_cases h2 : k2 = k
      · subst h2
        simp [mapSet, mapGet, h21]
      · simp [mapSet, mapGet, h21, h2, ih]

theorem mapGet_setAll_other (m : GoMap) (ps : List (Bytes × Bytes)) (k : Bytes)
    (hk : k ∉ ps.map Prod.fst) : mapGet (setAll m ps) k = mapGet m k := by
  induction ps generalizing m with
  | nil => rfl
  | cons p rest ih =>
    simp only [List.map_cons, List.mem_cons, not_or] at hk
    rw [setAll_cons, ih _ hk.2, mapGet_mapSet_other _ _ _ _ (fun h => hk.1 h.symm)]

/-- The value held for a key is the value of its last assignment. -/
theorem mapGet_setAll_last (m : GoMap) (a b : List (Bytes × Bytes)) (k v : Bytes)
    (hk : k ∉ b.map Prod.fst) : mapGet (setAll m (a ++ (k, v) :: b)) k = some v := by
  rw [setAll_append, setAll_cons, mapGet_setAll_other _ b k hk, mapGet_mapSet_self]

theorem mapGet_of_mem (m : GoMap) (k v : Bytes) (hn : (mapKeys m).Nodup) (hm : (k, v) ∈ m) :
    mapGet m k = some v := by
  induction m with
  | nil => simp at hm
  | cons e rest ih =>
    obtain ⟨k1, v1⟩ := e
    simp only [mapKeys, List.map_cons, List.nodup_cons] at hn
    rcases List.mem_cons.mp hm with h | h
    · have h1 : k = k1 := (Prod.mk.inj h).1
      have h2 : v = v1 := (Prod.mk.inj h).2
      simp [mapGet, h1, h2]
    · have hne : k1 ≠ k := by
        intro he
        apply hn.1
        rw [he]
        exact List.mem_map.mpr ⟨(k, v), h, rfl⟩
      simp only [mapGet, hne, if_false]
      exact ih hn.2 h

theorem mem_of_mapGet (m : GoMap) (k v : Bytes) (hg : mapGet m k = some v) : (k, v) ∈ m := by
  induction m with
  | nil => simp [mapGet] at hg
  | cons e rest ih =>
    obtain ⟨k1, v1⟩ := e
    by_cases h : k1 = k
    · simp only [mapGet, h, if_true, Option.some.injEq] at hg
      rw [h, hg]
      exact List.mem_cons_self _ _
    · simp only [mapGet, h, if_false] at hg
      exact List.mem_cons_of_mem _ (ih hg)

/-- The map a successful `TryHandle` leaves in Fields: the unclaimed pairs
assigned in line order to an empty map. -/
theorem tryHandle_fields (ext : Externals) (h : LogfmtHandler) (d : Bytes) :
    (h.clear.unmarshalTrace ext d).1.Fields.getD [] = setAll [] (unclaimedPairs ext h d) := by
  obtain ⟨h0, -, -, -, -, hf0, htr⟩ := unmarshalTrace_eq ext h.clear d
  have hf : h0.Fields.getD [] = [] := by
    rw [hf0]
    rfl
  unfold unclaimedPairs destsOf
  rw [htr, handleKeyvals_fields, hf]

/-- C27: on success TryHandle overwrites Timestamp, Msg and Lvl of the output
event and appends exactly one KV per entry of Fields to out.Kvs, keeping every
entry that was there: the new length is the old length plus the number of
distinct unclaimed keys, the appended keys are pairwise distinct, a key brings
the value of its last unclaimed occurrence, and the keys of out.Kvs are all
distinct when out.Kvs was empty before the call. -/
theorem C27_success_appends_fields (ext : Externals) (h : LogfmtHandler) (d : Bytes)
    (out : StructuredLogEvent) (h2 : LogfmtHandler) (out2 : StructuredLogEvent)
    (hres : LogfmtHandler.TryHandle ext h d out = (true, h2, out2)) :
    out2.Timestamp = some h2.Time ∧ out2.Msg = h2.Message ∧ out2.Lvl = h2.Level ∧
    out2.Kvs.take out.Kvs.length = out.Kvs ∧
    (out2.Kvs.drop out.Kvs.length).Perm ((h2.Fields.getD []).map (fun e => KV.mk e.1 e.2)) ∧
    out2.Kvs.length =
      out.Kvs.length + ((unclaimedPairs ext h d).map Prod.fst).dedup.length ∧
    ((out2.Kvs.drop out.Kvs.length).map KV.Key).Nodup ∧
    (∀ (a b : List (Bytes × Bytes)) (k v : Bytes),
      unclaimedPairs ext h d = a ++ (k, v) :: b → k ∉ b.map Prod.fst →
      KV.mk k v ∈ out2.Kvs.drop out.Kvs.length ∧
      ∀ kv ∈ out2.Kvs.drop out.Kvs.length, kv.Key = k → kv.Value = v) ∧
    (out.Kvs = [] → (out2.Kvs.map KV.Key).Nodup) := by
  have hok : (LogfmtHandler.TryHandle ext h d out).1 = true := by rw [hres]
  obtain ⟨hh, hout⟩ := tryHandle_of_true ext h d out hok
  rw [hres] at hh hout
  simp only at hh hout
  have hfields := tryHandle_fields ext h d
  rw [← hh] at hout hfields
  have hnd : (mapKeys (h2.Fields.getD [])).Nodup := by
    rw [hfields]
    exact setAll_nodup [] _ (by simp [mapKeys])
  have hperm := ext.rangeOrder_perm (h2.Fields.getD [])
  have hdrop : out2.Kvs.drop out.Kvs.length =
      (ext.rangeOrder (h2.Fields.getD [])).map (fun e => KV.mk e.1 e.2) := by
    rw [hout]
    simp
  have hkeys : (out2.Kvs.drop out.Kvs.length).map KV.Key =
      mapKeys (ext.rangeOrder (h2.Fields.getD [])) := by
    rw [hdrop, mapKeys, List.map_map]
    rfl
  have hkeysNodup : ((out2.Kvs.drop out.Kvs.length).map KV.Key).Nodup := by
    rw [hkeys]
    exact ((hperm.map Prod.fst).nodup_iff).mpr hnd
  refine ⟨by rw [hout], by rw [hout], by rw [hout], ?_, ?_, ?_, hkeysNodup, ?_, ?_⟩
  · rw [hout]
    simp
  · rw [hdrop]
    exact hperm.map _
  · have hlen : (mapKeys (h2.Fields.getD [])).length =
        ((unclaimedPairs ext h d).map Prod.fst).dedup.length := by
      apply List.Perm.length_eq
      rw [List.perm_ext_iff_of_nodup hnd (List.nodup_dedup _)]
      intro x
      rw [hfields, mem_mapKeys_setAll, List.mem_dedup]
      simp [mapKeys]
    rw [← hlen, hout]
    simp [mapKeys, hperm.length_eq]
  · intro a b k v hu hk
    have hget : mapGet (h2.Fields.getD []) k = some v := by
      rw [hfields, hu]
      exact mapGet_setAll_last [] a b k v hk
    constructor
    · rw [hdrop]
      apply List.mem_map.mpr
      exact ⟨(k, v), hperm.mem_iff.mpr (mem_of_mapGet _ k v hget), rfl⟩
    · intro kv hkv hkey
      rw [hdrop] at hkv
      obtain ⟨e, he, hekv⟩ := List.mem_map.mp hkv
      have he2 := mapGet_of_mem _ e.1 e.2 hnd (hperm.mem_iff.mp he)
      have hk1 : e.1 = k := by rw [← hkey, ← hekv]
      rw [hk1, hget] at he2
      have : v = e.2 := by simpa using he2
      rw [← hekv, this]
  · intro hempty
    have : out2.Kvs = out2.Kvs.drop out.Kvs.length := by rw [hempty]; rfl
    rw [this]
    exact hkeysNodup

/-- C27, at the line `msg=hi code=1 user=bob code=2` with an empty event: msg is
claimed as the message, code is repeated, and the event gets two KVs, code with
the value 2 of its last occurrence and user=bob. -/
theorem C27_success_appends_fields_witness :
    LogfmtHandler.TryHandle repeatExt (newLogfmtHandler DefaultOptions)
        (ascii "msg=hi code=1 user=bob code=2") emptyEvent =
      (true,
        { Opts := DefaultOptions, Level := [], Time := GoTime.zero, Message := ascii "hi",
          Fields := some [(ascii "code", ascii "2"), (ascii "user", ascii "bob")] },
        { Timestamp := some GoTime.zero, Msg := ascii "hi", Lvl := [],
          Kvs := [⟨ascii "code", ascii "2"⟩, ⟨ascii "user", ascii "bob"⟩] }) ∧
    unclaimedPairs repeatExt (newLogfmtHandler DefaultOptions)
        (ascii "msg=hi code=1 user=bob code=2") =
      [(ascii "code", ascii "1"), (ascii "user", ascii "bob"), (ascii "code", ascii "2")] ∧
    ([⟨ascii "code", ascii "2"⟩, ⟨ascii "user", ascii "bob"⟩] : List KV).length =
      emptyEvent.Kvs.length +
        ((unclaimedPairs repeatExt (newLogfmtHandler DefaultOptions)
          (ascii "msg=hi code=1 user=bob code=2")).map Prod.fst).dedup.length :=
  ⟨by decide, by decide,
    (C27_success_appends_fields repeatExt (newLogfmtHandler DefaultOptions)
      (ascii "msg=hi code=1 user=bob code=2") emptyEvent
      { Opts := DefaultOptions, Level := [], Time := GoTime.zero, Message := ascii "hi",
        Fields := some [(ascii "code", ascii "2"), (ascii "user", ascii "bob")] }
      { Timestamp := some GoTime.zero, Msg := ascii "hi", Lvl := [],
        Kvs := [⟨ascii "code", ascii "2"⟩, ⟨ascii "user", ascii "bob"⟩] }
      (by decide)).2.2.2.2.2.1⟩

/-! ## Lemmas on the line reader -/

theorem scanTokens_too_long (cur rest : Bytes) (h : MaxScanTokenSize ≤ cur.length) :
    scanTokens cur rest = ([], true) := by
  cases rest <;> simp [scanTokens, h]

theorem scanTokens_byte (cur rest : Bytes) (b : Nat) (h : cur.length < MaxScanTokenSize)
    (hb : b ≠ 10) : scanTokens cur (b :: rest) = scanTokens (cur ++ [b]) rest := by
  have h1 : ¬ MaxScanTokenSize ≤ cur.length := by omega
  simp [scanTokens, h1, hb]

theorem scanTokens_lineFeed (cur rest : Bytes) (h : cur.length < MaxScanTokenSize) :
    scanTokens cur (10 :: rest) =
      (dropCR cur :: (scanTokens [] rest).1, (scanTokens [] rest).2) := by
  have h1 : ¬ MaxScanTokenSize ≤ cur.length := by omega
  simp [scanTokens, h1]

theorem scanTokens_end (cur : Bytes) (h : cur.length < MaxScanTokenSize) :
    scanTokens cur [] = (if cur = [] then [] else [dropCR cur], false) := by
  have h1 : ¬ MaxScanTokenSize ≤ cur.length := by omega
  simp [scanTokens, h1]

/-- A line below the limit, followed by its line feed, is yielded without a
trailing carriage return, and the scan goes on after it. -/
theorem scanTokens_line (cur l rest : Bytes) (hl : 10 ∉ l)
    (hlen : (cur ++ l).length < MaxScanTokenSize) :
    scanTokens cur (l ++ 10 :: rest) =
      (dropCR (cur ++ l) :: (scanTokens [] rest).1, (scanTokens [] rest).2) := by
  induction l generalizing cur with
  | nil =>
    simp only [List.append_nil, List.nil_append] at hlen ⊢
    exact scanTokens_lineFeed cur rest hlen
  | cons b l1 ih =>
    have hb : b ≠ 10 := fun h => hl (h ▸ List.mem_cons_self _ _)
    have hcur : cur.length < MaxScanTokenSize := by
      simp only [List.length_append, List.length_cons] at hlen
      omega
    rw [List.cons_append, scanTokens_byte cur _ b hcur hb]
    have hassoc : cur ++ b :: l1 = (cur ++ [b]) ++ l1 := by simp
    rw [hassoc] at hlen ⊢
    exact ih (cur ++ [b]) (fun h => hl (List.mem_cons_of_mem _ h)) hlen

/-- Unterminated bytes below the limit at the end of the data are yielded as a
last token when there are any. -/
theorem scanTokens_last (cur l : Bytes) (hl : 10 ∉ l)
    (hlen : (cur ++ l).length < MaxScanTokenSize) :
    scanTokens cur l = (if cur ++ l = [] then [] else [dropCR (cur ++ l)], false) := by
  induction l generalizing cur with
  | nil =>
    simp only [List.append_nil] at hlen ⊢
    exact scanTokens_end cur hlen
  | cons b l1 ih =>
    have hb : b ≠ 10 := fun h => hl (h ▸ List.mem_cons_self _ _)
    have hcur : cur.length < MaxScanTokenSize := by
      simp only [List.length_append, List.length_cons] at hlen
      omega
    rw [scanTokens_byte cur _ b hcur hb]
    have hassoc : cur ++ b :: l1 = (cur ++ [b]) ++ l1 := by simp
    rw [hassoc] at hlen ⊢
    exact ih (cur ++ [b]) (fun h => hl (List.mem_cons_of_mem _ h)) hlen

/-- A line that reaches the limit ends the scan, whatever follows. -/
theorem scanTokens_long (cur l rest : Bytes) (hl : 10 ∉ l)
    (hlen : MaxScanTokenSize ≤ (cur ++ l).length) :
    scanTokens cur (l ++ rest) = ([], true) := by
  induction l generalizing cur with
  | nil =>
    simp only [List.append_nil] at hlen
    exact scanTokens_too_long cur _ hlen
  | cons b l1 ih =>
    by_cases hcur : MaxScanTokenSize ≤ cur.length
    · exact scanTokens_too_long cur _ hcur
    · have hb : b ≠ 10 := fun h => hl (h ▸ List.mem_cons_self _ _)
      rw [List.cons_append, scanTokens_byte cur _ b (by omega) hb]
      have hassoc : cur ++ b :: l1 = (cur ++ [b]) ++ l1 := by simp
      rw [hassoc] at hlen
      exact ih (cur ++ [b]) (fun h => hl (List.mem_cons_of_mem _ h)) hlen

/-- The tokens of an input whose lines are all below the limit: its lines,
without their trailing carriage returns. -/
theorem scanTokens_lines (ls : List Bytes) (last rest : Bytes)
    (hls : ∀ l ∈ ls, 10 ∉ l ∧ l.length < MaxScanTokenSize) :
    scanTokens [] (inputOf ls last ++ rest) =
      (ls.map dropCR ++ (scanTokens [] (last ++ rest)).1, (scanTokens [] (last ++ rest)).2) := by
  induction ls with
  | nil => simp [inputOf]
  | cons l ls1 ih =>
    have h1 := hls l (List.mem_cons_self _ _)
    have hstep : inputOf (l :: ls1) last ++ rest = l ++ 10 :: (inputOf ls1 last ++ rest) := by
      simp [inputOf]
    rw [hstep, scanTokens_line [] l _ h1.1 (by simpa using h1.2),
      ih (fun x hx => hls x (List.mem_cons_of_mem _ hx))]
    simp

theorem bufioScan_lines (ls : List Bytes) (last : Bytes) (srcErr : GoError)
    (hls : ∀ l ∈ ls, 10 ∉ l ∧ l.length < MaxScanTokenSize)
    (hlast : 10 ∉ last ∧ last.length < MaxScanTokenSize) :
    bufioScan (inputOf ls last) srcErr =
      ((ls ++ (if last = [] then [] else [last])).map dropCR,
        match srcErr with
        | GoError.EOF => none
        | err => some err) := by
  have h := scanTokens_lines ls last [] hls
  rw [List.append_nil, List.append_nil,
    scanTokens_last [] last hlast.1 (by simpa using hlast.2)] at h
  unfold bufioScan
  rw [h]
  by_cases hl : last = []
  · simp [hl]
  · simp [hl]

theorem bufioScan_long (ls : List Bytes) (long rest : Bytes) (srcErr : GoError)
    (hls : ∀ l ∈ ls, 10 ∉ l ∧ l.length < MaxScanTokenSize)
    (hlong : 10 ∉ long ∧ MaxScanTokenSize ≤ long.length) :
    bufioScan (inputOf ls long ++ rest) srcErr = (ls.map dropCR, some ErrTooLong) := by
  have h := scanTokens_lines ls long rest hls
  rw [scanTokens_long [] long rest hlong.1 (by simpa using hlong.2)] at h
  unfold bufioScan
  rw [h]
  simp

theorem scannerFrom_eq {J L : Type} (H : Handlers J L) (opts : HandlerOptions) (j0 : J) (l0 : L)
    (src : Bytes) (srcErr : GoError) (lines : List Bytes) (e : Option GoError)
    (h : bufioScan src srcErr = (lines, e)) :
    ScannerFrom H opts j0 l0 src srcErr = Scanner H opts j0 l0 lines e := by
  unfold ScannerFrom
  rw [h]

theorem output_flatten (rs : List LineRecord) :
    ((rs.map (fun r => [r.body, eol])).flatten).flatten =
      (rs.map (fun r => r.body ++ [10])).flatten := by
  induction rs with
  | nil => rfl
  | cons r rest ih =>
    simp only [eol] at ih
    simp [eol, ih]

theorem threeLinesOneLong_eq :
    threeLinesOneLong = inputOf [ascii "ok"] longLine ++ (10 :: inputOf [ascii "end"] []) := by
  simp [threeLinesOneLong, inputOf]

theorem longLine_spec : 10 ∉ longLine ∧ MaxScanTokenSize ≤ longLine.length := by
  constructor
  · intro h
    have h1 := List.eq_of_mem_replicate h
    omega
  · simp [longLine]

/-- The run of `Scanner` on an input whose lines are all below the limit is its
run on these lines, without their trailing carriage returns. -/
theorem scannerFrom_lines {J L : Type} (H : Handlers J L) (opts : HandlerOptions) (j0 : J)
    (l0 : L) (ls : List Bytes) (last : Bytes) (srcErr : GoError)
    (hls : ∀ l ∈ ls, 10 ∉ l ∧ l.length < MaxScanTokenSize)
    (hlast : 10 ∉ last ∧ last.length < MaxScanTokenSize) :
    ScannerFrom H opts j0 l0 (inputOf ls last) srcErr =
      Scanner H opts j0 l0 ((ls ++ (if last = [] then [] else [last])).map dropCR)
        (match srcErr with
         | GoError.EOF => none
         | err => some err) :=
  scannerFrom_eq H opts j0 l0 _ _ _ _ (bufioScan_lines ls last srcErr hls hlast)

theorem scanner_snd_of_source {J L : Type} (H : Handlers J L) (opts : HandlerOptions) (j0 : J)
    (l0 : L) (lines : List Bytes) (srcErr : GoError) :
    (Scanner H opts j0 l0 lines
        (match srcErr with
         | GoError.EOF => none
         | err => some err)).2 =
      (match srcErr with
       | GoError.EOF => none
       | err => some err) := by
  cases srcErr <;> rfl

/-! ## Lemmas on the recognizers' arguments -/

/-- One iteration of the loop with the handlers that keep their arguments: the
run is the one of the handlers themselves, and each handler was called on the
trimmed line, as often as the arm taken tells. -/
theorem scanLine_logArgs {J L : Type} (H : Handlers J L) (opts : HandlerOptions)
    (st : ScanState (J × List Bytes) (L × List Bytes)) (raw : Bytes) :
    unlogged (scanLine (logArgs H) opts st raw) = scanLine H opts (unlogged st) raw ∧
    ∃ r : LineRecord,
      (scanLine (logArgs H) opts st raw).records = st.records ++ [r] ∧
      r.input = raw ∧
      (scanLine (logArgs H) opts st raw).jsonEntry.2 =
        st.jsonEntry.2 ++ List.replicate (jsonCalls r.arm) (TrimPrefix raw ceeTag) ∧
      (scanLine (logArgs H) opts st raw).logfmtEntry.2 =
        st.logfmtEntry.2 ++ List.replicate (logfmtCalls r.arm) (TrimPrefix raw ceeTag) := by
  simp only [scanLine, logArgs, unlogged]
  split_ifs <;> simp [jsonCalls, logfmtCalls, List.replicate]

theorem scanLoop_logArgs {J L : Type} (H : Handlers J L) (opts : HandlerOptions)
    (st : ScanState (J × List Bytes) (L × List Bytes)) (lines : List Bytes) :
    unlogged (scanLoop (logArgs H) opts st lines) = scanLoop H opts (unlogged st) lines ∧
    ∃ rs : List LineRecord,
      (scanLoop (logArgs H) opts st lines).records = st.records ++ rs ∧
      rs.map LineRecord.input = lines ∧
      (scanLoop (logArgs H) opts st lines).jsonEntry.2 =
        st.jsonEntry.2 ++ (rs.map (fun r =>
          List.replicate (jsonCalls r.arm) (TrimPrefix r.input ceeTag))).flatten ∧
      (scanLoop (logArgs H) opts st lines).logfmtEntry.2 =
        st.logfmtEntry.2 ++ (rs.map (fun r =>
          List.replicate (logfmtCalls r.arm) (TrimPrefix r.input ceeTag))).flatten := by
  induction lines generalizing st with
  | nil => exact ⟨rfl, [], by simp [scanLoop_nil], rfl, by simp [scanLoop_nil],
      by simp [scanLoop_nil]⟩
  | cons d rest ih =>
    obtain ⟨hu, r, hrec, hin, hj, hl⟩ := scanLine_logArgs H opts st d
    obtain ⟨hu2, rs, hrs, hmap, hj2, hl2⟩ := ih (scanLine (logArgs H) opts st d)
    rw [scanLoop_cons, scanLoop_cons]
    refine ⟨by rw [hu2, hu], r :: rs, ?_, ?_, ?_, ?_⟩
    · rw [hrs, hrec]; simp
    · simp [hin, hmap]
    · rw [hj2, hj]; simp [hin]
    · rw [hl2, hl]; simp [hin]

theorem jsonCalls_pos (a : Arm) : jsonCalls a ≠ 0 := by
  cases a <;> simp [jsonCalls]

/-! ## Claims on the scanner and its line reader -/

/-- C3 (as stated, refuted): on an input of three terminated lines, the second
of 65536 bytes, read to a clean end of stream, Scanner writes the first line and
one terminator, two writes in all, and returns the error of the line reader:
the long line and the line after it get no terminator. -/
theorem C3_counterexample_long_line_ends_the_run :
    threeLinesOneLong = inputOf [ascii "ok", longLine, ascii "end"] [] ∧
    longLine.length = 65536 ∧
    (ScannerFrom sampleHandlers DefaultOptions [] [] threeLinesOneLong GoError.EOF).1.writes =
      [ascii "ok", eol] ∧
    (ScannerFrom sampleHandlers DefaultOptions [] [] threeLinesOneLong GoError.EOF).2 =
      some ErrTooLong := by
  have h : bufioScan threeLinesOneLong GoError.EOF =
      ([ascii "ok"].map dropCR, some ErrTooLong) := by
    rw [threeLinesOneLong_eq]
    exact bufioScan_long _ _ _ _ (by decide) longLine_spec
  refine ⟨rfl, by unfold longLine; rw [List.length_replicate]; rfl, ?_, ?_⟩
  · rw [scannerFrom_eq _ _ _ _ _ _ _ _ h]
    decide
  · rw [scannerFrom_eq _ _ _ _ _ _ _ _ h]
    decide

/-- C3 (amended): for every input whose first lines `ls` are each shorter than
65536 bytes, carriage return included. When the rest of the input is an
unterminated line `last` that is shorter too (or nothing), Scanner handles each
of the N lines once, in order and without its trailing carriage return, and its
writes are, line after line, the rendered or raw bytes of the line followed by a
write of the single line terminator byte: 2N writes in all, and the output is
the concatenation of N chunks, each the bytes of a line followed by one
terminator; a final line terminator is optional. When the next line has 65536
bytes or more, Scanner handles the lines `ls` only, with their 2 times the
length of `ls` writes, writes nothing for the long line nor for what follows
it, and returns the error `bufio.ErrTooLong`. -/
theorem C3_one_terminator_per_line_below_the_limit {J L : Type} (H : Handlers J L)
    (opts : HandlerOptions) (j0 : J) (l0 : L) (ls : List Bytes) (srcErr : GoError)
    (hls : ∀ l ∈ ls, 10 ∉ l ∧ l.length < MaxScanTokenSize) :
    (∀ last : Bytes, 10 ∉ last → last.length < MaxScanTokenSize →
      (ScannerFrom H opts j0 l0 (inputOf ls last) srcErr).1.records.map LineRecord.input =
        (ls ++ (if last = [] then [] else [last])).map dropCR ∧
      (ScannerFrom H opts j0 l0 (inputOf ls last) srcErr).1.records.length =
        (ls ++ (if last = [] then [] else [last])).length ∧
      (ScannerFrom H opts j0 l0 (inputOf ls last) srcErr).1.writes =
        ((ScannerFrom H opts j0 l0 (inputOf ls last) srcErr).1.records.map
          (fun r => [r.body, eol])).flatten ∧
      (ScannerFrom H opts j0 l0 (inputOf ls last) srcErr).1.writes.length =
        2 * (ls ++ (if last = [] then [] else [last])).length ∧
      (ScannerFrom H opts j0 l0 (inputOf ls last) srcErr).1.output =
        ((ScannerFrom H opts j0 l0 (inputOf ls last) srcErr).1.records.map
          (fun r => r.body ++ [10])).flatten) ∧
    (∀ long rest : Bytes, 10 ∉ long → MaxScanTokenSize ≤ long.length →
      (ScannerFrom H opts j0 l0 (inputOf ls long ++ rest) srcErr).1.records.map LineRecord.input =
        ls.map dropCR ∧
      (ScannerFrom H opts j0 l0 (inputOf ls long ++ rest) srcErr).1.writes =
        ((ScannerFrom H opts j0 l0 (inputOf ls long ++ rest) srcErr).1.records.map
          (fun r => [r.body, eol])).flatten ∧
      (ScannerFrom H opts j0 l0 (inputOf ls long ++ rest) srcErr).1.writes.length =
        2 * ls.length ∧
      (ScannerFrom H opts j0 l0 (inputOf ls long ++ rest) srcErr).2 = some ErrTooLong) := by
  constructor
  · intro last h1 h2
    rw [scannerFrom_lines H opts j0 l0 ls last srcErr hls ⟨h1, h2⟩]
    obtain ⟨hin, hw, hlen⟩ := scanner_writes H opts j0 l0
      ((ls ++ (if last = [] then [] else [last])).map dropCR)
      (match srcErr with
       | GoError.EOF => none
       | err => some err)
    have hrl := congrArg List.length hin
    simp only [List.length_map] at hrl hlen
    refine ⟨hin, hrl, hw, hlen, ?_⟩
    unfold ScanState.output
    rw [hw]
    exact output_flatten _
  · intro long rest h1 h2
    rw [scannerFrom_eq H opts j0 l0 _ _ _ _ (bufioScan_long ls long rest srcErr hls ⟨h1, h2⟩)]
    obtain ⟨hin, hw, hlen⟩ := scanner_writes H opts j0 l0 (ls.map dropCR) (some ErrTooLong)
    simp only [List.length_map] at hlen
    exact ⟨hin, hw, hlen, rfl⟩

/-- C3 (amended), on an input of a JSON line ended by a carriage return and a
line feed, a plain line, and an unterminated logfmt line: three lines, six
writes. -/
theorem C3_one_terminator_per_line_below_the_limit_witness :
    (∀ l ∈ [lineJSON ++ [13], ascii "plain text"], 10 ∉ l ∧ l.length < MaxScanTokenSize) ∧
    (ScannerFrom sampleHandlers DefaultOptions [] []
        (inputOf [lineJSON ++ [13], ascii "plain text"] lineLogfmt) GoError.EOF).1.writes =
      [lineJSON, eol, ascii "plain text", eol, lineLogfmt, eol] ∧
    (ScannerFrom sampleHandlers DefaultOptions [] []
        (inputOf [lineJSON ++ [13], ascii "plain text"] lineLogfmt) GoError.EOF).1.writes.length =
      2 * ([lineJSON ++ [13], ascii "plain text"] ++
        (if lineLogfmt = [] then [] else [lineLogfmt])).length :=
  ⟨by decide, by decide,
    ((C3_one_terminator_per_line_below_the_limit sampleHandlers DefaultOptions [] []
      [lineJSON ++ [13], ascii "plain text"] GoError.EOF (by decide)).1 lineLogfmt
      (by decide) (by decide)).2.2.2.1⟩

/-- C17 (as stated, refuted): the stream delivers a terminated line and two
more bytes, then fails: the line reader yields the two bytes as a last line, and
Scanner writes them with a terminator before it returns the error. -/
theorem C17_counterexample_fragment_before_error_is_written :
    bufioScan (ascii "abc\nde") readFailed = ([ascii "abc", ascii "de"], some readFailed) ∧
    (ScannerFrom sampleHandlers DefaultOptions [] [] (ascii "abc\nde") readFailed).1.writes =
      [ascii "abc", eol, ascii "de", eol] ∧
    (ScannerFrom sampleHandlers DefaultOptions [] [] (ascii "abc\nde") readFailed).2 =
      some readFailed := by
  decide

/-- C17 (amended): Scanner returns nil when the line reader ended with nil or
with io.EOF and returns its error unchanged otherwise; whatever that error, the
lines read are handled in the same way, each written with its terminator, two
writes for each line. On an input of lines shorter than 65536 bytes that ends
on the stream's error, Scanner returns nil for io.EOF and the error unchanged
otherwise, and the lines handled do not depend on the error: they are the
terminated lines and, when the stream delivered unterminated bytes `last`
before it failed, these bytes as one more line, written with its terminator
after the writes of the lines before it. -/
theorem C17_error_returned_after_unterminated_bytes_written {J L : Type} (H : Handlers J L)
    (opts : HandlerOptions) (j0 : J) (l0 : L) (ls : List Bytes) (last : Bytes)
    (hls : ∀ l ∈ ls, 10 ∉ l ∧ l.length < MaxScanTokenSize)
    (hlast : 10 ∉ last ∧ last.length < MaxScanTokenSize) :
    (∀ lines : List Bytes,
      (Scanner H opts j0 l0 lines none).2 = none ∧
      (Scanner H opts j0 l0 lines (some GoError.EOF)).2 = none ∧
      (∀ text, (Scanner H opts j0 l0 lines (some (GoError.other text))).2 =
        some (GoError.other text)) ∧
      (∀ readErr,
        (Scanner H opts j0 l0 lines readErr).1 = (Scanner H opts j0 l0 lines none).1 ∧
        (Scanner H opts j0 l0 lines readErr).1.records.map LineRecord.input = lines ∧
        (Scanner H opts j0 l0 lines readErr).1.writes =
          ((Scanner H opts j0 l0 lines readErr).1.records.map
            (fun r => [r.body, eol])).flatten ∧
        (Scanner H opts j0 l0 lines readErr).1.writes.length = 2 * lines.length)) ∧
    (ScannerFrom H opts j0 l0 (inputOf ls last) GoError.EOF).2 = none ∧
    (∀ text, (ScannerFrom H opts j0 l0 (inputOf ls last) (GoError.other text)).2 =
      some (GoError.other text)) ∧
    (∀ srcErr,
      (ScannerFrom H opts j0 l0 (inputOf ls last) srcErr).1 =
        (ScannerFrom H opts j0 l0 (inputOf ls last) GoError.EOF).1 ∧
      (ScannerFrom H opts j0 l0 (inputOf ls last) srcErr).1.records.map LineRecord.input =
        (ls ++ (if last = [] then [] else [last])).map dropCR ∧
      (ScannerFrom H opts j0 l0 (inputOf ls last) srcErr).1.writes =
        ((ScannerFrom H opts j0 l0 (inputOf ls last) srcErr).1.records.map
          (fun r => [r.body, eol])).flatten ∧
      (ScannerFrom H opts j0 l0 (inputOf ls last) srcErr).1.writes.length =
        2 * (ls ++ (if last = [] then [] else [last])).length) ∧
    (last ≠ [] → ∀ srcErr, ∃ r : LineRecord,
      r.input = dropCR last ∧
      (ScannerFrom H opts j0 l0 (inputOf ls last) srcErr).1.records =
        (ScannerFrom H opts j0 l0 (inputOf ls []) GoError.EOF).1.records ++ [r] ∧
      (ScannerFrom H opts j0 l0 (inputOf ls last) srcErr).1.writes =
        (ScannerFrom H opts j0 l0 (inputOf ls []) GoError.EOF).1.writes ++ [r.body, eol]) := by
  refine ⟨?_, ?_, ?_, ?_, ?_⟩
  · intro lines
    refine ⟨rfl, rfl, fun _ => rfl, ?_⟩
    intro readErr
    obtain ⟨h1, h2, h3⟩ := scanner_writes H opts j0 l0 lines readErr
    exact ⟨scanner_fst_none H opts j0 l0 lines readErr, h1, h2, h3⟩
  · rw [scannerFrom_lines H opts j0 l0 ls last GoError.EOF hls hlast]
    rfl
  · intro text
    rw [scannerFrom_lines H opts j0 l0 ls last (GoError.other text) hls hlast]
    rfl
  · intro srcErr
    rw [scannerFrom_lines H opts j0 l0 ls last srcErr hls hlast,
      scannerFrom_lines H opts j0 l0 ls last GoError.EOF hls hlast]
    obtain ⟨hin, hw, hlen⟩ := scanner_writes H opts j0 l0
      ((ls ++ (if last = [] then [] else [last])).map dropCR)
      (match srcErr with
       | GoError.EOF => none
       | err => some err)
    simp only [List.length_map] at hlen
    refine ⟨?_, hin, hw, hlen⟩
    rw [scanner_fst, scanner_fst]
  · intro hne srcErr
    rw [scannerFrom_lines H opts j0 l0 ls last srcErr hls hlast,
      scannerFrom_lines H opts j0 l0 ls [] GoError.EOF hls ⟨by simp, by simp [MaxScanTokenSize]⟩]
    simp only [hne, if_false, if_true, List.append_nil, List.map_append, List.map_cons,
      List.map_nil]
    rw [scanner_snoc, scanner_fst, scanner_fst]
    obtain ⟨r, hrec, hwr, hin, -⟩ :=
      scanLine_spec H opts (scanLoop H opts (scanInit j0 l0) (ls.map dropCR)) (dropCR last)
    exact ⟨r, hin, hrec, hwr⟩

/-- C17 (amended), on the stream that delivers a terminated JSON line and the
bytes of a plain line, then fails. -/
theorem C17_error_returned_after_unterminated_bytes_written_witness :
    ((∀ l ∈ [lineJSON], 10 ∉ l ∧ l.length < MaxScanTokenSize) ∧
      (10 ∉ ascii "plain" ∧ (ascii "plain").length < MaxScanTokenSize)) ∧
    (ScannerFrom sampleHandlers DefaultOptions [] [] (inputOf [lineJSON] (ascii "plain"))
        readFailed).1.writes = [lineJSON, eol, ascii "plain", eol] ∧
    (∀ text, (ScannerFrom sampleHandlers DefaultOptions [] []
        (inputOf [lineJSON] (ascii "plain")) (GoError.other text)).2 =
      some (GoError.other text)) :=
  ⟨⟨by decide, by decide⟩, by decide,
    (C17_error_returned_after_unterminated_bytes_written sampleHandlers DefaultOptions [] []
      [lineJSON] (ascii "plain") (by decide) (by decide)).2.2.1⟩

/-- C15: every recognizer is given the line with the tag `@cee: ` removed once
from its start, and a line that does not start with the tag unchanged. With
handlers that keep the byte slices they are called on, the run is the run of the
handlers themselves, and the slices each handler was called on are, line after
line, copies of `TrimPrefix line "@cee: "`, as many as the arm taken tells;
every slice given to a recognizer is the trimmed form of a line of the input,
and the trimmed form of every line is given to the JSON recognizer. Scanner
handles two lines with the same trimmed bytes alike (same writes, same handler
states and flags afterwards, same arm, Prettify argument and rendered bytes), so
the tag followed by a line that does not itself start with the tag, a JSON
object for instance, is handled exactly as that line. With the stand-in
handlers the tagged JSON line reaches the JSON recognizer as the bare object, is
taken by the JSON arm and rendered as the bare one; a JSON line behind two tags
reaches the recognizers behind one tag and is written so by pass-through. -/
theorem C15_recognizers_are_given_the_line_without_tag :
    (∀ (J L : Type) (H : Handlers J L) (opts : HandlerOptions) (j0 : J) (l0 : L)
        (lines : List Bytes) (readErr : Option GoError),
      unlogged (Scanner (logArgs H) opts (j0, []) (l0, []) lines readErr).1 =
        (Scanner H opts j0 l0 lines readErr).1 ∧
      (Scanner H opts j0 l0 lines readErr).1.records.map LineRecord.input = lines ∧
      (Scanner (logArgs H) opts (j0, []) (l0, []) lines readErr).1.jsonEntry.2 =
        ((Scanner H opts j0 l0 lines readErr).1.records.map (fun r =>
          List.replicate (jsonCalls r.arm) (TrimPrefix r.input ceeTag))).flatten ∧
      (Scanner (logArgs H) opts (j0, []) (l0, []) lines readErr).1.logfmtEntry.2 =
        ((Scanner H opts j0 l0 lines readErr).1.records.map (fun r =>
          List.replicate (logfmtCalls r.arm) (TrimPrefix r.input ceeTag))).flatten ∧
      (∀ a ∈ (Scanner (logArgs H) opts (j0, []) (l0, []) lines readErr).1.jsonEntry.2,
        ∃ d ∈ lines, a = TrimPrefix d ceeTag) ∧
      (∀ a ∈ (Scanner (logArgs H) opts (j0, []) (l0, []) lines readErr).1.logfmtEntry.2,
        ∃ d ∈ lines, a = TrimPrefix d ceeTag) ∧
      (∀ d ∈ lines, TrimPrefix d ceeTag ∈
        (Scanner (logArgs H) opts (j0, []) (l0, []) lines readErr).1.jsonEntry.2)) ∧
    (∀ t : Bytes, TrimPrefix (ceeTag ++ t) ceeTag = t) ∧
    (∀ d : Bytes, ceeTag.isPrefixOf d = false → TrimPrefix d ceeTag = d) ∧
    (∀ (J L : Type) (H : Handlers J L) (opts : HandlerOptions) (j0 : J) (l0 : L)
        (readErr : Option GoError) (pre : List Bytes) (raw raw2 : Bytes),
      TrimPrefix raw ceeTag = TrimPrefix raw2 ceeTag →
      (Scanner H opts j0 l0 (pre ++ [raw]) readErr).1.writes =
        (Scanner H opts j0 l0 (pre ++ [raw2]) readErr).1.writes ∧
      (Scanner H opts j0 l0 (pre ++ [raw]) readErr).1.jsonEntry =
        (Scanner H opts j0 l0 (pre ++ [raw2]) readErr).1.jsonEntry ∧
      (Scanner H opts j0 l0 (pre ++ [raw]) readErr).1.logfmtEntry =
        (Scanner H opts j0 l0 (pre ++ [raw2]) readErr).1.logfmtEntry ∧
      (Scanner H opts j0 l0 (pre ++ [raw]) readErr).1.lastJSON =
        (Scanner H opts j0 l0 (pre ++ [raw2]) readErr).1.lastJSON ∧
      (Scanner H opts j0 l0 (pre ++ [raw]) readErr).1.lastLogfmt =
        (Scanner H opts j0 l0 (pre ++ [raw2]) readErr).1.lastLogfmt ∧
      (Scanner H opts j0 l0 (pre ++ [raw]) readErr).1.records.map
          (fun r => (r.arm, r.skipUnchanged, r.body)) =
        (Scanner H opts j0 l0 (pre ++ [raw2]) readErr).1.records.map
          (fun r => (r.arm, r.skipUnchanged, r.body))) ∧
    (∀ (J L : Type) (H : Handlers J L) (opts : HandlerOptions) (j0 : J) (l0 : L)
        (readErr : Option GoError) (pre : List Bytes) (t : Bytes),
      ceeTag.isPrefixOf t = false →
      (Scanner H opts j0 l0 (pre ++ [ceeTag ++ t]) readErr).1.writes =
        (Scanner H opts j0 l0 (pre ++ [t]) readErr).1.writes ∧
      (Scanner H opts j0 l0 (pre ++ [ceeTag ++ t]) readErr).1.records.map
          (fun r => (r.arm, r.skipUnchanged, r.body)) =
        (Scanner H opts j0 l0 (pre ++ [t]) readErr).1.records.map
          (fun r => (r.arm, r.skipUnchanged, r.body))) ∧
    ((Scanner sampleHandlers DefaultOptions [] [] [ceeTag ++ lineJSON] none).1.records =
        [⟨ceeTag ++ lineJSON, Arm.json, false, lineJSON⟩] ∧
      (Scanner sampleHandlers DefaultOptions [] [] [ceeTag ++ lineJSON] none).1.writes =
        (Scanner sampleHandlers DefaultOptions [] [] [lineJSON] none).1.writes ∧
      (Scanner (logArgs sampleHandlers) DefaultOptions ([], []) ([], [])
          [ceeTag ++ lineJSON] none).1.jsonEntry.2 = [lineJSON] ∧
      (Scanner (logArgs sampleHandlers) DefaultOptions ([], []) ([], [])
          [ceeTag ++ lineJSON] none).1.logfmtEntry.2 = [] ∧
      (Scanner (logArgs sampleHandlers) DefaultOptions ([], []) ([], [])
          [ceeTag ++ (ceeTag ++ lineJSON)] none).1.jsonEntry.2 =
        [ceeTag ++ lineJSON, ceeTag ++ lineJSON, ceeTag ++ lineJSON] ∧
      (Scanner (logArgs sampleHandlers) DefaultOptions ([], []) ([], [])
          [ceeTag ++ (ceeTag ++ lineJSON)] none).1.logfmtEntry.2 =
        [ceeTag ++ lineJSON, ceeTag ++ lineJSON] ∧
      (Scanner sampleHandlers DefaultOptions [] [] [ceeTag ++ (ceeTag ++ lineJSON)] none).1.records =
        [⟨ceeTag ++ (ceeTag ++ lineJSON), Arm.passThrough, false, ceeTag ++ lineJSON⟩]) := by
  have hmain : ∀ (J L : Type) (H : Handlers J L) (opts : HandlerOptions) (j0 : J) (l0 : L)
      (readErr : Option GoError) (pre : List Bytes) (raw raw2 : Bytes),
      TrimPrefix raw ceeTag = TrimPrefix raw2 ceeTag →
      (Scanner H opts j0 l0 (pre ++ [raw]) readErr).1.writes =
        (Scanner H opts j0 l0 (pre ++ [raw2]) readErr).1.writes ∧
      (Scanner H opts j0 l0 (pre ++ [raw]) readErr).1.jsonEntry =
        (Scanner H opts j0 l0 (pre ++ [raw2]) readErr).1.jsonEntry ∧
      (Scanner H opts j0 l0 (pre ++ [raw]) readErr).1.logfmtEntry =
        (Scanner H opts j0 l0 (pre ++ [raw2]) readErr).1.logfmtEntry ∧
      (Scanner H opts j0 l0 (pre ++ [raw]) readErr).1.lastJSON =
        (Scanner H opts j0 l0 (pre ++ [raw2]) readErr).1.lastJSON ∧
      (Scanner H opts j0 l0 (pre ++ [raw]) readErr).1.lastLogfmt =
        (Scanner H opts j0 l0 (pre ++ [raw2]) readErr).1.lastLogfmt ∧
      (Scanner H opts j0 l0 (pre ++ [raw]) readErr).1.records.map
          (fun r => (r.arm, r.skipUnchanged, r.body)) =
        (Scanner H opts j0 l0 (pre ++ [raw2]) readErr).1.records.map
          (fun r => (r.arm, r.skipUnchanged, r.body)) := by
    intro J L H opts j0 l0 readErr pre raw raw2 h
    rw [scanner_snoc, scanner_snoc]
    exact scanLine_congr H opts _ raw raw2 h
  refine ⟨?_, trimPrefix_tagged, trimPrefix_untagged, hmain, ?_, by decide⟩
  · intro J L H opts j0 l0 lines readErr
    obtain ⟨hu, rs, hrs, hmap, hj, hl⟩ :=
      scanLoop_logArgs H opts (scanInit (j0, []) (l0, [])) lines
    have hinit : unlogged (scanInit (j0, ([] : List Bytes)) (l0, ([] : List Bytes))) =
        (scanInit j0 l0 : ScanState J L) := rfl
    rw [hinit] at hu
    have hrec : (scanLoop H opts (scanInit j0 l0) lines).records = rs := by
      rw [← hu]
      show (scanLoop (logArgs H) opts (scanInit (j0, []) (l0, [])) lines).records = rs
      rw [hrs]
      simp [scanInit]
    have hj1 : (scanLoop (logArgs H) opts (scanInit (j0, []) (l0, [])) lines).jsonEntry.2 =
        (rs.map (fun r =>
          List.replicate (jsonCalls r.arm) (TrimPrefix r.input ceeTag))).flatten := by
      rw [hj]
      simp [scanInit]
    have hl1 : (scanLoop (logArgs H) opts (scanInit (j0, []) (l0, [])) lines).logfmtEntry.2 =
        (rs.map (fun r =>
          List.replicate (logfmtCalls r.arm) (TrimPrefix r.input ceeTag))).flatten := by
      rw [hl]
      simp [scanInit]
    simp only [scanner_fst]
    rw [hrec, hj1, hl1]
    refine ⟨hu, hmap, rfl, rfl, ?_, ?_, ?_⟩
    · intro a ha
      obtain ⟨l, hl0, hal⟩ := List.mem_flatten.mp ha
      obtain ⟨r, hr, rfl⟩ := List.mem_map.mp hl0
      refine ⟨r.input, ?_, List.eq_of_mem_replicate hal⟩
      rw [← hmap]
      exact List.mem_map_of_mem _ hr
    · intro a ha
      obtain ⟨l, hl0, hal⟩ := List.mem_flatten.mp ha
      obtain ⟨r, hr, rfl⟩ := List.mem_map.mp hl0
      refine ⟨r.input, ?_, List.eq_of_mem_replicate hal⟩
      rw [← hmap]
      exact List.mem_map_of_mem _ hr
    · intro d hd
      rw [← hmap] at hd
      obtain ⟨r, hr, rfl⟩ := List.mem_map.mp hd
      apply List.mem_flatten.mpr
      refine ⟨_, List.mem_map_of_mem _ hr, ?_⟩
      exact List.mem_replicate.mpr ⟨jsonCalls_pos r.arm, rfl⟩
  · intro J L H opts j0 l0 readErr pre t ht
    have h : TrimPrefix (ceeTag ++ t) ceeTag = TrimPrefix t ceeTag := by
      rw [trimPrefix_tagged, trimPrefix_untagged t ht]
    obtain ⟨hw, -, -, -, -, hrec⟩ := hmain J L H opts j0 l0 readErr pre _ _ h
    exact ⟨hw, hrec⟩

end Humanlog
